import Mathlib

/-! Static mode table generator (`jni/opus/celt/dump_modes/dump_modes.c`)

A shallow embedding of `dump_modes`, `dump_header` and `main`.

* A C `int` is an `Int`; `/` and `%` are the truncating `Int.tdiv` and
  `Int.tmod`.  Signed overflow and division by zero are undefined in C; the
  embedding computes on unbounded integers and `Int.tdiv x 0 = 0`.
* A C array reached through a pointer is a function `Nat → _`: the emitter
  never knows a length other than the one it recomputes from scalar fields.
* The `FILE*` the code prints to is the list of its `fprintf` calls, each an
  `Item`; `Item.render` gives the exact characters of the call and
  `renderAll` the text of the file.
* `FIXED_POINT` (a compile-time switch), and `MAXFACTORS` (from `kiss_fft.h`)
  are fields of `Env`.
-/

namespace DumpModes

/-! ## Descriptors (`modes.h`, `mdct.h`, `kiss_fft.h`, `rate.h`) -/

/-- The `kiss_fft_state` fields the generator reads. `scale` exists in the
floating-point build only. -/
structure KissFftState (V : Type) where
  nfft : Int
  scale : V
  shift : Int
  factors : Nat → Int
  bitrev : Nat → Int
  twiddles : Nat → V × V

/-- The `mdct_lookup` fields the generator reads. -/
structure MdctLookup (V : Type) where
  n : Int
  maxshift : Int
  kfft : Nat → KissFftState V
  trig : Nat → V

/-- The `PulseCache` fields the generator reads. -/
structure PulseCache where
  size : Int
  index : Nat → Int
  bits : Nat → Int
  caps : Nat → Int

/-- The `CELTMode` descriptor; `V` is the type of `opus_val16`
(`opus_int16` when `FIXED_POINT`, `float` otherwise). -/
structure CELTMode (V : Type) where
  Fs : Int
  overlap : Int
  nbEBands : Int
  effEBands : Int
  preemph : Nat → V
  eBands : Nat → Int
  maxLM : Int
  nbShortMdcts : Int
  shortMdctSize : Int
  nbAllocVectors : Int
  allocVectors : Nat → Int
  logN : Nat → Int
  window : Nat → V
  mdct : MdctLookup V
  cache : PulseCache

/-! ## Formatting -/

/-- The conversion `%d` of `printf` on an `int` (`INT16`, `INT32`). -/
def fmtD (n : Int) : String := toString n

/-- The conversion `%2d` of `printf`: `%d` right-justified in a field of
width two. -/
def fmt2D (n : Int) : String :=
  if (fmtD n).length < 2 then " " ++ fmtD n else fmtD n

/-- What the build fixes: `WORD16` (lines 43-49), the `scale` line of an FFT
state (lines 174-176, absent when `FIXED_POINT`), `BASENAME` (lines 291-295)
and `MAXFACTORS`. -/
structure Env (V : Type) where
  word16 : V → String
  scale : Option (V → String)
  basename : String
  MAXFACTORS : Nat

/-- The `FIXED_POINT` build: `WORD16` is `INT16`, that is `%d`. -/
def fixedPoint (MAXFACTORS : Nat) : Env Int :=
  { word16 := fmtD, scale := none, basename := "static_modes_fixed", MAXFACTORS := MAXFACTORS }

/-- The floating-point build: `WORD16` is `FLOAT` (`%#0.8gf`), the scale is
printed with `%0.9ff`; both conversions are parameters. -/
def floatingPoint {V : Type} (fmtFloat fmtScale : V → String) (MAXFACTORS : Nat) : Env V :=
  { word16 := fmtFloat, scale := some fmtScale, basename := "static_modes_float",
    MAXFACTORS := MAXFACTORS }

/-! ## Generated symbols -/

/-- The include-guard macros of the generated file, by kind and key. -/
inductive Guard where
  | ebands (Fs mdctSize : Int)
  | window (overlap : Int)
  | allocVectors (Fs mdctSize : Int)
  | logN (framerate : Int)
  | pulseCache (rate : Int)
  | fftTwiddles (Fs mdctSize : Int)
  | fftBitrev (nfft : Int)
  | fftState (Fs mdctSize k : Int)
  | mdctTwiddles (mdctSize : Int)
  deriving DecidableEq, Repr

/-- The macro name as the format strings of lines 79-195 print it. -/
def Guard.name : Guard → String
  | .ebands a b => "DEF_EBANDS" ++ fmtD a ++ "_" ++ fmtD b
  | .window a => "DEF_WINDOW" ++ fmtD a
  | .allocVectors a b => "DEF_ALLOC_VECTORS" ++ fmtD a ++ "_" ++ fmtD b
  | .logN a => "DEF_LOGN" ++ fmtD a
  | .pulseCache a => "DEF_PULSE_CACHE" ++ fmtD a
  | .fftTwiddles a b => "FFT_TWIDDLES" ++ fmtD a ++ "_" ++ fmtD b
  | .fftBitrev a => "FFT_BITREV" ++ fmtD a
  | .fftState a b c => "FFT_STATE" ++ fmtD a ++ "_" ++ fmtD b ++ "_" ++ fmtD c
  | .mdctTwiddles a => "MDCT_TWIDDLES" ++ fmtD a

/-- The objects the generated file defines, by kind and key. -/
inductive Sym where
  | eBands (Fs mdctSize : Int)
  | window (overlap : Int)
  | allocVectors (Fs mdctSize : Int)
  | logN (framerate : Int)
  | cacheIndex (rate : Int)
  | cacheBits (rate : Int)
  | cacheCaps (rate : Int)
  | fftTwiddles (Fs mdctSize : Int)
  | fftBitrev (nfft : Int)
  | fftState (Fs mdctSize k : Int)
  | mdctTwiddles (mdctSize : Int)
  | mode (Fs mdctSize overlap : Int)
  deriving DecidableEq, Repr

/-- The object name as the format strings of lines 81-251 print it. -/
def Sym.name : Sym → String
  | .eBands a b => "eBands" ++ fmtD a ++ "_" ++ fmtD b
  | .window a => "window" ++ fmtD a
  | .allocVectors a b => "allocVectors" ++ fmtD a ++ "_" ++ fmtD b
  | .logN a => "logN" ++ fmtD a
  | .cacheIndex a => "cache_index" ++ fmtD a
  | .cacheBits a => "cache_bits" ++ fmtD a
  | .cacheCaps a => "cache_caps" ++ fmtD a
  | .fftTwiddles a b => "fft_twiddles" ++ fmtD a ++ "_" ++ fmtD b
  | .fftBitrev a => "fft_bitrev" ++ fmtD a
  | .fftState a b c => "fft_state" ++ fmtD a ++ "_" ++ fmtD b ++ "_" ++ fmtD c
  | .mdctTwiddles a => "mdct_twiddles" ++ fmtD a
  | .mode a b c => "mode" ++ fmtD a ++ "_" ++ fmtD b ++ "_" ++ fmtD c

/-- Whether the symbol is a top-level `CELTMode` record. -/
def Sym.isMode : Sym → Bool
  | .mode _ _ _ => true
  | _ => false

/-! ## The output stream -/

/-- One `fprintf` call of `dump_modes`, by the role of what it prints. -/
inductive Item where
  /-- Text printed as it stands. -/
  | text (s : String)
  /-- An `#ifndef` line. -/
  | ifndef (g : Guard)
  /-- A `#define` line of a guard. -/
  | define (g : Guard)
  /-- An `#endif` line. -/
  | endif
  /-- The head of an array definition, with the length in its brackets. -/
  | tableOpen (ctype : String) (t : Sym) (len : Int)
  /-- One initializer element of an array and the separator after it. -/
  | elem (lit sep : String)
  /-- The closing line of a definition. -/
  | close
  /-- The head of a structure definition (`kiss_fft_state`, `CELTMode`). -/
  | recordOpen (ctype : String) (t : Sym)
  /-- A scalar field of a record with its comment. -/
  | field (v comment : String)
  /-- A reference to the object named `sym`, between `lead` and `tail`. -/
  | ref (lead sym tail : String)
  /-- The `TOTAL_MODES` definition. -/
  | totalModes (n : Int)
  /-- The head of `static_mode_list`. -/
  | listOpen
  deriving DecidableEq, Repr

/-- The characters an item stands for. -/
def Item.render : Item → String
  | .text s => s
  | .ifndef g => "#ifndef " ++ g.name ++ "\n"
  | .define g => "#define " ++ g.name ++ "\n"
  | .endif => "#endif\n"
  | .tableOpen ctype t len =>
      "static const " ++ ctype ++ " " ++ t.name ++ "[" ++ fmtD len ++ "] = \x7b\n"
  | .elem lit sep => lit ++ sep
  | .close => "\x7d;\n"
  | .recordOpen ctype t => "static const " ++ ctype ++ " " ++ t.name ++ " = \x7b\n"
  | .field v comment => v ++ ",\t/* " ++ comment ++ " */\n"
  | .ref lead sym tail => lead ++ sym ++ tail
  | .totalModes n => "#define TOTAL_MODES " ++ fmtD n ++ "\n"
  | .listOpen => "static const CELTMode * const static_mode_list[TOTAL_MODES] = \x7b\n"

/-- The text of a sequence of items. -/
def renderAll (out : List Item) : String := String.join (out.map Item.render)

/-- The indices of a loop `for (j=0;j<n;j++)`. -/
def upTo (n : Int) : List Nat := List.range n.toNat

/-- The separator `(j+a)%b==0?'\n':' '` after an element. -/
def sepAt (a b j : Nat) : String := if (j + a) % b = 0 then "\n" else " "

/-! ## `dump_modes` (lines 51-254) -/

section Emit
variable {V : Type}

/-- Line 73: `mdctSize = mode->shortMdctSize*mode->nbShortMdcts`. -/
def mdctSize (m : CELTMode V) : Int := m.shortMdctSize * m.nbShortMdcts

/-- Line 74: `standard = (mode->Fs == 400*(opus_int32)mode->shortMdctSize)`. -/
def standard (m : CELTMode V) : Bool := m.Fs == 400 * m.shortMdctSize

/-- Line 75: `framerate = mode->Fs/mode->shortMdctSize`. -/
def framerate (m : CELTMode V) : Int := Int.tdiv m.Fs m.shortMdctSize

/-- The key `mode->Fs/mdctSize` of the pulse cache (lines 124-134, 238-239). -/
def cacheRate (m : CELTMode V) : Int := Int.tdiv m.Fs (mdctSize m)

/-- Lines 54-65: the provenance comment and the includes. -/
def preamble (modes : List (CELTMode V)) : List Item :=
  [.text "/* The contents of this file was automatically generated by dump_modes.c\n",
   .text "   with arguments:"]
  ++ modes.map (fun mode => .text (" " ++ fmtD mode.Fs ++ " " ++ fmtD (mdctSize mode)))
  ++ [.text "\n   It contains static definitions for some pre-defined modes. */\n",
      .text "#include \"modes.h\"\n",
      .text "#include \"rate.h\"\n",
      .text "\n"]

/-- Lines 77-87: the band-edge table of a mode that is not standard. -/
def eBandsBlock (m : CELTMode V) : List Item :=
  if !standard m then
    [.ifndef (.ebands m.Fs (mdctSize m)),
     .define (.ebands m.Fs (mdctSize m)),
     .tableOpen "opus_int16" (.eBands m.Fs (mdctSize m)) (m.nbEBands + 2)]
    ++ (upTo (m.nbEBands + 2)).map (fun j => .elem (fmtD (m.eBands j)) ", ")
    ++ [.close, .endif, .text "\n"]
  else []

/-- Lines 92-93: the elements of the window table. -/
def windowElems (e : Env V) (m : CELTMode V) : List Item :=
  (upTo m.overlap).map (fun j => .elem (e.word16 (m.window j)) ("," ++ sepAt 6 5 j))

/-- Lines 89-96: the window table. -/
def windowBlock (e : Env V) (m : CELTMode V) : List Item :=
  [.ifndef (.window m.overlap),
   .define (.window m.overlap),
   .tableOpen "opus_val16" (.window m.overlap) m.overlap]
  ++ windowElems e m
  ++ [.close, .endif, .text "\n"]

/-- Lines 98-112: the allocation vectors of a mode that is not standard. -/
def allocBlock (m : CELTMode V) : List Item :=
  if !standard m then
    [.ifndef (.allocVectors m.Fs (mdctSize m)),
     .define (.allocVectors m.Fs (mdctSize m)),
     .tableOpen "unsigned char" (.allocVectors m.Fs (mdctSize m)) (m.nbEBands * m.nbAllocVectors)]
    ++ (upTo m.nbAllocVectors).flatMap (fun j =>
         (upTo m.nbEBands).map (fun k =>
           .elem (fmt2D (m.allocVectors ((j : Int) * m.nbEBands + (k : Int)).toNat)) ", ")
         ++ [.text "\n"])
    ++ [.close, .endif, .text "\n"]
  else []

/-- Lines 114-121: the `logN` table. -/
def logNBlock (m : CELTMode V) : List Item :=
  [.ifndef (.logN (framerate m)),
   .define (.logN (framerate m)),
   .tableOpen "opus_int16" (.logN (framerate m)) m.nbEBands]
  ++ (upTo m.nbEBands).map (fun j => .elem (fmtD (m.logN j)) ", ")
  ++ [.close, .endif, .text "\n"]

/-- Lines 123-140: the three pulse-cache tables. -/
def cacheBlock (m : CELTMode V) : List Item :=
  [.ifndef (.pulseCache (cacheRate m)),
   .define (.pulseCache (cacheRate m)),
   .tableOpen "opus_int16" (.cacheIndex (cacheRate m)) ((m.maxLM + 2) * m.nbEBands)]
  ++ (upTo (m.nbEBands * (m.maxLM + 2))).map
       (fun j => .elem (fmtD (m.cache.index j)) ("," ++ sepAt 16 15 j))
  ++ [.close,
      .tableOpen "unsigned char" (.cacheBits (cacheRate m)) m.cache.size]
  ++ (upTo m.cache.size).map
       (fun j => .elem (fmtD (m.cache.bits j)) ("," ++ sepAt 16 15 j))
  ++ [.close,
      .tableOpen "unsigned char" (.cacheCaps (cacheRate m)) ((m.maxLM + 1) * 2 * m.nbEBands)]
  ++ (upTo ((m.maxLM + 1) * 2 * m.nbEBands)).map
       (fun j => .elem (fmtD (m.cache.caps j)) ("," ++ sepAt 16 15 j))
  ++ [.close, .endif, .text "\n"]

/-- Lines 143-149: the FFT twiddles; the guard opened here is closed on
line 190, after the bit-reversal tables and the FFT states. -/
def fftTwiddlesOpen (e : Env V) (m : CELTMode V) : List Item :=
  [.ifndef (.fftTwiddles m.Fs (mdctSize m)),
   .define (.fftTwiddles m.Fs (mdctSize m)),
   .tableOpen "kiss_twiddle_cpx" (.fftTwiddles m.Fs (mdctSize m)) (m.mdct.kfft 0).nfft]
  ++ (upTo (m.mdct.kfft 0).nfft).map (fun j =>
       .elem ("\x7b" ++ e.word16 ((m.mdct.kfft 0).twiddles j).1 ++ ", "
                ++ e.word16 ((m.mdct.kfft 0).twiddles j).2 ++ "\x7d")
             ("," ++ sepAt 3 2 j))
  ++ [.close]

/-- Lines 154-163: the bit-reversal table of shift `k`. -/
def bitrevBlock (m : CELTMode V) (k : Nat) : List Item :=
  [.ifndef (.fftBitrev (m.mdct.kfft k).nfft),
   .define (.fftBitrev (m.mdct.kfft k).nfft),
   .tableOpen "opus_int16" (.fftBitrev (m.mdct.kfft k).nfft) (m.mdct.kfft k).nfft]
  ++ (upTo (m.mdct.kfft k).nfft).map
       (fun j => .elem (fmtD ((m.mdct.kfft k).bitrev j)) ("," ++ sepAt 16 15 j))
  ++ [.close, .endif, .text "\n"]

/-- Lines 169-187: the FFT state of shift `k`. -/
def stateBlock (e : Env V) (m : CELTMode V) (k : Nat) : List Item :=
  [.ifndef (.fftState m.Fs (mdctSize m) k),
   .define (.fftState m.Fs (mdctSize m) k),
   .recordOpen "kiss_fft_state" (.fftState m.Fs (mdctSize m) k),
   .field (fmtD (m.mdct.kfft k).nfft) "nfft"]
  ++ (match e.scale with
      | some f => [.field (f (m.mdct.kfft k).scale) "scale"]
      | none => [])
  ++ [.field (fmtD (m.mdct.kfft k).shift) "shift",
      .text "\x7b"]
  ++ (List.range (2 * e.MAXFACTORS)).map
       (fun j => .text (fmtD ((m.mdct.kfft k).factors j) ++ ", "))
  ++ [.text "\x7d,\t/* factors */\n",
      .ref "" (Sym.fftBitrev (m.mdct.kfft k).nfft).name ",\t/* bitrev */\n",
      .ref "" (Sym.fftTwiddles m.Fs (mdctSize m)).name ",\t/* bitrev */\n",
      .close, .endif, .text "\n"]

/-- Lines 142-191: twiddles, bit-reversal tables and states for
`k = 0 .. mdct.maxshift`, then the `#endif` of the twiddles guard. -/
def fftBlock (e : Env V) (m : CELTMode V) : List Item :=
  fftTwiddlesOpen e m
  ++ (upTo (m.mdct.maxshift + 1)).flatMap (bitrevBlock m)
  ++ (upTo (m.mdct.maxshift + 1)).flatMap (stateBlock e m)
  ++ [.endif, .text "\n"]

/-- Lines 193-203: the MDCT twiddles. -/
def mdctBlock (e : Env V) (m : CELTMode V) : List Item :=
  [.ifndef (.mdctTwiddles (mdctSize m)),
   .define (.mdctTwiddles (mdctSize m)),
   .tableOpen "opus_val16" (.mdctTwiddles (mdctSize m)) (Int.tdiv m.mdct.n 4 + 1)]
  ++ (upTo (Int.tdiv m.mdct.n 4 + 1)).map
       (fun j => .elem (e.word16 (m.mdct.trig j)) ("," ++ sepAt 6 5 j))
  ++ [.close, .endif, .text "\n"]

/-- Lines 206-240: the mode record. -/
def modeRecord (e : Env V) (m : CELTMode V) : List Item :=
  [.recordOpen "CELTMode" (.mode m.Fs (mdctSize m) m.overlap),
   .field (fmtD m.Fs) "Fs",
   .field (fmtD m.overlap) "overlap",
   .field (fmtD m.nbEBands) "nbEBands",
   .field (fmtD m.effEBands) "effEBands",
   .text "\x7b"]
  ++ (List.range 4).map (fun j => .text (e.word16 (m.preemph j) ++ ", "))
  ++ [.text "\x7d,\t/* preemph */\n",
      (if standard m then .ref "" "eband5ms" ",\t/* eBands */\n"
       else .ref "" (Sym.eBands m.Fs (mdctSize m)).name ",\t/* eBands */\n"),
      .field (fmtD m.maxLM) "maxLM",
      .field (fmtD m.nbShortMdcts) "nbShortMdcts",
      .field (fmtD m.shortMdctSize) "shortMdctSize",
      .field (fmtD m.nbAllocVectors) "nbAllocVectors",
      (if standard m then .ref "" "band_allocation" ",\t/* allocVectors */\n"
       else .ref "" (Sym.allocVectors m.Fs (mdctSize m)).name ",\t/* allocVectors */\n"),
      .ref "" (Sym.logN (framerate m)).name ",\t/* logN */\n",
      .ref "" (Sym.window m.overlap).name ",\t/* window */\n",
      .text ("\x7b" ++ fmtD m.mdct.n ++ ", " ++ fmtD m.mdct.maxshift ++ ", \x7b")]
  ++ (upTo (m.mdct.maxshift + 1)).map
       (fun k => .ref "&" (Sym.fftState m.Fs (mdctSize m) k).name ", ")
  ++ [.ref "\x7d, " (Sym.mdctTwiddles (mdctSize m)).name "\x7d,\t/* mdct */\n",
      .ref ("\x7b" ++ fmtD m.cache.size ++ ", ") (Sym.cacheIndex (cacheRate m)).name ", ",
      .ref "" (Sym.cacheBits (cacheRate m)).name ", ",
      .ref "" (Sym.cacheCaps (cacheRate m)).name "\x7d,\t/* cache */\n",
      .close]

/-- Lines 77-203: the guarded tables of one mode. -/
def modeTables (e : Env V) (m : CELTMode V) : List Item :=
  eBandsBlock m ++ windowBlock e m ++ allocBlock m ++ logNBlock m ++ cacheBlock m
  ++ fftBlock e m ++ mdctBlock e m

/-- Lines 69-240: one turn of the loop over the modes. -/
def modeBlock (e : Env V) (m : CELTMode V) : List Item :=
  modeTables e m ++ modeRecord e m

/-- Lines 242-253: the list of all modes. -/
def modeList (modes : List (CELTMode V)) : List Item :=
  [.text "\n",
   .text "/* List of all the available modes */\n",
   .totalModes modes.length,
   .listOpen]
  ++ modes.map (fun mode => .ref "&" (Sym.mode mode.Fs (mdctSize mode) mode.overlap).name ",\n")
  ++ [.close]

/-- Lines 51-254: `dump_modes(file, modes, nb_modes)`; `modes` is the array
with its `nb_modes` entries. -/
def dump_modes (e : Env V) (modes : List (CELTMode V)) : List Item :=
  preamble modes ++ modes.flatMap (modeBlock e) ++ modeList modes

end Emit

/-! ## `dump_header` (lines 256-289) -/

/-- One `fprintf` call of `dump_header`. -/
inductive HeaderLine where
  | banner
  | channels (c : Int)
  | disableStereo
  | frameSize (v : Int)
  | overlap (v : Int)
  deriving DecidableEq, Repr

/-- The characters a header line stands for. -/
def HeaderLine.render : HeaderLine → String
  | .banner => "/* This header file is generated automatically*/\n"
  | .channels c => "#define CHANNELS(mode) " ++ fmtD c ++ "\n"
  | .disableStereo => "#define DISABLE_STEREO\n"
  | .frameSize v => "#define FRAMESIZE(mode) " ++ fmtD v ++ "\n"
  | .overlap v => "#define OVERLAP(mode) " ++ fmtD v ++ "\n"

/-- Lines 266-273: one turn of the loop on the running pair
`(frame_size, overlap)`. -/
def headerStep {V : Type} (st : Int × Int) (mode : CELTMode V) : Int × Int :=
  (if st.1 == 0 then mdctSize mode else if st.1 != mdctSize mode then -1 else st.1,
   if st.2 == 0 then mode.overlap else if st.2 != mode.overlap then -1 else st.2)

/-- Lines 256-289: `dump_header(file, modes, nb_modes)`. -/
def dump_header {V : Type} (modes : List (CELTMode V)) : List HeaderLine :=
  let channels : Int := 0
  let st := modes.foldl headerStep (0, 0)
  [.banner]
  ++ (if channels > 0 then
        [.channels channels] ++ (if channels == 1 then [.disableStereo] else [])
      else [])
  ++ (if st.1 > 0 then [.frameSize st.1] else [])
  ++ (if st.2 > 0 then [.overlap st.2] else [])

/-! ## `main` (lines 297-329) -/

/-- What a run of `main` does: the status it returns, the lines written to
`stderr`, the calls of `opus_custom_mode_create` in order, and the file it
opened with what it wrote to it. -/
structure MainResult where
  status : Int
  stderr : List String
  requests : List (Int × Int)
  file : Option (String × List Item)
  deriving DecidableEq

/-- Lines 309-321: the loop that builds the modes for the indices `is`; it
stops at the first pair for which `opus_custom_mode_create` returns `NULL`. -/
def createLoop {V : Type} (atoi : String → Int) (create : Int → Int → Option (CELTMode V))
    (argv : Nat → String) : List Nat → List (Int × Int) × Except Nat (List (CELTMode V))
  | [] => ([], .ok [])
  | i :: is =>
    match create (atoi (argv (2 * i + 1))) (atoi (argv (2 * i + 2))) with
    | none => ([(atoi (argv (2 * i + 1)), atoi (argv (2 * i + 2)))], .error i)
    | some m =>
      ((atoi (argv (2 * i + 1)), atoi (argv (2 * i + 2))) :: (createLoop atoi create argv is).1,
       match (createLoop atoi create argv is).2 with
       | .error j => .error j
       | .ok ms => .ok (m :: ms))

/-- Line 304: the usage message, `argv[0]` in the place of `%s`. -/
def usageMessage (prog : String) : String :=
  "Usage: " ++ prog ++ " rate frame_size [rate frame_size] [rate frame_size]...\n"

/-- Lines 297-329: `main(argc, argv)`. The library function `atoi`, the
collaborator `opus_custom_mode_create` and the value of `EXIT_FAILURE` are
parameters; `malloc` and `fopen` are taken to succeed. -/
def main {V : Type} (e : Env V) (atoi : String → Int)
    (create : Int → Int → Option (CELTMode V)) (EXIT_FAILURE : Int)
    (argc : Int) (argv : Nat → String) : MainResult :=
  if Int.tmod argc 2 ≠ 1 ∨ argc < 3 then
    { status := 1, stderr := [usageMessage (argv 0)], requests := [], file := none }
  else
    match createLoop atoi create argv (upTo (Int.tdiv (argc - 1) 2)) with
    | (reqs, .error i) =>
      { status := EXIT_FAILURE,
        stderr := ["Error creating mode with Fs=" ++ argv (2 * i + 1)
                    ++ ", frame_size=" ++ argv (2 * i + 2) ++ "\n"],
        requests := reqs, file := none }
    | (reqs, .ok m) =>
      { status := 0, stderr := [], requests := reqs,
        file := some (e.basename ++ ".h", dump_modes e m) }

/-- The pair of numbers read from the `i`-th pair of arguments (lines
312-313). -/
def argPair (atoi : String → Int) (argv : Nat → String) (i : Nat) : Int × Int :=
  (atoi (argv (2 * i + 1)), atoi (argv (2 * i + 2)))

/-- The pairs of the command line: one for each `i` below `(argc-1)/2`. -/
def requestedPairs (atoi : String → Int) (argv : Nat → String) (argc : Int) :
    List (Int × Int) :=
  (upTo (Int.tdiv (argc - 1) 2)).map (argPair atoi argv)

/-! ## Reading the output back -/

/-- The object an item starts the definition of. -/
def Item.defines : Item → Option Sym
  | .tableOpen _ t _ => some t
  | .recordOpen _ t => some t
  | _ => none

/-- The objects defined in a text, in order, one entry per definition. -/
def definitions (out : List Item) : List Sym := out.filterMap Item.defines

/-- The tables defined in a text: every definition but the `CELTMode`
records. -/
def tableDefs (out : List Item) : List Sym := (definitions out).filter (fun t => !t.isMode)

/-- Evaluation of the conditionals by the C preprocessor: the macros defined
so far, the number of conditionals open since the first one that failed
(`0` when text is being kept), and the items kept. -/
structure Cpp where
  defined : List String
  skip : Nat
  kept : List Item
  deriving DecidableEq

/-- One line through the preprocessor. A macro is known by its name, taken
to be all the characters after `#ifndef ` or `#define ` on the line (for a
negative key these hold a minus sign and are no C identifier). The
`#include` lines are text and are not expanded. -/
def Cpp.step (s : Cpp) : Item → Cpp
  | .ifndef g =>
    if s.skip = 0 then (if g.name ∈ s.defined then { s with skip := 1 } else s)
    else { s with skip := s.skip + 1 }
  | .define g => if s.skip = 0 then { s with defined := g.name :: s.defined } else s
  | .totalModes _ => if s.skip = 0 then { s with defined := "TOTAL_MODES" :: s.defined } else s
  | .endif => { s with skip := s.skip - 1 }
  | i => if s.skip = 0 then { s with kept := s.kept ++ [i] } else s

/-- The preprocessor run over a text from a given state. -/
def Cpp.run (s : Cpp) (out : List Item) : Cpp := out.foldl Cpp.step s

/-- What is left of a text once its conditionals are evaluated, no macro
being defined at the start. -/
def preprocess (out : List Item) : List Item := (Cpp.run ⟨[], 0, []⟩ out).kept

/-- The guard each table is emitted under. -/
def Sym.guard : Sym → Option Guard
  | .eBands a b => some (.ebands a b)
  | .window a => some (.window a)
  | .allocVectors a b => some (.allocVectors a b)
  | .logN a => some (.logN a)
  | .cacheIndex a => some (.pulseCache a)
  | .cacheBits a => some (.pulseCache a)
  | .cacheCaps a => some (.pulseCache a)
  | .fftTwiddles a b => some (.fftTwiddles a b)
  | .fftBitrev a => some (.fftBitrev a)
  | .fftState a b c => some (.fftState a b c)
  | .mdctTwiddles a => some (.mdctTwiddles a)
  | .mode _ _ _ => none

/-- A walk through the conditionals of a text: the number of conditionals
open, and the guard of an `#ifndef` that still waits for its `#define`. -/
structure Walk where
  depth : Nat
  pending : Option Guard
  deriving DecidableEq

/-- One item of the walk; `none` once the text broke the discipline: an
`#ifndef G` not followed at once by `#define G`, a `#define` elsewhere, an
`#endif` that closes nothing, or a table defined outside every conditional. -/
def Walk.step : Option Walk → Item → Option Walk
  | none, _ => none
  | some ⟨d, some g⟩, .define h => if g = h then some ⟨d, none⟩ else none
  | some ⟨_, some _⟩, _ => none
  | some ⟨d, none⟩, .ifndef g => some ⟨d + 1, some g⟩
  | some ⟨_, none⟩, .define _ => none
  | some ⟨d, none⟩, .endif => if 0 < d then some ⟨d - 1, none⟩ else none
  | some ⟨d, none⟩, .tableOpen _ _ _ => if 0 < d then some ⟨d, none⟩ else none
  | some ⟨d, none⟩, .recordOpen _ t => if 0 < d ∨ t.isMode then some ⟨d, none⟩ else none
  | some w, _ => some w

/-- Whether every table definition of a text lies inside a conditional
`#ifndef G` whose first line is `#define G`, all conditionals being closed
at the end. -/
def guarded (out : List Item) : Bool := out.foldl Walk.step (some ⟨0, none⟩) = some ⟨0, none⟩

/-- The number of initializer elements up to the next closing line. -/
def countElems : List Item → Nat
  | [] => 0
  | .close :: _ => 0
  | .elem _ _ :: rest => countElems rest + 1
  | _ :: rest => countElems rest

/-- For each array definition of a text: its symbol, the length declared in
its brackets and the number of elements written before its closing line. -/
def tableStats : List Item → List (Sym × Int × Nat)
  | [] => []
  | .tableOpen _ t len :: rest => (t, len, countElems rest) :: tableStats rest
  | _ :: rest => tableStats rest

/-- The value of a run of decimal digits. -/
def parseNat (cs : List Char) : Nat := cs.foldl (fun n c => 10 * n + (c.toNat - 48)) 0

/-- The value of a decimal literal with an optional minus sign. -/
def parseInt : List Char → Int
  | '-' :: cs => - (parseNat cs : Int)
  | cs => (parseNat cs : Int)

/-- The literals of an initializer list: spaces and newlines are dropped,
each comma ends a literal, and what follows the last comma is not one. -/
def literalsFrom : List Char → List Char → List Int
  | _, [] => []
  | cur, c :: rest =>
    if c = ',' then parseInt cur :: literalsFrom [] rest
    else if c = ' ' ∨ c = '\n' then literalsFrom cur rest
    else literalsFrom (cur ++ [c]) rest

/-- The literals of an initializer list given as text. -/
def parseLiterals (s : String) : List Int := literalsFrom [] s.data

/-! ## The text of a name -/

/-- The characters a printed integer is made of: the digits and the minus sign. -/
def isNumChar (c : Char) : Bool := c.isDigit || c == '-'

/-- The letters a guard name starts with. -/
def Guard.pfx : Guard → String
  | .ebands _ _ => "DEF_EBANDS"
  | .window _ => "DEF_WINDOW"
  | .allocVectors _ _ => "DEF_ALLOC_VECTORS"
  | .logN _ => "DEF_LOGN"
  | .pulseCache _ => "DEF_PULSE_CACHE"
  | .fftTwiddles _ _ => "FFT_TWIDDLES"
  | .fftBitrev _ => "FFT_BITREV"
  | .fftState _ _ _ => "FFT_STATE"
  | .mdctTwiddles _ => "MDCT_TWIDDLES"

/-- The integers a guard name is built from, in order. -/
def Guard.keys : Guard → List Int
  | .ebands a b => [a, b]
  | .window a => [a]
  | .allocVectors a b => [a, b]
  | .logN a => [a]
  | .pulseCache a => [a]
  | .fftTwiddles a b => [a, b]
  | .fftBitrev a => [a]
  | .fftState a b c => [a, b, c]
  | .mdctTwiddles a => [a]

/-- The letters an object name starts with. -/
def Sym.pfx : Sym → String
  | .eBands _ _ => "eBands"
  | .window _ => "window"
  | .allocVectors _ _ => "allocVectors"
  | .logN _ => "logN"
  | .cacheIndex _ => "cache_index"
  | .cacheBits _ => "cache_bits"
  | .cacheCaps _ => "cache_caps"
  | .fftTwiddles _ _ => "fft_twiddles"
  | .fftBitrev _ => "fft_bitrev"
  | .fftState _ _ _ => "fft_state"
  | .mdctTwiddles _ => "mdct_twiddles"
  | .mode _ _ _ => "mode"

/-- The integers an object name is built from, in order. -/
def Sym.keys : Sym → List Int
  | .eBands a b => [a, b]
  | .window a => [a]
  | .allocVectors a b => [a, b]
  | .logN a => [a]
  | .cacheIndex a => [a]
  | .cacheBits a => [a]
  | .cacheCaps a => [a]
  | .fftTwiddles a b => [a, b]
  | .fftBitrev a => [a]
  | .fftState a b c => [a, b, c]
  | .mdctTwiddles a => [a]
  | .mode a b c => [a, b, c]

/-- The integers of a name as printed: each with the conversion of `fmtD`, an underscore
between two of them. -/
def keyText : List Int → List Char
  | [] => []
  | [a] => (fmtD a).data
  | a :: b :: rest => (fmtD a).data ++ '_' :: keyText (b :: rest)

/-! ## The mode records of a text -/

/-- The symbol of an item that starts a `CELTMode` record. -/
def Item.modeHead : Item → Option Sym
  | .recordOpen ctype t => if ctype = "CELTMode" then some t else none
  | _ => none

/-- The `CELTMode` records of a text, in order, one entry per record. -/
def modeRecords (out : List Item) : List Sym := out.filterMap Item.modeHead

/-! ## Sample descriptors -/

/-- An FFT plan of `nfft` points whose tables hold their own indices, on
which the generator can be evaluated. -/
def sampleFft (nfft : Int) : KissFftState Int :=
  { nfft := nfft, scale := 0, shift := 0,
    factors := (fun j => (j : Int)),
    bitrev := (fun j => (j : Int)),
    twiddles := (fun j => ((j : Int), - (j : Int))) }

/-- A fixed-point descriptor with one band, one allocation vector and the
given rate, short transform size, number of short transforms and overlap,
on which the generator can be evaluated. -/
def sampleMode (Fs shortMdctSize nbShortMdcts overlap : Int) : CELTMode Int :=
  { Fs := Fs, overlap := overlap, nbEBands := 1, effEBands := 1,
    preemph := (fun j => (j : Int)),
    eBands := (fun j => (j : Int)),
    maxLM := 0, nbShortMdcts := nbShortMdcts, shortMdctSize := shortMdctSize,
    nbAllocVectors := 1,
    allocVectors := (fun j => (j : Int)),
    logN := (fun j => (j : Int)),
    window := (fun j => 100 - 7 * (j : Int)),
    mdct := { n := 4, maxshift := 0, kfft := (fun _ => sampleFft 2),
              trig := (fun j => (j : Int)) },
    cache := { size := 1, index := (fun j => (j : Int)), bits := (fun j => (j : Int)),
               caps := (fun j => (j : Int)) } }

/-! ## Conditionals and the preprocessor invariant -/

/-- Whether an item is no preprocessor directive acting on the set of
macros or on the conditionals. -/
def Item.plain : Item → Bool
  | .ifndef _ => false
  | .define _ => false
  | .endif => false
  | .totalModes _ => false
  | _ => true

/-- The shape of a conditional of the output: `#ifndef G`, `#define G`, a
body, `#endif` and an empty line. -/
def guardedBlock (g : Guard) (body : List Item) : List Item :=
  [.ifndef g, .define g] ++ body ++ [.endif, .text "\n"]

/-- The tables emitted under a guard. -/
def Guard.tables : Guard → List Sym
  | .ebands a b => [.eBands a b]
  | .window a => [.window a]
  | .allocVectors a b => [.allocVectors a b]
  | .logN a => [.logN a]
  | .pulseCache a => [.cacheIndex a, .cacheBits a, .cacheCaps a]
  | .fftTwiddles a b => [.fftTwiddles a b]
  | .fftBitrev a => [.fftBitrev a]
  | .fftState a b c => [.fftState a b c]
  | .mdctTwiddles a => [.mdctTwiddles a]

/-- The invariant of the preprocessor between two conditionals of the
output: text is being kept, no table is kept twice, the guard of every table
kept is defined, and the tables of every guard defined are kept. -/
def Cpp.Inv (s : Cpp) : Prop :=
  s.skip = 0 ∧ (tableDefs s.kept).Nodup
  ∧ (∀ t ∈ tableDefs s.kept, ∃ g : Guard, t.guard = some g ∧ g.name ∈ s.defined)
  ∧ (∀ g : Guard, g.name ∈ s.defined → ∀ t ∈ g.tables, t ∈ tableDefs s.kept)

/-- The preprocessor state `s2` comes after `s1`: it defines and keeps at
least as much. -/
def Cpp.Le (s1 s2 : Cpp) : Prop :=
  (∀ x ∈ s1.defined, x ∈ s2.defined) ∧ (∀ t ∈ tableDefs s1.kept, t ∈ tableDefs s2.kept)

/-- A conditional of the output that holds the tables of its guard and no
directive of its own. -/
def Simple (g : Guard) (xs : List Item) : Prop :=
  ∃ body : List Item, xs = guardedBlock g body ∧ (∀ i ∈ body, i.plain = true)
    ∧ tableDefs body = g.tables

/-- Whether an item may stand outside every conditional: no directive of a
conditional and no table definition. -/
def Item.free : Item → Bool
  | .ifndef _ => false
  | .define _ => false
  | .endif => false
  | .tableOpen _ _ _ => false
  | .recordOpen _ t => t.isMode
  | _ => true

/-! ## Declared and written lengths -/

/-- Whether an item is an initializer element. -/
def Item.isElem : Item → Bool
  | .elem _ _ => true
  | _ => false

/-- Whether an item may stand between the head of an array and its closing
line: an element, or text (the line breaks of the allocation vectors). -/
def Item.inBody : Item → Bool
  | .elem _ _ => true
  | .text _ => true
  | _ => false

/-- Whether an item is the head of an array definition. -/
def Item.isTableOpen : Item → Bool
  | .tableOpen _ _ _ => true
  | _ => false

/-- The count fields of a descriptor are non-negative: the numbers of bands
and of allocation vectors, the overlap, `maxLM`, the size of the pulse
cache, the points of every FFT plan and the length of the transform. -/
def countsNonNeg {V : Type} (m : CELTMode V) : Prop :=
  0 ≤ m.nbEBands ∧ 0 ≤ m.overlap ∧ 0 ≤ m.nbAllocVectors ∧ 0 ≤ m.maxLM ∧ 0 ≤ m.cache.size
  ∧ (∀ k : Nat, 0 ≤ (m.mdct.kfft k).nfft) ∧ 0 ≤ m.mdct.n

/-- The length of each table of a mode as the specification gives it from
the scalar fields of the descriptor, in the order of emission. -/
def specLengths {V : Type} (m : CELTMode V) : List (Sym × Int) :=
  (if standard m then [] else [(Sym.eBands m.Fs (mdctSize m), m.nbEBands + 2)])
  ++ [(Sym.window m.overlap, m.overlap)]
  ++ (if standard m then []
      else [(Sym.allocVectors m.Fs (mdctSize m), m.nbEBands * m.nbAllocVectors)])
  ++ [(Sym.logN (framerate m), m.nbEBands),
      (Sym.cacheIndex (cacheRate m), m.nbEBands * (m.maxLM + 2)),
      (Sym.cacheBits (cacheRate m), m.cache.size),
      (Sym.cacheCaps (cacheRate m), (m.maxLM + 1) * 2 * m.nbEBands),
      (Sym.fftTwiddles m.Fs (mdctSize m), (m.mdct.kfft 0).nfft)]
  ++ (upTo (m.mdct.maxshift + 1)).map
       (fun (k : Nat) => (Sym.fftBitrev (m.mdct.kfft k).nfft, (m.mdct.kfft k).nfft))
  ++ [(Sym.mdctTwiddles (mdctSize m), Int.tdiv m.mdct.n 4 + 1)]

/-- What `tableStats` finds in the block of a mode: for each array, the
length in its brackets and the number of turns of the loop that writes its
elements. -/
def emittedStats {V : Type} (m : CELTMode V) : List (Sym × Int × Nat) :=
  (if standard m then []
   else [(Sym.eBands m.Fs (mdctSize m), m.nbEBands + 2, (m.nbEBands + 2).toNat)])
  ++ [(Sym.window m.overlap, m.overlap, m.overlap.toNat)]
  ++ (if standard m then []
      else [(Sym.allocVectors m.Fs (mdctSize m), m.nbEBands * m.nbAllocVectors,
             m.nbAllocVectors.toNat * m.nbEBands.toNat)])
  ++ [(Sym.logN (framerate m), m.nbEBands, m.nbEBands.toNat),
      (Sym.cacheIndex (cacheRate m), (m.maxLM + 2) * m.nbEBands,
        (m.nbEBands * (m.maxLM + 2)).toNat),
      (Sym.cacheBits (cacheRate m), m.cache.size, m.cache.size.toNat),
      (Sym.cacheCaps (cacheRate m), (m.maxLM + 1) * 2 * m.nbEBands,
        ((m.maxLM + 1) * 2 * m.nbEBands).toNat),
      (Sym.fftTwiddles m.Fs (mdctSize m), (m.mdct.kfft 0).nfft, (m.mdct.kfft 0).nfft.toNat)]
  ++ (upTo (m.mdct.maxshift + 1)).map
       (fun (k : Nat) => (Sym.fftBitrev (m.mdct.kfft k).nfft, (m.mdct.kfft k).nfft,
          (m.mdct.kfft k).nfft.toNat))
  ++ [(Sym.mdctTwiddles (mdctSize m), Int.tdiv m.mdct.n 4 + 1,
        (Int.tdiv m.mdct.n 4 + 1).toNat)]

/-! ## The running value of `dump_header` -/

/-- One turn of lines 266-273 on one running value: `0` takes the value of
the mode, any other value is kept when the mode agrees and becomes `-1`
when it does not. -/
def runningStep (a v : Int) : Int := if a == 0 then v else if a != v then -1 else a

/-! ## References and FFT states of a text -/

/-- The name an item refers to. -/
def Item.refName : Item → Option String
  | .ref _ sym _ => some sym
  | _ => none

/-- The names a text refers to, in order, one entry per reference. -/
def references (out : List Item) : List String := out.filterMap Item.refName

/-- The name an item refers to by address: the references `&<name>` of the
`mdct` line of a mode record and of the list of modes. -/
def Item.addressRef : Item → Option String
  | .ref lead sym _ => if lead = "&" then some sym else none
  | _ => none

/-- The symbol of an item that starts a `kiss_fft_state` record. -/
def Item.stateHead : Item → Option Sym
  | .recordOpen ctype t => if ctype = "kiss_fft_state" then some t else none
  | _ => none

/-- The `kiss_fft_state` records of a text, in order, one entry per record. -/
def stateRecords (out : List Item) : List Sym := out.filterMap Item.stateHead

/-- The sample descriptor for 48000 Hz and two short transforms of 120 with
`maxLM` set to 2 while `mdct.maxshift` stays 0. -/
def sampleModeLM2 : CELTMode Int :=
  { sampleMode 48000 120 2 4 with maxLM := 2 }

/-! ## The depth of the conditionals -/

/-- Whether an item is an `#ifndef` line. -/
def Item.isIfndef : Item → Bool
  | .ifndef _ => true
  | _ => false

/-- Whether an item is an `#endif` line. -/
def Item.isEndif : Item → Bool
  | .endif => true
  | _ => false

/-- The number of `#ifndef` lines of a text. -/
def countIfndef (out : List Item) : Nat := out.countP Item.isIfndef

/-- The number of `#endif` lines of a text. -/
def countEndif (out : List Item) : Nat := out.countP Item.isEndif

/-- One item of the count of open conditionals; `none` once an `#ifndef`
would open more than `bound` conditionals or an `#endif` closes nothing. -/
def Nest.step (bound : Nat) : Option Nat → Item → Option Nat
  | none, _ => none
  | some d, .ifndef _ => if d + 1 ≤ bound then some (d + 1) else none
  | some d, .endif => if 0 < d then some (d - 1) else none
  | some d, _ => some d

/-- The number of conditionals open after a text read with `d` conditionals
open, when no more than `bound` are ever open and none is closed that was
not opened. -/
def nesting (bound d : Nat) (out : List Item) : Option Nat :=
  out.foldl (Nest.step bound) (some d)

/-! # Theorems -/

/-! ## Printed integers -/

theorem digitChar_isDigit (d : Nat) (h : d < 10) : (Nat.digitChar d).isDigit = true := by
  interval_cases d <;> decide

theorem digitChar_value (d : Nat) (h : d < 10) : (Nat.digitChar d).toNat - 48 = d := by
  interval_cases d <;> decide

/-- The digit loop of the library only adds digits to its accumulator. -/
theorem toDigitsCore_isDigit (fuel : Nat) : ∀ (n : Nat) (acc : List Char),
    (∀ c ∈ acc, c.isDigit = true) → ∀ c ∈ Nat.toDigitsCore 10 fuel n acc, c.isDigit = true := by
  induction fuel with
  | zero => intro n acc hacc; simpa [Nat.toDigitsCore] using hacc
  | succ fuel ih =>
    intro n acc hacc
    have hnew : ∀ c ∈ Nat.digitChar (n % 10) :: acc, c.isDigit = true := by
      intro c hc
      rcases List.mem_cons.mp hc with rfl | hc
      · exact digitChar_isDigit _ (Nat.mod_lt _ (by decide))
      · exact hacc c hc
    rw [Nat.toDigitsCore]
    split
    · exact hnew
    · exact ih _ _ hnew

/-- The digit loop of the library never shortens its accumulator. -/
theorem toDigitsCore_length (fuel : Nat) : ∀ (n : Nat) (acc : List Char),
    acc.length ≤ (Nat.toDigitsCore 10 fuel n acc).length := by
  induction fuel with
  | zero => intro n acc; simp [Nat.toDigitsCore]
  | succ fuel ih =>
    intro n acc
    rw [Nat.toDigitsCore]
    split
    · simp
    · exact Nat.le_trans (by simp) (ih _ _)

/-- Reading back what the digit loop of the library wrote, when it had fuel
enough: the number, followed by what the accumulator held. -/
theorem toDigitsCore_value (fuel : Nat) : ∀ (n : Nat) (acc : List Char), n < fuel →
    parseNat (Nat.toDigitsCore 10 fuel n acc)
      = acc.foldl (fun k c => 10 * k + (c.toNat - 48)) n := by
  induction fuel with
  | zero => intro n acc h; exact absurd h (Nat.not_lt_zero n)
  | succ fuel ih =>
    intro n acc h
    have hv := digitChar_value (n % 10) (Nat.mod_lt _ (by decide))
    rw [Nat.toDigitsCore]
    split
    · rename_i hq
      have hn : n % 10 = n := by omega
      rw [hn] at hv
      simp only [parseNat, List.foldl_cons, hn, hv, Nat.mul_zero, Nat.zero_add]
    · rename_i hq
      rw [ih (n / 10) _ (by omega), List.foldl_cons, hv]
      congr 1
      omega

theorem natRepr_run (n : Nat) :
    (Nat.repr n).data ≠ [] ∧ (∀ c ∈ (Nat.repr n).data, c.isDigit = true) ∧
      parseNat (Nat.repr n).data = n := by
  have hdata : (Nat.repr n).data = Nat.toDigitsCore 10 (n + 1) n [] := rfl
  rw [hdata]
  refine ⟨?_, toDigitsCore_isDigit _ n [] (by simp), ?_⟩
  · intro hnil
    have h1 : [Nat.digitChar (n % 10)].length
        ≤ (Nat.toDigitsCore 10 (n + 1) n []).length := by
      rw [Nat.toDigitsCore]
      split
      · simp
      · exact toDigitsCore_length _ _ _
    rw [hnil] at h1
    simp at h1
  · rw [toDigitsCore_value _ n [] (by omega)]
    rfl

theorem fmtD_ofNat (n : Nat) : (fmtD (Int.ofNat n)).data = (Nat.repr n).data := rfl

theorem fmtD_negSucc (n : Nat) : (fmtD (Int.negSucc n)).data = '-' :: (Nat.repr (n + 1)).data := rfl

theorem isNumChar_of_isDigit {c : Char} (h : c.isDigit = true) : isNumChar c = true := by
  simp [isNumChar, h]

theorem fmtD_chars (n : Int) : ∀ c ∈ (fmtD n).data, isNumChar c = true := by
  cases n with
  | ofNat m =>
    intro c hc
    rw [fmtD_ofNat] at hc
    exact isNumChar_of_isDigit ((natRepr_run m).2.1 c hc)
  | negSucc m =>
    intro c hc
    rw [fmtD_negSucc] at hc
    rcases List.mem_cons.mp hc with h | h
    · rw [h]; decide
    · exact isNumChar_of_isDigit ((natRepr_run (m + 1)).2.1 c h)

theorem fmtD_ne_nil (n : Int) : (fmtD n).data ≠ [] := by
  cases n with
  | ofNat m => rw [fmtD_ofNat]; exact (natRepr_run m).1
  | negSucc m => rw [fmtD_negSucc]; simp

theorem parseInt_digits (cs : List Char) (h : ∀ c ∈ cs, c.isDigit = true) :
    parseInt cs = (parseNat cs : Int) := by
  cases cs with
  | nil => rfl
  | cons c cs =>
    have hc : c ≠ '-' := by
      intro hc
      have := h c (by simp)
      rw [hc] at this
      exact absurd this (by decide)
    unfold parseInt
    split
    · rename_i heq
      simp at heq
      exact absurd heq.1 hc
    · rfl

theorem parseInt_fmtD (n : Int) : parseInt (fmtD n).data = n := by
  cases n with
  | ofNat m =>
    rw [fmtD_ofNat, parseInt_digits _ (natRepr_run m).2.1, (natRepr_run m).2.2]
    rfl
  | negSucc m =>
    rw [fmtD_negSucc]
    show - (parseNat (Nat.repr (m + 1)).data : Int) = Int.negSucc m
    rw [(natRepr_run (m + 1)).2.2]
    rfl

theorem fmtD_data_inj {a b : Int} (h : (fmtD a).data = (fmtD b).data) : a = b := by
  rw [← parseInt_fmtD a, ← parseInt_fmtD b, h]

theorem fmtD_inj {a b : Int} (h : fmtD a = fmtD b) : a = b :=
  fmtD_data_inj (congrArg String.data h)

/-! ## Names determine kind and key -/

/-- A text that is a run of letters followed by a number splits in one way
only. -/
theorem split_letters : ∀ (p q x y : List Char),
    (∀ c ∈ p, isNumChar c = false) → (∀ c ∈ q, isNumChar c = false) →
    (∀ c, x.head? = some c → isNumChar c = true) → x ≠ [] →
    (∀ c, y.head? = some c → isNumChar c = true) → y ≠ [] →
    p ++ x = q ++ y → p = q ∧ x = y := by
  intro p
  induction p with
  | nil =>
    intro q x y _ hq hx hxn _ _ h
    cases q with
    | nil => exact ⟨rfl, by simpa using h⟩
    | cons c q =>
      exfalso
      cases x with
      | nil => exact hxn rfl
      | cons a x =>
        simp only [List.nil_append, List.cons_append, List.cons.injEq] at h
        have h1 := hx a rfl
        have h2 := hq c (by simp)
        rw [h.1, h2] at h1
        exact absurd h1 (by decide)
  | cons d p ih =>
    intro q x y hp hq hx hxn hy hyn h
    cases q with
    | nil =>
      exfalso
      cases y with
      | nil => exact hyn rfl
      | cons a y =>
        simp only [List.nil_append, List.cons_append, List.cons.injEq] at h
        have h1 := hy a rfl
        have h2 := hp d (by simp)
        rw [← h.1, h2] at h1
        exact absurd h1 (by decide)
    | cons c q =>
      simp only [List.cons_append, List.cons.injEq] at h
      obtain ⟨r1, r2⟩ := ih q x y (fun c hc => hp c (by simp [hc]))
        (fun c hc => hq c (by simp [hc])) hx hxn hy hyn h.2
      exact ⟨by rw [h.1, r1], r2⟩

/-- A text cut at its first underscore splits in one way only. -/
theorem split_underscore : ∀ (p q x y : List Char),
    (∀ c ∈ p, c ≠ '_') → (∀ c ∈ q, c ≠ '_') →
    p ++ '_' :: x = q ++ '_' :: y → p = q ∧ x = y := by
  intro p
  induction p with
  | nil =>
    intro q x y _ hq h
    cases q with
    | nil => exact ⟨rfl, by simpa using h⟩
    | cons c q =>
      simp only [List.nil_append, List.cons_append, List.cons.injEq] at h
      exact absurd h.1.symm (hq c (by simp))
  | cons d p ih =>
    intro q x y hp hq h
    cases q with
    | nil =>
      simp only [List.nil_append, List.cons_append, List.cons.injEq] at h
      exact absurd h.1 (hp d (by simp))
    | cons c q =>
      simp only [List.cons_append, List.cons.injEq] at h
      obtain ⟨r1, r2⟩ := ih q x y (fun c hc => hp c (by simp [hc]))
        (fun c hc => hq c (by simp [hc])) h.2
      exact ⟨by rw [h.1, r1], r2⟩

theorem fmtD_no_underscore (n : Int) : ∀ c ∈ (fmtD n).data, c ≠ '_' := by
  intro c hc h
  have := fmtD_chars n c hc
  rw [h] at this
  exact absurd this (by decide)

theorem keyText_one_inj {a b : Int} (h : keyText [a] = keyText [b]) : a = b :=
  fmtD_data_inj h

theorem keyText_two_inj {a b c d : Int} (h : keyText [a, b] = keyText [c, d]) :
    a = c ∧ b = d := by
  have := split_underscore _ _ _ _ (fmtD_no_underscore a) (fmtD_no_underscore c) h
  exact ⟨fmtD_data_inj this.1, fmtD_data_inj this.2⟩

theorem keyText_three_inj {a b c d e f : Int}
    (h : keyText [a, b, c] = keyText [d, e, f]) : a = d ∧ b = e ∧ c = f := by
  have := split_underscore _ _ _ _ (fmtD_no_underscore a) (fmtD_no_underscore d) h
  exact ⟨fmtD_data_inj this.1, keyText_two_inj this.2⟩

theorem keyText_head (a : Int) (rest : List Int) :
    keyText (a :: rest) ≠ [] ∧ ∀ c, (keyText (a :: rest)).head? = some c → isNumChar c = true := by
  have hne := fmtD_ne_nil a
  have hch := fmtD_chars a
  cases hfa : (fmtD a).data with
  | nil => exact absurd hfa hne
  | cons x xs =>
    have hx : isNumChar x = true := hch x (by simp [hfa])
    cases rest with
    | nil =>
      simp only [keyText, hfa]
      exact ⟨by simp, fun c hc => by simp at hc; rw [← hc]; exact hx⟩
    | cons b rest =>
      simp only [keyText, hfa]
      exact ⟨by simp, fun c hc => by simp at hc; rw [← hc]; exact hx⟩

theorem guardName_data (g : Guard) : g.name.data = g.pfx.data ++ keyText g.keys := by
  cases g <;> simp [Guard.name, Guard.pfx, Guard.keys, keyText, String.data_append]

theorem symName_data (t : Sym) : t.name.data = t.pfx.data ++ keyText t.keys := by
  cases t <;> simp [Sym.name, Sym.pfx, Sym.keys, keyText, String.data_append]

theorem guardPfx_letters (g : Guard) : ∀ c ∈ g.pfx.data, isNumChar c = false := by
  cases g <;> (simp only [Guard.pfx]; decide)

theorem symPfx_letters (t : Sym) : ∀ c ∈ t.pfx.data, isNumChar c = false := by
  cases t <;> (simp only [Sym.pfx]; decide)

theorem guardKeys_ne_nil (g : Guard) : ∃ a rest, g.keys = a :: rest := by
  cases g <;> simp [Guard.keys]

theorem symKeys_ne_nil (t : Sym) : ∃ a rest, t.keys = a :: rest := by
  cases t <;> simp [Sym.keys]

theorem guardName_split {g h : Guard} (e : g.name = h.name) :
    g.pfx.data = h.pfx.data ∧ keyText g.keys = keyText h.keys := by
  have e1 := congrArg String.data e
  rw [guardName_data, guardName_data] at e1
  obtain ⟨a, r, hg⟩ := guardKeys_ne_nil g
  obtain ⟨b, s, hh⟩ := guardKeys_ne_nil h
  rw [hg, hh] at e1 ⊢
  exact split_letters _ _ _ _ (guardPfx_letters g) (guardPfx_letters h) (keyText_head a r).2
    (keyText_head a r).1
    (keyText_head b s).2 (keyText_head b s).1 e1

theorem symName_split {g h : Sym} (e : g.name = h.name) :
    g.pfx.data = h.pfx.data ∧ keyText g.keys = keyText h.keys := by
  have e1 := congrArg String.data e
  rw [symName_data, symName_data] at e1
  obtain ⟨a, r, hg⟩ := symKeys_ne_nil g
  obtain ⟨b, s, hh⟩ := symKeys_ne_nil h
  rw [hg, hh] at e1 ⊢
  exact split_letters _ _ _ _ (symPfx_letters g) (symPfx_letters h) (keyText_head a r).2
    (keyText_head a r).1
    (keyText_head b s).2 (keyText_head b s).1 e1

theorem guardName_inj {g h : Guard} (e : g.name = h.name) : g = h := by
  obtain ⟨hp, hk⟩ := guardName_split e
  cases g <;> cases h <;> simp only [Guard.pfx, Guard.keys] at hp hk <;>
    first
    | exact absurd hp (by decide)
    | rw [keyText_one_inj hk]
    | rw [(keyText_two_inj hk).1, (keyText_two_inj hk).2]
    | rw [(keyText_three_inj hk).1, (keyText_three_inj hk).2.1, (keyText_three_inj hk).2.2]

theorem symName_inj {g h : Sym} (e : g.name = h.name) : g = h := by
  obtain ⟨hp, hk⟩ := symName_split e
  cases g <;> cases h <;> simp only [Sym.pfx, Sym.keys] at hp hk <;>
    first
    | exact absurd hp (by decide)
    | rw [keyText_one_inj hk]
    | rw [(keyText_two_inj hk).1, (keyText_two_inj hk).2]
    | rw [(keyText_three_inj hk).1, (keyText_three_inj hk).2.1, (keyText_three_inj hk).2.2]

variable {V : Type}

/-! ## What the blocks define -/

section Projection
variable {β : Type} (f : Item → Option β)

theorem filterMap_cons_toList (i : Item) (xs : List Item) :
    (i :: xs).filterMap f = (f i).toList ++ xs.filterMap f := by
  cases h : f i <;> simp [List.filterMap_cons, h]

theorem filterMap_map_none {α : Type} (g : α → Item) (l : List α)
    (h : ∀ a, f (g a) = none) : (l.map g).filterMap f = [] := by
  induction l with
  | nil => rfl
  | cons a l ih => rw [List.map_cons, filterMap_cons_toList, h a, ih]; rfl

theorem filterMap_flatMap_blocks {α : Type} (g : α → List Item) (l : List α) :
    (l.flatMap g).filterMap f = l.flatMap (fun a => (g a).filterMap f) := by
  induction l with
  | nil => rfl
  | cons a l ih => simp only [List.flatMap_cons, List.filterMap_append, ih]

end Projection

theorem flatMap_nil_fun {α β : Type} (l : List α) : l.flatMap (fun _ => ([] : List β)) = [] := by
  induction l with
  | nil => rfl
  | cons a l ih => simp [List.flatMap_cons, ih]

theorem flatMap_singleton_fun {α β : Type} (f : α → β) (l : List α) :
    l.flatMap (fun a => [f a]) = l.map f := by
  induction l with
  | nil => rfl
  | cons a l ih => simp [List.flatMap_cons, ih]

/-- The objects one table block defines. -/
theorem definitions_modeTables (e : Env V) (m : CELTMode V) :
    definitions (modeTables e m)
      = (if standard m then [] else [Sym.eBands m.Fs (mdctSize m)])
        ++ [Sym.window m.overlap]
        ++ (if standard m then [] else [Sym.allocVectors m.Fs (mdctSize m)])
        ++ [Sym.logN (framerate m), Sym.cacheIndex (cacheRate m), Sym.cacheBits (cacheRate m),
            Sym.cacheCaps (cacheRate m), Sym.fftTwiddles m.Fs (mdctSize m)]
        ++ (upTo (m.mdct.maxshift + 1)).map (fun (k : Nat) => Sym.fftBitrev (m.mdct.kfft k).nfft)
        ++ (upTo (m.mdct.maxshift + 1)).map (fun (k : Nat) => Sym.fftState m.Fs (mdctSize m) (k : Int))
        ++ [Sym.mdctTwiddles (mdctSize m)] := by
  have hb : ∀ k, (bitrevBlock m k).filterMap Item.defines
      = [Sym.fftBitrev (m.mdct.kfft k).nfft] := by
    intro k
    simp [-List.filterMap_map, bitrevBlock, List.filterMap_append, filterMap_cons_toList, filterMap_map_none,
      Item.defines]
  have hs : ∀ k, (stateBlock e m k).filterMap Item.defines
      = [Sym.fftState m.Fs (mdctSize m) k] := by
    intro k
    unfold stateBlock
    cases e.scale <;>
      simp [-List.filterMap_map, List.filterMap_append, filterMap_cons_toList, filterMap_map_none, Item.defines]
  unfold modeTables eBandsBlock allocBlock
  cases standard m <;>
    simp [-List.filterMap_map, definitions, windowBlock, windowElems, logNBlock, cacheBlock, fftBlock,
      fftTwiddlesOpen, mdctBlock, List.filterMap_append, filterMap_cons_toList,
      filterMap_map_none, filterMap_flatMap_blocks, flatMap_nil_fun, flatMap_singleton_fun, hb, hs,
      Item.defines]

theorem definitions_modeRecord (e : Env V) (m : CELTMode V) :
    definitions (modeRecord e m) = [Sym.mode m.Fs (mdctSize m) m.overlap] := by
  unfold modeRecord
  cases standard m <;>
    simp [-List.filterMap_map, definitions, List.filterMap_append, filterMap_cons_toList, filterMap_map_none,
      Item.defines]

theorem definitions_dump_modes (e : Env V) (modes : List (CELTMode V)) :
    definitions (dump_modes e modes)
      = modes.flatMap (fun m => definitions (modeTables e m)
          ++ [Sym.mode m.Fs (mdctSize m) m.overlap]) := by
  have h : ∀ m, (modeBlock e m).filterMap Item.defines
      = definitions (modeTables e m) ++ [Sym.mode m.Fs (mdctSize m) m.overlap] := by
    intro m
    have := definitions_modeRecord e m
    simp only [definitions] at this
    simp [-List.filterMap_map, modeBlock, List.filterMap_append, this, definitions]
  simp [-List.filterMap_map, dump_modes, preamble, modeList, definitions, List.filterMap_append,
    filterMap_cons_toList, filterMap_map_none, filterMap_flatMap_blocks, h, Item.defines]

theorem modeRecords_modeTables (e : Env V) (m : CELTMode V) :
    modeRecords (modeTables e m) = [] := by
  have hb : ∀ k, (bitrevBlock m k).filterMap Item.modeHead = [] := by
    intro k
    simp [-List.filterMap_map, bitrevBlock, List.filterMap_append, filterMap_cons_toList, filterMap_map_none,
      Item.modeHead]
  have hs : ∀ k, (stateBlock e m k).filterMap Item.modeHead = [] := by
    intro k
    unfold stateBlock
    cases e.scale <;>
      simp [-List.filterMap_map, List.filterMap_append, filterMap_cons_toList, filterMap_map_none, Item.modeHead]
  unfold modeTables eBandsBlock allocBlock
  cases standard m <;>
    simp [-List.filterMap_map, modeRecords, windowBlock, windowElems, logNBlock, cacheBlock, fftBlock,
      fftTwiddlesOpen, mdctBlock, List.filterMap_append, filterMap_cons_toList,
      filterMap_map_none, filterMap_flatMap_blocks, flatMap_nil_fun, hb, hs,
      Item.modeHead]

theorem modeRecords_modeRecord (e : Env V) (m : CELTMode V) :
    modeRecords (modeRecord e m) = [Sym.mode m.Fs (mdctSize m) m.overlap] := by
  unfold modeRecord
  cases standard m <;>
    simp [-List.filterMap_map, modeRecords, List.filterMap_append, filterMap_cons_toList, filterMap_map_none,
      Item.modeHead]

theorem modeRecords_dump_modes (e : Env V) (modes : List (CELTMode V)) :
    modeRecords (dump_modes e modes)
      = modes.map (fun m => Sym.mode m.Fs (mdctSize m) m.overlap) := by
  have h : ∀ m, (modeBlock e m).filterMap Item.modeHead
      = [Sym.mode m.Fs (mdctSize m) m.overlap] := by
    intro m
    have h1 := modeRecords_modeRecord e m
    have h2 := modeRecords_modeTables e m
    simp only [modeRecords] at h1 h2
    simp [-List.filterMap_map, modeBlock, List.filterMap_append, h1, h2]
  simp [-List.filterMap_map, dump_modes, preamble, modeList, modeRecords, List.filterMap_append,
    filterMap_cons_toList, filterMap_map_none, filterMap_flatMap_blocks, h,
    flatMap_singleton_fun, Item.modeHead]

/-! ## Standard modes, mode records and the list of modes -/

theorem standard_iff (m : CELTMode V) : standard m = true ↔ m.Fs = 400 * m.shortMdctSize := by
  simp [standard]

theorem modeBlock_within (e : Env V) (modes : List (CELTMode V)) (m : CELTMode V)
    (hm : m ∈ modes) : modeBlock e m <:+: dump_modes e modes := by
  have h1 : modeBlock e m <:+: modes.flatMap (modeBlock e) :=
    List.infix_of_mem_flatten (List.mem_map_of_mem (modeBlock e) hm)
  obtain ⟨a, b, hab⟩ := h1
  exact ⟨preamble modes ++ a, b ++ modeList modes, by simp [dump_modes, ← hab]⟩

theorem modeRecord_within (e : Env V) (modes : List (CELTMode V)) (m : CELTMode V)
    (hm : m ∈ modes) : modeRecord e m <:+: dump_modes e modes :=
  List.IsInfix.trans ⟨modeTables e m, [], by simp [modeBlock]⟩ (modeBlock_within e modes m hm)

theorem mem_map_name {t : Sym} {l : List Sym} : t.name ∈ l.map Sym.name ↔ t ∈ l := by
  constructor
  · intro h
    obtain ⟨u, hu, hn⟩ := List.mem_map.mp h
    rw [← symName_inj hn]; exact hu
  · exact List.mem_map_of_mem Sym.name

/-- C2 (amended): for a descriptor with `Fs == 400 * shortMdctSize`, its own
block of the output defines no band-edge table and its mode record, which is
part of the output, names `eband5ms` as band-edge table; the whole output
defines no table `eBands<Fs>_<frameSize>` for its key when every descriptor of
the batch with the same `(Fs, frameSize)` satisfies `Fs == 400 * shortMdctSize`
too. -/
theorem standard_mode_band_edges (e : Env V) (modes : List (CELTMode V)) (m : CELTMode V)
    (hm : m ∈ modes) (hstd : m.Fs = 400 * m.shortMdctSize) :
    (∀ a b : Int, Sym.eBands a b ∉ definitions (modeBlock e m))
    ∧ Item.ref "" "eband5ms" ",\t/* eBands */\n" ∈ modeRecord e m
    ∧ modeRecord e m <:+: dump_modes e modes
    ∧ ((∀ m' ∈ modes, m'.Fs = m.Fs → mdctSize m' = mdctSize m →
          m'.Fs = 400 * m'.shortMdctSize) →
        (Sym.eBands m.Fs (mdctSize m)).name
          ∉ (definitions (dump_modes e modes)).map Sym.name) := by
  have hs : standard m = true := (standard_iff m).mpr hstd
  refine ⟨?_, ?_, modeRecord_within e modes m hm, ?_⟩
  · intro a b
    have : definitions (modeBlock e m)
        = definitions (modeTables e m) ++ definitions (modeRecord e m) := by
      simp [modeBlock, definitions]
    rw [this, definitions_modeTables, definitions_modeRecord]
    simp [hs]
  · simp [modeRecord, hs]
  · intro hall hmem
    rw [mem_map_name, definitions_dump_modes] at hmem
    obtain ⟨m', hm', hin⟩ := List.mem_flatMap.mp hmem
    rw [definitions_modeTables] at hin
    cases hs' : standard m' with
    | true => simp [hs'] at hin
    | false =>
      simp [hs'] at hin
      have := hall m' hm' hin.1.symm hin.2.symm
      rw [(standard_iff m').mpr this] at hs'
      exact absurd hs' (by decide)

/-- The claim of C2 fails on a batch of a standard descriptor (48000 Hz, two
short transforms of 120) and a descriptor of the same rate and frame size
that is not standard (one short transform of 240): the output holds the
band-edge table for the key `(48000, 240)`. -/
theorem standard_mode_band_edges_counterexample :
    (sampleMode 48000 120 2 4).Fs = 400 * (sampleMode 48000 120 2 4).shortMdctSize
    ∧ Sym.eBands (sampleMode 48000 120 2 4).Fs (mdctSize (sampleMode 48000 120 2 4))
        ∈ definitions
            (dump_modes (fixedPoint 8) [sampleMode 48000 120 2 4, sampleMode 48000 240 1 4])
    ∧ "static const opus_int16 eBands48000_240[3] = \x7b\n"
        ∈ (dump_modes (fixedPoint 8) [sampleMode 48000 120 2 4, sampleMode 48000 240 1 4]).map
            Item.render := by
  decide

theorem standard_mode_band_edges_witness :
    (∀ a b : Int, Sym.eBands a b
        ∉ definitions (modeBlock (fixedPoint 8) (sampleMode 48000 120 2 4)))
    ∧ Item.ref "" "eband5ms" ",\t/* eBands */\n"
        ∈ modeRecord (fixedPoint 8) (sampleMode 48000 120 2 4)
    ∧ modeRecord (fixedPoint 8) (sampleMode 48000 120 2 4)
        <:+: dump_modes (fixedPoint 8) [sampleMode 48000 120 2 4, sampleMode 8000 40 3 4]
    ∧ ((∀ m' ∈ [sampleMode 48000 120 2 4, sampleMode 8000 40 3 4],
          m'.Fs = (sampleMode 48000 120 2 4).Fs →
          mdctSize m' = mdctSize (sampleMode 48000 120 2 4) →
          m'.Fs = 400 * m'.shortMdctSize) →
        (Sym.eBands (sampleMode 48000 120 2 4).Fs (mdctSize (sampleMode 48000 120 2 4))).name
          ∉ (definitions
              (dump_modes (fixedPoint 8)
                [sampleMode 48000 120 2 4, sampleMode 8000 40 3 4])).map Sym.name) :=
  standard_mode_band_edges (fixedPoint 8) [sampleMode 48000 120 2 4, sampleMode 8000 40 3 4]
    (sampleMode 48000 120 2 4) (List.mem_cons_self _ _) (by decide)

/-- C8: the `CELTMode` records of the output are, in order, the records
`mode<Fs>_<frameSize>_<overlap>` of the input descriptors: one per descriptor,
none left out and none merged, whatever descriptors repeat. -/
theorem mode_records_one_per_descriptor (e : Env V) (modes : List (CELTMode V)) :
    modeRecords (dump_modes e modes)
        = modes.map (fun m => Sym.mode m.Fs (mdctSize m) m.overlap)
    ∧ (modeRecords (dump_modes e modes)).length = modes.length
    ∧ ∀ m ∈ modes, modeRecord e m <:+: dump_modes e modes
        ∧ (modeRecord e m).head? = some (Item.recordOpen "CELTMode"
              (Sym.mode m.Fs (mdctSize m) m.overlap)) := by
  refine ⟨modeRecords_dump_modes e modes, by simp [modeRecords_dump_modes], ?_⟩
  intro m hm
  exact ⟨modeRecord_within e modes m hm, by simp [modeRecord]⟩

theorem listHead_not_in_modeBlock (e : Env V) (m : CELTMode V) :
    Item.listOpen ∉ modeBlock e m ∧ ∀ n : Int, Item.totalModes n ∉ modeBlock e m := by
  have hb : ∀ k, Item.listOpen ∉ bitrevBlock m k ∧ ∀ n : Int, Item.totalModes n ∉ bitrevBlock m k := by
    intro k; simp [bitrevBlock]
  have hs : ∀ k, Item.listOpen ∉ stateBlock e m k
      ∧ ∀ n : Int, Item.totalModes n ∉ stateBlock e m k := by
    intro k
    unfold stateBlock
    cases e.scale <;> simp
  unfold modeBlock modeTables eBandsBlock allocBlock modeRecord
  cases standard m <;>
    simp [windowBlock, windowElems, logNBlock, cacheBlock, fftBlock, fftTwiddlesOpen, mdctBlock,
      hb, hs]

/-- C3: the output ends with the definition of `TOTAL_MODES` as the number
of modes, the head of `static_mode_list`, one entry
`&mode<Fs>_<frameSize>_<overlap>` per input descriptor in input order, and
the closing line; neither `TOTAL_MODES` nor the list head occurs before. -/
theorem mode_list_in_input_order (e : Env V) (modes : List (CELTMode V)) :
    ∃ pre : List Item,
      dump_modes e modes
        = pre ++ [Item.totalModes (modes.length : Int), Item.listOpen]
          ++ modes.map (fun m =>
              Item.ref "&" (Sym.mode m.Fs (mdctSize m) m.overlap).name ",\n")
          ++ [Item.close]
      ∧ Item.listOpen ∉ pre ∧ (∀ n : Int, Item.totalModes n ∉ pre)
      ∧ (modes.map (fun m =>
              Item.ref "&" (Sym.mode m.Fs (mdctSize m) m.overlap).name ",\n")).length
          = modes.length := by
  refine ⟨preamble modes ++ modes.flatMap (modeBlock e)
      ++ [.text "\n", .text "/* List of all the available modes */\n"], ?_, ?_, ?_, by simp⟩
  · simp [dump_modes, modeList]
  · have := fun m => (listHead_not_in_modeBlock e m).1
    simp [preamble, List.mem_flatMap, this]
  · intro n
    have := fun m => (listHead_not_in_modeBlock e m).2 n
    simp [preamble, List.mem_flatMap, this]

/-- C5: two conditionals of one output whose guard names are the same
string have the same guard: the same kind of table and the same key
integers. -/
theorem guard_names_collision_free (e : Env V) (modes : List (CELTMode V)) (g h : Guard)
    (_hg : Item.ifndef g ∈ dump_modes e modes) (_hh : Item.ifndef h ∈ dump_modes e modes)
    (hname : g.name = h.name) : g = h ∧ g.pfx = h.pfx ∧ g.keys = h.keys := by
  have := guardName_inj hname
  subst this
  exact ⟨rfl, rfl, rfl⟩

theorem guard_names_collision_free_witness :
    Guard.window 4 = Guard.window (2 + 2)
      ∧ (Guard.window 4).pfx = (Guard.window (2 + 2)).pfx
      ∧ (Guard.window 4).keys = (Guard.window (2 + 2)).keys :=
  guard_names_collision_free (fixedPoint 8) [sampleMode 48000 120 2 4, sampleMode 48000 240 1 4]
    (Guard.window 4) (Guard.window (2 + 2)) (by decide) (by decide) (by decide)

/-! ## The preprocessor -/

theorem Cpp.run_append (s : Cpp) (xs ys : List Item) :
    Cpp.run s (xs ++ ys) = Cpp.run (Cpp.run s xs) ys := by
  simp [Cpp.run, List.foldl_append]

theorem Cpp.run_cons (s : Cpp) (i : Item) (xs : List Item) :
    Cpp.run s (i :: xs) = Cpp.run (s.step i) xs := rfl

theorem Cpp.run_nil (s : Cpp) : Cpp.run s [] = s := rfl

theorem Cpp.step_plain (s : Cpp) (i : Item) (h : i.plain = true) :
    s.step i = if s.skip = 0 then { s with kept := s.kept ++ [i] } else s := by
  cases i <;> first | rfl | (simp [Item.plain] at h)

theorem Cpp.run_plain : ∀ (xs : List Item) (s : Cpp), (∀ i ∈ xs, i.plain = true) →
    Cpp.run s xs = if s.skip = 0 then { s with kept := s.kept ++ xs } else s := by
  intro xs
  induction xs with
  | nil => intro s _; simp [Cpp.run_nil]
  | cons i xs ih =>
    intro s h
    rw [Cpp.run_cons, Cpp.step_plain s i (h i (by simp)), ih _ (fun j hj => h j (by simp [hj]))]
    by_cases hs : s.skip = 0 <;> simp [hs]

theorem Cpp.run_block_skip (D : List String) (k : Nat) (K : List Item) (g : Guard)
    (body : List Item) (hb : ∀ i ∈ body, i.plain = true) :
    Cpp.run ⟨D, k + 1, K⟩ (guardedBlock g body) = ⟨D, k + 1, K⟩ := by
  simp [guardedBlock, Cpp.run_cons, Cpp.run_append, Cpp.step, Cpp.run_plain body _ hb, Cpp.run_nil]

theorem Cpp.run_block_known (D : List String) (K : List Item) (g : Guard)
    (body : List Item) (hb : ∀ i ∈ body, i.plain = true) (hg : g.name ∈ D) :
    Cpp.run ⟨D, 0, K⟩ (guardedBlock g body) = ⟨D, 0, K ++ [.text "\n"]⟩ := by
  simp [guardedBlock, Cpp.run_cons, Cpp.run_append, Cpp.step, Cpp.run_plain body _ hb, Cpp.run_nil,
    hg]

theorem Cpp.run_block_new (D : List String) (K : List Item) (g : Guard)
    (body : List Item) (hb : ∀ i ∈ body, i.plain = true) (hg : g.name ∉ D) :
    Cpp.run ⟨D, 0, K⟩ (guardedBlock g body) = ⟨g.name :: D, 0, K ++ body ++ [.text "\n"]⟩ := by
  simp [guardedBlock, Cpp.run_cons, Cpp.run_append, Cpp.step, Cpp.run_plain body _ hb, Cpp.run_nil,
    hg]

theorem Cpp.run_open_new (D : List String) (K : List Item) (g : Guard)
    (body : List Item) (hb : ∀ i ∈ body, i.plain = true) (hg : g.name ∉ D) :
    Cpp.run ⟨D, 0, K⟩ ([.ifndef g, .define g] ++ body) = ⟨g.name :: D, 0, K ++ body⟩ := by
  simp [Cpp.run_cons, Cpp.step, Cpp.run_plain body _ hb, hg]

theorem tableDefs_append (xs ys : List Item) :
    tableDefs (xs ++ ys) = tableDefs xs ++ tableDefs ys := by
  simp [tableDefs, definitions, List.filterMap_append]

theorem Guard.tables_nodup (g : Guard) : g.tables.Nodup := by
  cases g <;> simp [Guard.tables]

theorem Guard.tables_guard (g : Guard) : ∀ t ∈ g.tables, t.guard = some g := by
  cases g <;> simp [Guard.tables, Sym.guard]

theorem Cpp.Le_refl (s : Cpp) : Cpp.Le s s := ⟨fun _ h => h, fun _ h => h⟩

theorem Cpp.Le_trans {a b c : Cpp} (h1 : Cpp.Le a b) (h2 : Cpp.Le b c) : Cpp.Le a c :=
  ⟨fun x h => h2.1 x (h1.1 x h), fun t h => h2.2 t (h1.2 t h)⟩

/-- Text without a table definition leaves the invariant. -/
theorem Cpp.Inv_plain (s : Cpp) (xs : List Item) (hs : Cpp.Inv s)
    (hp : ∀ i ∈ xs, i.plain = true) (ht : tableDefs xs = []) :
    Cpp.Inv (Cpp.run s xs) ∧ Cpp.Le s (Cpp.run s xs)
      ∧ (Cpp.run s xs).defined = s.defined ∧ (Cpp.run s xs).kept = s.kept ++ xs := by
  obtain ⟨D, k, K⟩ := s
  obtain ⟨h0, h1, h2, h3⟩ := hs
  simp only at h0 h1 h2 h3
  subst h0
  rw [Cpp.run_plain xs _ hp, if_pos rfl]
  refine ⟨⟨rfl, ?_, ?_, ?_⟩, ⟨fun _ h => h, ?_⟩, rfl, rfl⟩
  · simpa [tableDefs_append, ht] using h1
  · simpa [tableDefs_append, ht] using h2
  · simpa [tableDefs_append, ht] using h3
  · simp [tableDefs_append, ht]

/-- The head of a conditional whose guard is new: guard and tables are added. -/
theorem Cpp.Inv_open (s : Cpp) (g : Guard) (body : List Item) (hs : Cpp.Inv s)
    (hp : ∀ i ∈ body, i.plain = true) (ht : tableDefs body = g.tables)
    (hg : g.name ∉ s.defined) :
    Cpp.Inv (Cpp.run s ([.ifndef g, .define g] ++ body))
      ∧ Cpp.Le s (Cpp.run s ([.ifndef g, .define g] ++ body))
      ∧ g.name ∈ (Cpp.run s ([.ifndef g, .define g] ++ body)).defined := by
  obtain ⟨D, k, K⟩ := s
  obtain ⟨h0, h1, h2, h3⟩ := hs
  simp only at h0 h1 h2 h3 hg
  subst h0
  rw [Cpp.run_open_new D K g body hp hg]
  refine ⟨⟨rfl, ?_, ?_, ?_⟩, ⟨?_, ?_⟩, ?_⟩
  · simp only [tableDefs_append, ht]
    refine List.Nodup.append h1 g.tables_nodup ?_
    intro t htK htg
    obtain ⟨g', hg1, hg2⟩ := h2 t htK
    rw [g.tables_guard t htg] at hg1
    cases hg1
    exact hg hg2
  · intro t ht'
    simp only [tableDefs_append, ht, List.mem_append] at ht'
    rcases ht' with ht' | ht'
    · obtain ⟨g', hg1, hg2⟩ := h2 t ht'
      exact ⟨g', hg1, List.mem_cons_of_mem _ hg2⟩
    · exact ⟨g, g.tables_guard t ht', List.mem_cons_self _ _⟩
  · intro g' hg' t ht'
    simp only [tableDefs_append, ht, List.mem_append]
    rcases List.mem_cons.mp hg' with hEq | hin
    · rw [guardName_inj hEq] at ht'
      exact Or.inr ht'
    · exact Or.inl (h3 g' hin t ht')
  · intro x hx; exact List.mem_cons_of_mem _ hx
  · intro t ht'
    simp only [tableDefs_append, List.mem_append]
    exact Or.inl ht'
  · exact List.mem_cons_self _ _

/-- The closing lines of a conditional that was kept. -/
theorem Cpp.Inv_close (s : Cpp) (hs : Cpp.Inv s) :
    Cpp.Inv (Cpp.run s [.endif, .text "\n"]) ∧ Cpp.Le s (Cpp.run s [.endif, .text "\n"])
      ∧ (Cpp.run s [.endif, .text "\n"]).defined = s.defined := by
  obtain ⟨D, k, K⟩ := s
  obtain ⟨h0, h1, h2, h3⟩ := hs
  simp only at h0 h1 h2 h3
  subst h0
  have : Cpp.run ⟨D, 0, K⟩ [.endif, .text "\n"] = ⟨D, 0, K ++ [.text "\n"]⟩ := by
    simp [Cpp.run_cons, Cpp.step, Cpp.run_nil]
  rw [this]
  have ht : tableDefs (K ++ [Item.text "\n"]) = tableDefs K := by
    simp [tableDefs_append, tableDefs, definitions, Item.defines]
  exact ⟨⟨rfl, by rw [ht]; exact h1, by rw [ht]; exact h2, by rw [ht]; exact h3⟩,
    ⟨fun _ h => h, by rw [ht]; exact fun _ h => h⟩, rfl⟩

/-- A whole conditional leaves the invariant and its guard defined. -/
theorem Cpp.Inv_block (s : Cpp) (g : Guard) (body : List Item) (hs : Cpp.Inv s)
    (hp : ∀ i ∈ body, i.plain = true) (ht : tableDefs body = g.tables) :
    Cpp.Inv (Cpp.run s (guardedBlock g body)) ∧ Cpp.Le s (Cpp.run s (guardedBlock g body))
      ∧ g.name ∈ (Cpp.run s (guardedBlock g body)).defined := by
  by_cases hg : g.name ∈ s.defined
  · obtain ⟨D, k, K⟩ := s
    have h0 : k = 0 := hs.1
    subst h0
    rw [Cpp.run_block_known D K g body hp hg]
    have := Cpp.Inv_plain ⟨D, 0, K⟩ [.text "\n"] hs (by simp [Item.plain])
      (by simp [tableDefs, definitions, Item.defines])
    rw [Cpp.run_plain _ _ (by simp [Item.plain])] at this
    exact ⟨this.1, this.2.1, hg⟩
  · have h1 := Cpp.Inv_open s g body hs hp ht hg
    have h2 := Cpp.Inv_close _ h1.1
    have e : guardedBlock g body = ([.ifndef g, .define g] ++ body) ++ [.endif, .text "\n"] := rfl
    rw [e, Cpp.run_append]
    exact ⟨h2.1, Cpp.Le_trans h1.2.1 h2.2.1, by rw [h2.2.2]; exact h1.2.2⟩

theorem Cpp.Inv_simple (s : Cpp) (g : Guard) (xs : List Item) (hs : Cpp.Inv s)
    (hx : Simple g xs) :
    Cpp.Inv (Cpp.run s xs) ∧ Cpp.Le s (Cpp.run s xs) ∧ g.name ∈ (Cpp.run s xs).defined := by
  obtain ⟨body, rfl, hp, ht⟩ := hx
  exact Cpp.Inv_block s g body hs hp ht

theorem Cpp.run_simple_skip (D : List String) (k : Nat) (K : List Item) (g : Guard)
    (xs : List Item) (hx : Simple g xs) : Cpp.run ⟨D, k + 1, K⟩ xs = ⟨D, k + 1, K⟩ := by
  obtain ⟨body, rfl, hp, _⟩ := hx
  exact Cpp.run_block_skip D k K g body hp

/-- A run of conditionals, each simple, leaves the invariant. -/
theorem Cpp.Inv_simples {α : Type} (g : α → Guard) (f : α → List Item)
    (hf : ∀ a, Simple (g a) (f a)) : ∀ (l : List α) (s : Cpp), Cpp.Inv s →
    Cpp.Inv (Cpp.run s (l.flatMap f)) ∧ Cpp.Le s (Cpp.run s (l.flatMap f)) := by
  intro l
  induction l with
  | nil => intro s hs; exact ⟨hs, Cpp.Le_refl s⟩
  | cons a l ih =>
    intro s hs
    rw [List.flatMap_cons, Cpp.run_append]
    have h1 := Cpp.Inv_simple s (g a) (f a) hs (hf a)
    have h2 := ih _ h1.1
    exact ⟨h2.1, Cpp.Le_trans h1.2.1 h2.2⟩

theorem Cpp.run_simples_skip {α : Type} (g : α → Guard) (f : α → List Item)
    (hf : ∀ a, Simple (g a) (f a)) (D : List String) (k : Nat) (K : List Item) :
    ∀ l : List α, Cpp.run ⟨D, k + 1, K⟩ (l.flatMap f) = ⟨D, k + 1, K⟩ := by
  intro l
  induction l with
  | nil => rfl
  | cons a l ih =>
    rw [List.flatMap_cons, Cpp.run_append, Cpp.run_simple_skip D k K (g a) (f a) (hf a), ih]

/-! ## The shape of the blocks -/

theorem plain_of_all (body : List Item) (h : body.all Item.plain = true) :
    ∀ i ∈ body, i.plain = true := List.all_eq_true.mp h

theorem eBandsBlock_simple (m : CELTMode V) (h : standard m = false) :
    Simple (.ebands m.Fs (mdctSize m)) (eBandsBlock m) := by
  refine ⟨[.tableOpen "opus_int16" (.eBands m.Fs (mdctSize m)) (m.nbEBands + 2)]
      ++ (upTo (m.nbEBands + 2)).map (fun j => .elem (fmtD (m.eBands j)) ", ") ++ [.close],
    by simp [eBandsBlock, guardedBlock, h], ?_, ?_⟩
  · apply plain_of_all
    simp [List.all_append, List.all_map, Item.plain]
  · simp [-List.filterMap_map, tableDefs, definitions, List.filterMap_append,
      filterMap_cons_toList, filterMap_map_none, Item.defines, Guard.tables, Sym.isMode]

theorem windowBlock_simple (e : Env V) (m : CELTMode V) :
    Simple (.window m.overlap) (windowBlock e m) := by
  refine ⟨[.tableOpen "opus_val16" (.window m.overlap) m.overlap]
      ++ windowElems e m ++ [.close],
    by simp [windowBlock, guardedBlock], ?_, ?_⟩
  · apply plain_of_all
    simp [windowElems, List.all_append, List.all_map, Item.plain]
  · simp [-List.filterMap_map, windowElems, tableDefs, definitions, List.filterMap_append,
      filterMap_cons_toList, filterMap_map_none, Item.defines, Guard.tables, Sym.isMode]

theorem allocBlock_simple (m : CELTMode V) (h : standard m = false) :
    Simple (.allocVectors m.Fs (mdctSize m)) (allocBlock m) := by
  refine ⟨[.tableOpen "unsigned char" (.allocVectors m.Fs (mdctSize m))
        (m.nbEBands * m.nbAllocVectors)]
      ++ (upTo m.nbAllocVectors).flatMap (fun j =>
         (upTo m.nbEBands).map (fun k =>
           .elem (fmt2D (m.allocVectors ((j : Int) * m.nbEBands + (k : Int)).toNat)) ", ")
         ++ [.text "\n"]) ++ [.close],
    by simp [allocBlock, guardedBlock, h], ?_, ?_⟩
  · intro i hi
    simp only [List.mem_append, List.mem_singleton, List.mem_flatMap, List.mem_map] at hi
    rcases hi with (rfl | ⟨j, _, ⟨k, _, rfl⟩ | rfl⟩) | rfl <;> rfl
  · simp [-List.filterMap_map, tableDefs, definitions, List.filterMap_append,
      filterMap_cons_toList, filterMap_map_none, filterMap_flatMap_blocks, flatMap_nil_fun,
      Item.defines, Guard.tables, Sym.isMode]

theorem logNBlock_simple (m : CELTMode V) : Simple (.logN (framerate m)) (logNBlock m) := by
  refine ⟨[.tableOpen "opus_int16" (.logN (framerate m)) m.nbEBands]
      ++ (upTo m.nbEBands).map (fun j => .elem (fmtD (m.logN j)) ", ") ++ [.close],
    by simp [logNBlock, guardedBlock], ?_, ?_⟩
  · apply plain_of_all
    simp [List.all_append, List.all_map, Item.plain]
  · simp [-List.filterMap_map, tableDefs, definitions, List.filterMap_append,
      filterMap_cons_toList, filterMap_map_none, Item.defines, Guard.tables, Sym.isMode]

theorem cacheBlock_simple (m : CELTMode V) : Simple (.pulseCache (cacheRate m)) (cacheBlock m) := by
  refine ⟨[.tableOpen "opus_int16" (.cacheIndex (cacheRate m)) ((m.maxLM + 2) * m.nbEBands)]
      ++ (upTo (m.nbEBands * (m.maxLM + 2))).map
           (fun j => .elem (fmtD (m.cache.index j)) ("," ++ sepAt 16 15 j))
      ++ [.close, .tableOpen "unsigned char" (.cacheBits (cacheRate m)) m.cache.size]
      ++ (upTo m.cache.size).map
           (fun j => .elem (fmtD (m.cache.bits j)) ("," ++ sepAt 16 15 j))
      ++ [.close,
          .tableOpen "unsigned char" (.cacheCaps (cacheRate m)) ((m.maxLM + 1) * 2 * m.nbEBands)]
      ++ (upTo ((m.maxLM + 1) * 2 * m.nbEBands)).map
           (fun j => .elem (fmtD (m.cache.caps j)) ("," ++ sepAt 16 15 j))
      ++ [.close],
    by simp [cacheBlock, guardedBlock], ?_, ?_⟩
  · apply plain_of_all
    simp [List.all_append, List.all_map, Item.plain]
  · simp [-List.filterMap_map, tableDefs, definitions, List.filterMap_append,
      filterMap_cons_toList, filterMap_map_none, Item.defines, Guard.tables, Sym.isMode]

theorem bitrevBlock_simple (m : CELTMode V) (k : Nat) :
    Simple (.fftBitrev (m.mdct.kfft k).nfft) (bitrevBlock m k) := by
  refine ⟨[.tableOpen "opus_int16" (.fftBitrev (m.mdct.kfft k).nfft) (m.mdct.kfft k).nfft]
      ++ (upTo (m.mdct.kfft k).nfft).map
           (fun j => .elem (fmtD ((m.mdct.kfft k).bitrev j)) ("," ++ sepAt 16 15 j))
      ++ [.close],
    by simp [bitrevBlock, guardedBlock], ?_, ?_⟩
  · apply plain_of_all
    simp [List.all_append, List.all_map, Item.plain]
  · simp [-List.filterMap_map, tableDefs, definitions, List.filterMap_append,
      filterMap_cons_toList, filterMap_map_none, Item.defines, Guard.tables, Sym.isMode]

theorem stateBlock_simple (e : Env V) (m : CELTMode V) (k : Nat) :
    Simple (.fftState m.Fs (mdctSize m) k) (stateBlock e m k) := by
  refine ⟨[.recordOpen "kiss_fft_state" (.fftState m.Fs (mdctSize m) k),
       .field (fmtD (m.mdct.kfft k).nfft) "nfft"]
      ++ (match e.scale with
          | some f => [.field (f (m.mdct.kfft k).scale) "scale"]
          | none => [])
      ++ [.field (fmtD (m.mdct.kfft k).shift) "shift", .text "\x7b"]
      ++ (List.range (2 * e.MAXFACTORS)).map
           (fun j => .text (fmtD ((m.mdct.kfft k).factors j) ++ ", "))
      ++ [.text "\x7d,\t/* factors */\n",
          .ref "" (Sym.fftBitrev (m.mdct.kfft k).nfft).name ",\t/* bitrev */\n",
          .ref "" (Sym.fftTwiddles m.Fs (mdctSize m)).name ",\t/* bitrev */\n",
          .close],
    by simp [stateBlock, guardedBlock], ?_, ?_⟩
  · apply plain_of_all
    cases e.scale <;> simp [List.all_append, List.all_map, Item.plain]
  · cases e.scale <;>
    simp [-List.filterMap_map, tableDefs, definitions, List.filterMap_append,
      filterMap_cons_toList, filterMap_map_none, Item.defines, Guard.tables, Sym.isMode]

theorem mdctBlock_simple (e : Env V) (m : CELTMode V) :
    Simple (.mdctTwiddles (mdctSize m)) (mdctBlock e m) := by
  refine ⟨[.tableOpen "opus_val16" (.mdctTwiddles (mdctSize m)) (Int.tdiv m.mdct.n 4 + 1)]
      ++ (upTo (Int.tdiv m.mdct.n 4 + 1)).map
           (fun j => .elem (e.word16 (m.mdct.trig j)) ("," ++ sepAt 6 5 j))
      ++ [.close],
    by simp [mdctBlock, guardedBlock], ?_, ?_⟩
  · apply plain_of_all
    simp [List.all_append, List.all_map, Item.plain]
  · simp [-List.filterMap_map, tableDefs, definitions, List.filterMap_append,
      filterMap_cons_toList, filterMap_map_none, Item.defines, Guard.tables, Sym.isMode]

theorem fftTwiddlesOpen_shape (e : Env V) (m : CELTMode V) :
    ∃ body : List Item,
      fftTwiddlesOpen e m
        = [.ifndef (.fftTwiddles m.Fs (mdctSize m)), .define (.fftTwiddles m.Fs (mdctSize m))]
          ++ body
      ∧ (∀ i ∈ body, i.plain = true)
      ∧ tableDefs body = (Guard.fftTwiddles m.Fs (mdctSize m)).tables := by
  refine ⟨[.tableOpen "kiss_twiddle_cpx" (.fftTwiddles m.Fs (mdctSize m)) (m.mdct.kfft 0).nfft]
      ++ (upTo (m.mdct.kfft 0).nfft).map (fun j =>
           .elem ("\x7b" ++ e.word16 ((m.mdct.kfft 0).twiddles j).1 ++ ", "
                    ++ e.word16 ((m.mdct.kfft 0).twiddles j).2 ++ "\x7d")
                 ("," ++ sepAt 3 2 j))
      ++ [.close],
    by simp [fftTwiddlesOpen], ?_, ?_⟩
  · apply plain_of_all
    simp [List.all_append, List.all_map, Item.plain]
  · simp [-List.filterMap_map, tableDefs, definitions, List.filterMap_append,
      filterMap_cons_toList, filterMap_map_none, Item.defines, Guard.tables, Sym.isMode]

/-- The FFT part of a mode, whose outer conditional holds the conditionals of
the bit-reversal tables and of the states, leaves the invariant. -/
theorem Cpp.Inv_fftBlock (e : Env V) (m : CELTMode V) (s : Cpp) (hs : Cpp.Inv s) :
    Cpp.Inv (Cpp.run s (fftBlock e m)) ∧ Cpp.Le s (Cpp.run s (fftBlock e m))
      ∧ (Guard.fftTwiddles m.Fs (mdctSize m)).name ∈ (Cpp.run s (fftBlock e m)).defined := by
  obtain ⟨body, hshape, hp, ht⟩ := fftTwiddlesOpen_shape e m
  have hB := bitrevBlock_simple m
  have hS := stateBlock_simple e m
  unfold fftBlock
  rw [hshape]
  by_cases hg : (Guard.fftTwiddles m.Fs (mdctSize m)).name ∈ s.defined
  · obtain ⟨D, k, K⟩ := s
    have h0 : k = 0 := hs.1
    subst h0
    have e1 : Cpp.run ⟨D, 0, K⟩
        ([.ifndef (.fftTwiddles m.Fs (mdctSize m)), .define (.fftTwiddles m.Fs (mdctSize m))]
          ++ body) = ⟨D, 0 + 1, K⟩ := by
      simp only at hg
      simp [Cpp.run_cons, Cpp.step, hg, Cpp.run_plain body _ hp]
    rw [Cpp.run_append, Cpp.run_append, Cpp.run_append, e1,
      Cpp.run_simples_skip _ _ hB D 0 K, Cpp.run_simples_skip _ _ hS D 0 K]
    have e2 : Cpp.run ⟨D, 0 + 1, K⟩ [.endif, .text "\n"] = Cpp.run ⟨D, 0, K⟩ [.text "\n"] := by
      simp [Cpp.run_cons, Cpp.step]
    rw [e2]
    have := Cpp.Inv_plain ⟨D, 0, K⟩ [.text "\n"] hs (by simp [Item.plain])
      (by simp [tableDefs, definitions, Item.defines])
    exact ⟨this.1, this.2.1, by rw [this.2.2.1]; exact hg⟩
  · rw [Cpp.run_append, Cpp.run_append, Cpp.run_append]
    have h1 := Cpp.Inv_open s _ body hs hp ht hg
    have h2 := Cpp.Inv_simples _ _ hB (upTo (m.mdct.maxshift + 1)) _ h1.1
    have h3 := Cpp.Inv_simples _ _ hS (upTo (m.mdct.maxshift + 1)) _ h2.1
    have h4 := Cpp.Inv_close _ h3.1
    exact ⟨h4.1, Cpp.Le_trans h1.2.1 (Cpp.Le_trans h2.2 (Cpp.Le_trans h3.2 h4.2.1)),
      h4.2.1.1 _ (h3.2.1 _ (h2.2.1 _ h1.2.2))⟩

theorem modeRecord_plain (e : Env V) (m : CELTMode V) :
    (∀ i ∈ modeRecord e m, i.plain = true) ∧ tableDefs (modeRecord e m) = [] := by
  constructor
  · apply plain_of_all
    unfold modeRecord
    cases standard m <;> simp [List.all_append, List.all_map, Item.plain]
  · simp [tableDefs, definitions_modeRecord, Sym.isMode]

/-- One turn of the loop over the modes leaves the invariant, and the guards
it emits in every case are defined after it. -/
theorem Cpp.Inv_modeBlock (e : Env V) (m : CELTMode V) (s : Cpp) (hs : Cpp.Inv s) :
    Cpp.Inv (Cpp.run s (modeBlock e m)) ∧ Cpp.Le s (Cpp.run s (modeBlock e m))
      ∧ (Guard.window m.overlap).name ∈ (Cpp.run s (modeBlock e m)).defined
      ∧ (Guard.logN (framerate m)).name ∈ (Cpp.run s (modeBlock e m)).defined
      ∧ (Guard.pulseCache (cacheRate m)).name ∈ (Cpp.run s (modeBlock e m)).defined
      ∧ (Guard.fftTwiddles m.Fs (mdctSize m)).name ∈ (Cpp.run s (modeBlock e m)).defined
      ∧ (Guard.mdctTwiddles (mdctSize m)).name ∈ (Cpp.run s (modeBlock e m)).defined := by
  unfold modeBlock modeTables
  simp only [Cpp.run_append]
  have a1 : Cpp.Inv (Cpp.run s (eBandsBlock m)) ∧ Cpp.Le s (Cpp.run s (eBandsBlock m)) := by
    cases h : standard m with
    | false => exact ⟨(Cpp.Inv_simple s _ _ hs (eBandsBlock_simple m h)).1,
        (Cpp.Inv_simple s _ _ hs (eBandsBlock_simple m h)).2.1⟩
    | true =>
      have : eBandsBlock m = [] := by simp [eBandsBlock, h]
      rw [this]; exact ⟨hs, Cpp.Le_refl s⟩
  have a2 := Cpp.Inv_simple _ _ _ a1.1 (windowBlock_simple e m)
  have a3 : Cpp.Inv (Cpp.run (Cpp.run (Cpp.run s (eBandsBlock m)) (windowBlock e m)) (allocBlock m))
      ∧ Cpp.Le (Cpp.run (Cpp.run s (eBandsBlock m)) (windowBlock e m))
          (Cpp.run (Cpp.run (Cpp.run s (eBandsBlock m)) (windowBlock e m)) (allocBlock m)) := by
    cases h : standard m with
    | false => exact ⟨(Cpp.Inv_simple _ _ _ a2.1 (allocBlock_simple m h)).1,
        (Cpp.Inv_simple _ _ _ a2.1 (allocBlock_simple m h)).2.1⟩
    | true =>
      have : allocBlock m = [] := by simp [allocBlock, h]
      rw [this]; exact ⟨a2.1, Cpp.Le_refl _⟩
  have a4 := Cpp.Inv_simple _ _ _ a3.1 (logNBlock_simple m)
  have a5 := Cpp.Inv_simple _ _ _ a4.1 (cacheBlock_simple m)
  have a6 := Cpp.Inv_fftBlock e m _ a5.1
  have a7 := Cpp.Inv_simple _ _ _ a6.1 (mdctBlock_simple e m)
  have a8 := Cpp.Inv_plain _ (modeRecord e m) a7.1 (modeRecord_plain e m).1 (modeRecord_plain e m).2
  refine ⟨a8.1, ?_, ?_, ?_, ?_, ?_, ?_⟩
  · exact Cpp.Le_trans a1.2 (Cpp.Le_trans a2.2.1 (Cpp.Le_trans a3.2 (Cpp.Le_trans a4.2.1
      (Cpp.Le_trans a5.2.1 (Cpp.Le_trans a6.2.1 (Cpp.Le_trans a7.2.1 a8.2.1))))))
  · exact a8.2.1.1 _ (a7.2.1.1 _ (a6.2.1.1 _ (a5.2.1.1 _ (a4.2.1.1 _ (a3.2.1 _ a2.2.2)))))
  · exact a8.2.1.1 _ (a7.2.1.1 _ (a6.2.1.1 _ (a5.2.1.1 _ a4.2.2)))
  · exact a8.2.1.1 _ (a7.2.1.1 _ (a6.2.1.1 _ a5.2.2))
  · exact a8.2.1.1 _ (a7.2.1.1 _ a6.2.2)
  · exact a8.2.1.1 _ a7.2.2

/-- The loop over the modes leaves the invariant. -/
theorem Cpp.Inv_modeBlocks (e : Env V) : ∀ (modes : List (CELTMode V)) (s : Cpp), Cpp.Inv s →
    Cpp.Inv (Cpp.run s (modes.flatMap (modeBlock e)))
      ∧ Cpp.Le s (Cpp.run s (modes.flatMap (modeBlock e)))
      ∧ ∀ m ∈ modes, (Guard.window m.overlap).name
          ∈ (Cpp.run s (modes.flatMap (modeBlock e))).defined := by
  intro modes
  induction modes with
  | nil => intro s hs; exact ⟨hs, Cpp.Le_refl s, by simp⟩
  | cons m modes ih =>
    intro s hs
    rw [List.flatMap_cons, Cpp.run_append]
    have h1 := Cpp.Inv_modeBlock e m s hs
    have h2 := ih _ h1.1
    refine ⟨h2.1, Cpp.Le_trans h1.2.1 h2.2.1, ?_⟩
    intro m' hm'
    rcases List.mem_cons.mp hm' with rfl | h
    · exact h2.2.1.1 _ h1.2.2.1
    · exact h2.2.2 m' h

/-! ## The walk over the conditionals -/

theorem walk_append (w : Option Walk) (xs ys : List Item) :
    (xs ++ ys).foldl Walk.step w = ys.foldl Walk.step (xs.foldl Walk.step w) :=
  List.foldl_append _ _ _ _

theorem Walk.step_free (d : Nat) (i : Item) (hi : i.free = true) :
    Walk.step (some ⟨d, none⟩) i = some ⟨d, none⟩ := by
  cases i <;> simp_all [Item.free, Walk.step]

theorem Walk.step_plain_inside (d : Nat) (i : Item) (hi : i.plain = true) :
    Walk.step (some ⟨d + 1, none⟩) i = some ⟨d + 1, none⟩ := by
  cases i <;> simp_all [Item.plain, Walk.step]

theorem walk_free : ∀ (xs : List Item) (d : Nat), (∀ i ∈ xs, i.free = true) →
    xs.foldl Walk.step (some ⟨d, none⟩) = some ⟨d, none⟩ := by
  intro xs
  induction xs with
  | nil => intro d _; rfl
  | cons i xs ih =>
    intro d h
    have hi := h i (by simp)
    have hstep : Walk.step (some ⟨d, none⟩) i = some ⟨d, none⟩ := Walk.step_free d i hi
    rw [List.foldl_cons, hstep]
    exact ih d (fun j hj => h j (by simp [hj]))

theorem walk_plain_inside : ∀ (xs : List Item) (d : Nat), (∀ i ∈ xs, i.plain = true) →
    xs.foldl Walk.step (some ⟨d + 1, none⟩) = some ⟨d + 1, none⟩ := by
  intro xs
  induction xs with
  | nil => intro d _; rfl
  | cons i xs ih =>
    intro d h
    have hi := h i (by simp)
    have hstep : Walk.step (some ⟨d + 1, none⟩) i = some ⟨d + 1, none⟩ :=
      Walk.step_plain_inside d i hi
    rw [List.foldl_cons, hstep]
    exact ih d (fun j hj => h j (by simp [hj]))

theorem walk_block (d : Nat) (g : Guard) (body : List Item) (hb : ∀ i ∈ body, i.plain = true) :
    (guardedBlock g body).foldl Walk.step (some ⟨d, none⟩) = some ⟨d, none⟩ := by
  simp [guardedBlock, List.foldl_append, Walk.step, walk_plain_inside body d hb]

theorem walk_simple (d : Nat) (g : Guard) (xs : List Item) (hx : Simple g xs) :
    xs.foldl Walk.step (some ⟨d, none⟩) = some ⟨d, none⟩ := by
  obtain ⟨body, rfl, hp, _⟩ := hx
  exact walk_block d g body hp

theorem walk_simples {α : Type} (g : α → Guard) (f : α → List Item)
    (hf : ∀ a, Simple (g a) (f a)) (d : Nat) :
    ∀ l : List α, (l.flatMap f).foldl Walk.step (some ⟨d, none⟩) = some ⟨d, none⟩ := by
  intro l
  induction l with
  | nil => rfl
  | cons a l ih => rw [List.flatMap_cons, walk_append, walk_simple d (g a) (f a) (hf a), ih]

theorem walk_fftBlock (e : Env V) (m : CELTMode V) (d : Nat) :
    (fftBlock e m).foldl Walk.step (some ⟨d, none⟩) = some ⟨d, none⟩ := by
  obtain ⟨body, hshape, hp, _⟩ := fftTwiddlesOpen_shape e m
  unfold fftBlock
  rw [hshape, walk_append, walk_append, walk_append]
  have e1 : ([Item.ifndef (.fftTwiddles m.Fs (mdctSize m)),
      Item.define (.fftTwiddles m.Fs (mdctSize m))] ++ body).foldl Walk.step (some ⟨d, none⟩)
      = some ⟨d + 1, none⟩ := by
    simp [List.foldl_append, Walk.step, walk_plain_inside body d hp]
  rw [e1, walk_simples _ _ (bitrevBlock_simple m) (d + 1),
    walk_simples _ _ (stateBlock_simple e m) (d + 1)]
  simp [Walk.step]

theorem modeRecord_free (e : Env V) (m : CELTMode V) : ∀ i ∈ modeRecord e m, i.free = true := by
  apply List.all_eq_true.mp
  unfold modeRecord
  cases standard m <;> simp [List.all_append, List.all_map, Item.free, Sym.isMode]

theorem walk_modeBlock (e : Env V) (m : CELTMode V) :
    (modeBlock e m).foldl Walk.step (some ⟨0, none⟩) = some ⟨0, none⟩ := by
  have h1 : (eBandsBlock m).foldl Walk.step (some ⟨0, none⟩) = some ⟨0, none⟩ := by
    cases h : standard m with
    | false => exact walk_simple 0 _ _ (eBandsBlock_simple m h)
    | true => simp [eBandsBlock, h]
  have h3 : (allocBlock m).foldl Walk.step (some ⟨0, none⟩) = some ⟨0, none⟩ := by
    cases h : standard m with
    | false => exact walk_simple 0 _ _ (allocBlock_simple m h)
    | true => simp [allocBlock, h]
  unfold modeBlock modeTables
  simp only [walk_append]
  rw [h1, walk_simple 0 _ _ (windowBlock_simple e m), h3, walk_simple 0 _ _ (logNBlock_simple m),
    walk_simple 0 _ _ (cacheBlock_simple m), walk_fftBlock e m 0,
    walk_simple 0 _ _ (mdctBlock_simple e m), walk_free _ 0 (modeRecord_free e m)]

theorem walk_modeBlocks (e : Env V) : ∀ modes : List (CELTMode V),
    (modes.flatMap (modeBlock e)).foldl Walk.step (some ⟨0, none⟩) = some ⟨0, none⟩ := by
  intro modes
  induction modes with
  | nil => rfl
  | cons m modes ih => rw [List.flatMap_cons, walk_append, walk_modeBlock, ih]

theorem guarded_dump_modes (e : Env V) (modes : List (CELTMode V)) :
    guarded (dump_modes e modes) = true := by
  have hp : ∀ i ∈ preamble modes, i.free = true := by
    apply List.all_eq_true.mp
    simp [preamble, List.all_append, List.all_map, Item.free]
  have hl : ∀ i ∈ modeList modes, i.free = true := by
    apply List.all_eq_true.mp
    simp [modeList, List.all_append, List.all_map, Item.free]
  simp only [guarded, dump_modes, walk_append]
  rw [walk_free _ 0 hp, walk_modeBlocks, walk_free _ 0 hl]
  simp

theorem Cpp.Inv_init : Cpp.Inv ⟨[], 0, []⟩ := by
  refine ⟨rfl, ?_, ?_, ?_⟩ <;> simp [tableDefs, definitions]

/-- The state of the preprocessor at the end of the loop over the modes, and
what the list of modes adds to it: no table. -/
theorem preprocess_dump_modes (e : Env V) (modes : List (CELTMode V)) :
    ∃ s : Cpp, Cpp.Inv s
      ∧ tableDefs (preprocess (dump_modes e modes)) = tableDefs s.kept
      ∧ ∀ m ∈ modes, (Guard.window m.overlap).name ∈ s.defined := by
  have hp : (∀ i ∈ preamble modes, i.plain = true) ∧ tableDefs (preamble modes) = [] := by
    constructor
    · apply plain_of_all
      simp [preamble, List.all_append, List.all_map, Item.plain]
    · simp [-List.filterMap_map, preamble, tableDefs, definitions, List.filterMap_append,
        filterMap_cons_toList, filterMap_map_none, Item.defines]
  have h1 := Cpp.Inv_plain _ (preamble modes) Cpp.Inv_init hp.1 hp.2
  have h2 := Cpp.Inv_modeBlocks e modes _ h1.1
  refine ⟨_, h2.1, ?_, h2.2.2⟩
  rcases hs : Cpp.run (Cpp.run ⟨[], 0, []⟩ (preamble modes))
    (modes.flatMap (modeBlock e)) with ⟨D, k, K⟩
  have hk : k = 0 := by have := h2.1.1; rw [hs] at this; exact this
  subst hk
  have hr : ∀ r : List Item, (∀ i ∈ r, i.plain = true) → tableDefs r = [] →
      tableDefs (Cpp.run ⟨D, 0, K⟩ ([.text "\n", .text "/* List of all the available modes */\n",
        .totalModes (modes.length : Int), .listOpen] ++ r)).kept = tableDefs K := by
    intro r hr1 hr2
    have : Cpp.run ⟨D, 0, K⟩ ([.text "\n", .text "/* List of all the available modes */\n",
        .totalModes (modes.length : Int), .listOpen] ++ r)
        = ⟨"TOTAL_MODES" :: D, 0, K ++ [.text "\n",
            .text "/* List of all the available modes */\n", .listOpen] ++ r⟩ := by
      simp [Cpp.run_cons, Cpp.step, Cpp.run_plain r _ hr1]
    rw [this]
    simp only [tableDefs_append, hr2, List.append_nil]
    simp [tableDefs, definitions, Item.defines]
  have hm : modeList modes = [.text "\n", .text "/* List of all the available modes */\n",
      .totalModes (modes.length : Int), .listOpen]
      ++ (modes.map (fun mode =>
            Item.ref "&" (Sym.mode mode.Fs (mdctSize mode) mode.overlap).name ",\n")
          ++ [.close]) := by
    simp [modeList]
  unfold preprocess dump_modes
  rw [Cpp.run_append, Cpp.run_append, hs, hm]
  apply hr
  · apply plain_of_all
    simp [List.all_append, List.all_map, Item.plain]
  · simp [-List.filterMap_map, tableDefs, definitions, List.filterMap_append,
      filterMap_cons_toList, filterMap_map_none, Item.defines]

/-! ## Guards keep one definition of each table -/

theorem nodup_names {l : List Sym} (h : l.Nodup) : (l.map Sym.name).Nodup :=
  List.Nodup.map (fun _ _ hab => symName_inj hab) h

/-- C6: every table definition of the output lies inside a conditional
`#ifndef G` whose first line is `#define G`, all conditionals being closed at
the end; and once the conditionals are evaluated, no macro being defined at
the start, no table name is defined twice in what is kept. -/
theorem tables_guarded_and_kept_once (e : Env V) (modes : List (CELTMode V)) :
    guarded (dump_modes e modes) = true
    ∧ ((tableDefs (preprocess (dump_modes e modes))).map Sym.name).Nodup := by
  obtain ⟨s, hs, ht, _⟩ := preprocess_dump_modes e modes
  exact ⟨guarded_dump_modes e modes, by rw [ht]; exact nodup_names hs.2.1⟩

theorem window_ref_in_record (e : Env V) (m : CELTMode V) :
    Item.ref "" (Sym.window m.overlap).name ",\t/* window */\n" ∈ modeRecord e m := by
  unfold modeRecord
  cases standard m <;> simp

theorem count_window_modeTables (e : Env V) (m : CELTMode V) (X : Int) :
    (definitions (modeTables e m) ++ [Sym.mode m.Fs (mdctSize m) m.overlap]).count (Sym.window X)
      = if m.overlap = X then 1 else 0 := by
  have hb : (List.map (fun (k : Nat) => Sym.fftBitrev (m.mdct.kfft k).nfft)
      (upTo (m.mdct.maxshift + 1))).count (Sym.window X) = 0 := by
    apply List.count_eq_zero_of_not_mem
    simp
  have hs : (List.map (fun (k : Nat) => Sym.fftState m.Fs (mdctSize m) (k : Int))
      (upTo (m.mdct.maxshift + 1))).count (Sym.window X) = 0 := by
    apply List.count_eq_zero_of_not_mem
    simp
  rw [definitions_modeTables]
  cases standard m <;>
    by_cases h : m.overlap = X <;>
    simp [List.count_append, List.count_cons, hb, hs, h]

theorem count_window_raw (e : Env V) (X : Int) : ∀ modes : List (CELTMode V),
    (definitions (dump_modes e modes)).count (Sym.window X)
      = modes.countP (fun m => m.overlap == X) := by
  intro modes
  rw [definitions_dump_modes]
  induction modes with
  | nil => rfl
  | cons m modes ih =>
    rw [List.flatMap_cons, List.count_append, ih, count_window_modeTables, List.countP_cons]
    by_cases h : m.overlap = X <;> simp [h, Nat.add_comm]

/-- C1 (amended): for a batch with two descriptors of equal overlap `X`, the
output, once its conditionals are evaluated with no macro defined at the
start, holds the definition of `window<X>` exactly once, while the text as
printed holds it once for each descriptor of overlap `X`; and the mode records
of both descriptors, which are part of the output, reference `window<X>`. -/
theorem window_table_shared (e : Env V) (modes : List (CELTMode V)) (i j : Nat)
    (hi : i < modes.length) (hj : j < modes.length) (_hij : i ≠ j) (X : Int)
    (hXi : modes[i].overlap = X) (hXj : modes[j].overlap = X) :
    ((tableDefs (preprocess (dump_modes e modes))).map Sym.name).count (Sym.window X).name = 1
    ∧ ((definitions (dump_modes e modes)).map Sym.name).count (Sym.window X).name
        = modes.countP (fun m => m.overlap == X)
    ∧ (modeRecord e modes[i] <:+: dump_modes e modes
        ∧ Item.ref "" (Sym.window X).name ",\t/* window */\n" ∈ modeRecord e modes[i])
    ∧ (modeRecord e modes[j] <:+: dump_modes e modes
        ∧ Item.ref "" (Sym.window X).name ",\t/* window */\n" ∈ modeRecord e modes[j]) := by
  obtain ⟨s, hs, ht, hw⟩ := preprocess_dump_modes e modes
  have hmi : modes[i] ∈ modes := List.getElem_mem hi
  have hmj : modes[j] ∈ modes := List.getElem_mem hj
  refine ⟨?_, ?_, ⟨modeRecord_within e modes _ hmi, ?_⟩, ⟨modeRecord_within e modes _ hmj, ?_⟩⟩
  · rw [ht]
    apply List.count_eq_one_of_mem (nodup_names hs.2.1)
    apply List.mem_map_of_mem
    have := hw _ hmi
    rw [hXi] at this
    exact hs.2.2.2 _ this _ (by simp [Guard.tables])
  · rw [List.count_map_of_injective _ Sym.name (fun _ _ hab => symName_inj hab),
      count_window_raw]
  · rw [← hXi]; exact window_ref_in_record e _
  · rw [← hXj]; exact window_ref_in_record e _

set_option maxRecDepth 100000 in
/-- The claim of C1 fails on the batch of the descriptors for (48000, 240)
with short transforms of 120 and of 240, both of overlap 4: the output holds
the definition of `window4` twice, once in the block of each. -/
theorem window_table_shared_counterexample :
    (sampleMode 48000 120 2 4).overlap = (sampleMode 48000 240 1 4).overlap
    ∧ ((definitions (dump_modes (fixedPoint 8)
          [sampleMode 48000 120 2 4, sampleMode 48000 240 1 4])).map Sym.name).count
        (Sym.window 4).name = 2
    ∧ ((dump_modes (fixedPoint 8)
          [sampleMode 48000 120 2 4, sampleMode 48000 240 1 4]).map Item.render).count
        "static const opus_val16 window4[4] = \x7b\n" = 2 := by
  decide

theorem window_table_shared_witness :
    ((tableDefs (preprocess (dump_modes (fixedPoint 8)
        [sampleMode 48000 120 2 4, sampleMode 48000 240 1 4]))).map Sym.name).count
      (Sym.window 4).name = 1
    ∧ ((definitions (dump_modes (fixedPoint 8)
          [sampleMode 48000 120 2 4, sampleMode 48000 240 1 4])).map Sym.name).count
        (Sym.window 4).name
        = [sampleMode 48000 120 2 4, sampleMode 48000 240 1 4].countP (fun m => m.overlap == 4)
    ∧ (modeRecord (fixedPoint 8) (sampleMode 48000 120 2 4)
          <:+: dump_modes (fixedPoint 8) [sampleMode 48000 120 2 4, sampleMode 48000 240 1 4]
        ∧ Item.ref "" (Sym.window 4).name ",\t/* window */\n"
            ∈ modeRecord (fixedPoint 8) (sampleMode 48000 120 2 4))
    ∧ (modeRecord (fixedPoint 8) (sampleMode 48000 240 1 4)
          <:+: dump_modes (fixedPoint 8) [sampleMode 48000 120 2 4, sampleMode 48000 240 1 4]
        ∧ Item.ref "" (Sym.window 4).name ",\t/* window */\n"
            ∈ modeRecord (fixedPoint 8) (sampleMode 48000 240 1 4)) :=
  window_table_shared (fixedPoint 8) [sampleMode 48000 120 2 4, sampleMode 48000 240 1 4] 0 1
    (by decide) (by decide) (by decide) 4 rfl rfl

/-! ## Reading the window table back -/

theorem foldl_append_data (l : List String) : ∀ s : String,
    (l.foldl (fun a b => a ++ b) s).data = s.data ++ (l.map String.data).flatten := by
  induction l with
  | nil => intro s; simp
  | cons x l ih => intro s; simp [ih, String.data_append]

theorem join_data (l : List String) : (String.join l).data = (l.map String.data).flatten := by
  simp [String.join, foldl_append_data]

theorem literalsFrom_token (ds : List Char) : ∀ (cur rest : List Char),
    (∀ c ∈ ds, isNumChar c = true) →
    literalsFrom cur (ds ++ rest) = literalsFrom (cur ++ ds) rest := by
  induction ds with
  | nil => intro cur rest _; simp
  | cons d ds ih =>
    intro cur rest h
    have hd : isNumChar d = true := h d (by simp)
    have h1 : d ≠ ',' := by intro hc; rw [hc] at hd; exact absurd hd (by decide)
    have h2 : d ≠ ' ' := by intro hc; rw [hc] at hd; exact absurd hd (by decide)
    have h3 : d ≠ '\n' := by intro hc; rw [hc] at hd; exact absurd hd (by decide)
    rw [List.cons_append, literalsFrom]
    simp only [h1, h2, h3, if_false, or_self]
    rw [ih _ _ (fun c hc => h c (by simp [hc]))]
    simp

theorem sepAt_data (a b j : Nat) : (sepAt a b j).data = ['\n'] ∨ (sepAt a b j).data = [' '] := by
  unfold sepAt
  split
  · exact Or.inl rfl
  · exact Or.inr rfl

/-- Reading one printed literal, its comma and its separator. -/
theorem literalsFrom_elem (v : Int) (a b j : Nat) (rest : List Char) :
    literalsFrom [] ((fmtD v).data ++ (',' :: (sepAt a b j).data ++ rest))
      = v :: literalsFrom [] rest := by
  rw [literalsFrom_token _ _ _ (fmtD_chars v), List.nil_append]
  rcases sepAt_data a b j with h | h <;>
    simp [h, literalsFrom, parseInt_fmtD]

theorem literalsFrom_elems (f : Nat → Int) (a b : Nat) : ∀ l : List Nat,
    literalsFrom []
        ((l.map (fun j => (Item.elem (fmtD (f j)) ("," ++ sepAt a b j)).render.data)).flatten)
      = l.map f := by
  intro l
  induction l with
  | nil => rfl
  | cons j l ih =>
    have : (Item.elem (fmtD (f j)) ("," ++ sepAt a b j)).render.data
        = (fmtD (f j)).data ++ (',' :: (sepAt a b j).data) := by
      simp [Item.render, String.data_append]
    rw [List.map_cons, List.flatten_cons, this, List.append_assoc]
    rw [show (',' :: (sepAt a b j).data)
          ++ (l.map (fun j => (Item.elem (fmtD (f j)) ("," ++ sepAt a b j)).render.data)).flatten
        = ',' :: (sepAt a b j).data
          ++ (l.map (fun j => (Item.elem (fmtD (f j)) ("," ++ sepAt a b j)).render.data)).flatten
        from rfl]
    rw [literalsFrom_elem, ih, List.map_cons]

/-- C4: in the fixed-point build, the literals read back from the body of
the window table, as text, are the coefficients `window[0..overlap-1]` of the
descriptor, in order and as many; the body is what `dump_modes` prints between
the head of the table and its closing line. -/
theorem window_round_trip (MAXFACTORS : Nat) (m : CELTMode Int) :
    parseLiterals (renderAll (windowElems (fixedPoint MAXFACTORS) m))
        = (upTo m.overlap).map m.window
    ∧ (parseLiterals (renderAll (windowElems (fixedPoint MAXFACTORS) m))).length
        = m.overlap.toNat
    ∧ windowBlock (fixedPoint MAXFACTORS) m
        = [Item.ifndef (.window m.overlap), Item.define (.window m.overlap),
           Item.tableOpen "opus_val16" (.window m.overlap) m.overlap]
          ++ windowElems (fixedPoint MAXFACTORS) m
          ++ [Item.close, Item.endif, Item.text "\n"] := by
  have h : parseLiterals (renderAll (windowElems (fixedPoint MAXFACTORS) m))
      = (upTo m.overlap).map m.window := by
    unfold parseLiterals renderAll windowElems
    rw [join_data, List.map_map, List.map_map]
    exact literalsFrom_elems m.window 6 5 (upTo m.overlap)
  refine ⟨h, ?_, rfl⟩
  rw [h]
  simp [upTo]

/-! ## Declared and written lengths -/

theorem countElems_body : ∀ (xs r : List Item), (∀ i ∈ xs, i.inBody = true) →
    countElems (xs ++ Item.close :: r) = xs.countP Item.isElem := by
  intro xs
  induction xs with
  | nil => intro r _; rfl
  | cons i xs ih =>
    intro r h
    have hi := h i (by simp)
    have ih1 := ih r (fun j hj => h j (by simp [hj]))
    cases i <;> simp_all [Item.inBody, countElems, Item.isElem]

theorem tableStats_skip : ∀ (xs r : List Item), (∀ i ∈ xs, i.isTableOpen = false) →
    tableStats (xs ++ r) = tableStats r := by
  intro xs
  induction xs with
  | nil => intro r _; rfl
  | cons i xs ih =>
    intro r h
    have hi := h i (by simp)
    have ih1 := ih r (fun j hj => h j (by simp [hj]))
    cases i <;> simp_all [Item.isTableOpen, tableStats]

/-- An array whose body holds elements and text: the entry of its head
counts the elements of the body. -/
theorem tableStats_table (ctype : String) (t : Sym) (len : Int) (body r : List Item)
    (hb : ∀ i ∈ body, i.inBody = true) :
    tableStats (Item.tableOpen ctype t len :: (body ++ Item.close :: r))
      = (t, len, body.countP Item.isElem) :: tableStats r := by
  have h1 : ∀ i ∈ body, i.isTableOpen = false := by
    intro i hi
    have := hb i hi
    cases i <;> simp_all [Item.inBody, Item.isTableOpen]
  rw [tableStats, countElems_body body r hb, tableStats_skip body _ h1]
  rfl

theorem countP_elems {α : Type} (f : α → Item) (l : List α) (h : ∀ a, (f a).isElem = true) :
    (l.map f).countP Item.isElem = l.length := by
  induction l with
  | nil => rfl
  | cons a l ih => simp [List.countP_cons, h a, ih]

theorem inBody_elems {α : Type} (f : α → Item) (l : List α) (h : ∀ a, (f a).inBody = true) :
    ∀ i ∈ l.map f, i.inBody = true := by
  intro i hi
  obtain ⟨a, _, rfl⟩ := List.mem_map.mp hi
  exact h a

theorem toNat_eq_self {n : Int} (h : 0 ≤ n) : ((upTo n).length : Int) = n := by
  simp [upTo, Int.toNat_of_nonneg h]

/-- A conditional that holds one array. -/
theorem tableStats_guardedTable (g : Guard) (ctype : String) (t : Sym) (len : Int)
    (body rest : List Item) (hb : ∀ i ∈ body, i.inBody = true) :
    tableStats ([Item.ifndef g, Item.define g, Item.tableOpen ctype t len] ++ body
        ++ [Item.close, Item.endif, Item.text "\n"] ++ rest)
      = (t, len, body.countP Item.isElem) :: tableStats rest := by
  have : [Item.ifndef g, Item.define g, Item.tableOpen ctype t len] ++ body
        ++ [Item.close, Item.endif, Item.text "\n"] ++ rest
      = Item.ifndef g :: Item.define g :: Item.tableOpen ctype t len
          :: (body ++ Item.close :: (Item.endif :: Item.text "\n" :: rest)) := by
    simp
  rw [this, tableStats, tableStats, tableStats_table _ _ _ _ _ hb, tableStats, tableStats]
  all_goals simp

theorem upTo_length (n : Int) : (upTo n).length = n.toNat := by simp [upTo]

theorem tableStats_eBandsBlock (m : CELTMode V) (rest : List Item) :
    tableStats (eBandsBlock m ++ rest)
      = (if standard m then []
         else [(Sym.eBands m.Fs (mdctSize m), m.nbEBands + 2, (m.nbEBands + 2).toNat)])
        ++ tableStats rest := by
  unfold eBandsBlock
  cases standard m
  · simp only [Bool.not_false, if_true, Bool.false_eq_true, if_false]
    rw [tableStats_guardedTable, countP_elems, upTo_length]
    · rfl
    · intro a; rfl
    · exact inBody_elems _ _ (fun _ => rfl)
  · simp

theorem tableStats_windowBlock (e : Env V) (m : CELTMode V) (rest : List Item) :
    tableStats (windowBlock e m ++ rest)
      = (Sym.window m.overlap, m.overlap, m.overlap.toNat) :: tableStats rest := by
  unfold windowBlock windowElems
  rw [tableStats_guardedTable, countP_elems, upTo_length]
  · intro a; rfl
  · exact inBody_elems _ _ (fun _ => rfl)

theorem countP_rows (m : CELTMode V) : ∀ rows : List Nat,
    (rows.flatMap (fun (j : Nat) =>
        (upTo m.nbEBands).map (fun (k : Nat) =>
          Item.elem (fmt2D (m.allocVectors ((j : Int) * m.nbEBands + (k : Int)).toNat)) ", ")
        ++ [Item.text "\n"])).countP Item.isElem
      = rows.length * m.nbEBands.toNat := by
  intro rows
  induction rows with
  | nil => simp
  | cons j rows ih =>
    rw [List.flatMap_cons, List.countP_append, ih, List.countP_append, countP_elems, upTo_length]
    · simp [List.countP_cons, Item.isElem, Nat.add_mul, Nat.add_comm]
    · intro a; rfl

theorem tableStats_allocBlock (m : CELTMode V) (rest : List Item) :
    tableStats (allocBlock m ++ rest)
      = (if standard m then []
         else [(Sym.allocVectors m.Fs (mdctSize m), m.nbEBands * m.nbAllocVectors,
                m.nbAllocVectors.toNat * m.nbEBands.toNat)])
        ++ tableStats rest := by
  unfold allocBlock
  cases standard m
  · simp only [Bool.not_false, if_true, Bool.false_eq_true, if_false]
    rw [tableStats_guardedTable, countP_rows, upTo_length]
    · rfl
    · intro i hi
      obtain ⟨j, _, hj⟩ := List.mem_flatMap.mp hi
      rcases List.mem_append.mp hj with h | h
      · obtain ⟨k, _, rfl⟩ := List.mem_map.mp h; rfl
      · rw [List.mem_singleton] at h; rw [h]; rfl
  · simp

theorem tableStats_logNBlock (m : CELTMode V) (rest : List Item) :
    tableStats (logNBlock m ++ rest)
      = (Sym.logN (framerate m), m.nbEBands, m.nbEBands.toNat) :: tableStats rest := by
  unfold logNBlock
  rw [tableStats_guardedTable, countP_elems, upTo_length]
  · intro a; rfl
  · exact inBody_elems _ _ (fun _ => rfl)

theorem tableStats_bitrevBlock (m : CELTMode V) (k : Nat) (rest : List Item) :
    tableStats (bitrevBlock m k ++ rest)
      = (Sym.fftBitrev (m.mdct.kfft k).nfft, (m.mdct.kfft k).nfft, (m.mdct.kfft k).nfft.toNat)
        :: tableStats rest := by
  unfold bitrevBlock
  rw [tableStats_guardedTable, countP_elems, upTo_length]
  · intro a; rfl
  · exact inBody_elems _ _ (fun _ => rfl)

theorem tableStats_mdctBlock (e : Env V) (m : CELTMode V) (rest : List Item) :
    tableStats (mdctBlock e m ++ rest)
      = (Sym.mdctTwiddles (mdctSize m), Int.tdiv m.mdct.n 4 + 1,
          (Int.tdiv m.mdct.n 4 + 1).toNat) :: tableStats rest := by
  unfold mdctBlock
  rw [tableStats_guardedTable, countP_elems, upTo_length]
  · intro a; rfl
  · exact inBody_elems _ _ (fun _ => rfl)

theorem tableStats_cacheBlock (m : CELTMode V) (rest : List Item) :
    tableStats (cacheBlock m ++ rest)
      = [(Sym.cacheIndex (cacheRate m), (m.maxLM + 2) * m.nbEBands,
            (m.nbEBands * (m.maxLM + 2)).toNat),
         (Sym.cacheBits (cacheRate m), m.cache.size, m.cache.size.toNat),
         (Sym.cacheCaps (cacheRate m), (m.maxLM + 1) * 2 * m.nbEBands,
            ((m.maxLM + 1) * 2 * m.nbEBands).toNat)]
        ++ tableStats rest := by
  unfold cacheBlock
  simp only [List.append_assoc, List.cons_append, List.nil_append]
  rw [tableStats, tableStats, tableStats_table, tableStats_table, tableStats_table,
    tableStats, tableStats, countP_elems, countP_elems, countP_elems,
    upTo_length, upTo_length, upTo_length]
  all_goals first
    | rfl
    | (intro a; rfl)
    | exact inBody_elems _ _ (fun _ => rfl)
    | simp

theorem noTable_of_all (xs : List Item) (h : xs.all (fun i => !i.isTableOpen) = true) :
    ∀ i ∈ xs, i.isTableOpen = false := by
  intro i hi
  have := List.all_eq_true.mp h i hi
  simpa using this

theorem tableStats_fftTwiddlesOpen (e : Env V) (m : CELTMode V) (rest : List Item) :
    tableStats (fftTwiddlesOpen e m ++ rest)
      = (Sym.fftTwiddles m.Fs (mdctSize m), (m.mdct.kfft 0).nfft, (m.mdct.kfft 0).nfft.toNat)
        :: tableStats rest := by
  unfold fftTwiddlesOpen
  simp only [List.append_assoc, List.cons_append, List.nil_append]
  rw [tableStats, tableStats, tableStats_table, countP_elems, upTo_length]
  all_goals first
    | (intro a; rfl)
    | exact inBody_elems _ _ (fun _ => rfl)
    | simp

theorem tableStats_bitrevBlocks (m : CELTMode V) (rest : List Item) : ∀ l : List Nat,
    tableStats (l.flatMap (bitrevBlock m) ++ rest)
      = l.map (fun (k : Nat) => (Sym.fftBitrev (m.mdct.kfft k).nfft, (m.mdct.kfft k).nfft,
          (m.mdct.kfft k).nfft.toNat)) ++ tableStats rest := by
  intro l
  induction l with
  | nil => rfl
  | cons k l ih =>
    rw [List.flatMap_cons, List.append_assoc, tableStats_bitrevBlock, ih]
    rfl

theorem stateBlock_noTable (e : Env V) (m : CELTMode V) (k : Nat) :
    ∀ i ∈ stateBlock e m k, i.isTableOpen = false := by
  apply noTable_of_all
  unfold stateBlock
  cases e.scale <;> simp [List.all_append, List.all_map, Item.isTableOpen]

theorem tableStats_stateBlocks (e : Env V) (m : CELTMode V) (rest : List Item) (l : List Nat) :
    tableStats (l.flatMap (stateBlock e m) ++ rest) = tableStats rest := by
  apply tableStats_skip
  intro i hi
  obtain ⟨k, _, hk⟩ := List.mem_flatMap.mp hi
  exact stateBlock_noTable e m k i hk

theorem tableStats_fftBlock (e : Env V) (m : CELTMode V) (rest : List Item) :
    tableStats (fftBlock e m ++ rest)
      = (Sym.fftTwiddles m.Fs (mdctSize m), (m.mdct.kfft 0).nfft, (m.mdct.kfft 0).nfft.toNat)
        :: ((upTo (m.mdct.maxshift + 1)).map
              (fun (k : Nat) => (Sym.fftBitrev (m.mdct.kfft k).nfft, (m.mdct.kfft k).nfft,
                (m.mdct.kfft k).nfft.toNat))
            ++ tableStats rest) := by
  unfold fftBlock
  simp only [List.append_assoc]
  rw [tableStats_fftTwiddlesOpen, tableStats_bitrevBlocks, tableStats_stateBlocks]
  simp [tableStats]

theorem modeRecord_noTable (e : Env V) (m : CELTMode V) :
    ∀ i ∈ modeRecord e m, i.isTableOpen = false := by
  apply noTable_of_all
  unfold modeRecord
  cases standard m <;> simp [List.all_append, List.all_map, Item.isTableOpen]

theorem tableStats_modeBlock (e : Env V) (m : CELTMode V) (rest : List Item) :
    tableStats (modeBlock e m ++ rest) = emittedStats m ++ tableStats rest := by
  unfold modeBlock modeTables emittedStats
  simp only [List.append_assoc]
  rw [tableStats_eBandsBlock, tableStats_windowBlock, tableStats_allocBlock,
    tableStats_logNBlock, tableStats_cacheBlock, tableStats_fftBlock, tableStats_mdctBlock,
    tableStats_skip _ _ (modeRecord_noTable e m)]
  simp

theorem tableStats_modeBlocks (e : Env V) (rest : List Item) : ∀ modes : List (CELTMode V),
    tableStats (modes.flatMap (modeBlock e) ++ rest)
      = modes.flatMap emittedStats ++ tableStats rest := by
  intro modes
  induction modes with
  | nil => rfl
  | cons m modes ih =>
    rw [List.flatMap_cons, List.append_assoc, tableStats_modeBlock, ih, List.flatMap_cons,
      List.append_assoc]

theorem tableStats_dump_modes (e : Env V) (modes : List (CELTMode V)) :
    tableStats (dump_modes e modes) = modes.flatMap emittedStats := by
  have hp : ∀ i ∈ preamble modes, i.isTableOpen = false := by
    apply noTable_of_all
    simp [preamble, List.all_append, List.all_map, Item.isTableOpen]
  have hl : ∀ i ∈ modeList modes, i.isTableOpen = false := by
    apply noTable_of_all
    simp [modeList, List.all_append, List.all_map, Item.isTableOpen]
  unfold dump_modes
  rw [List.append_assoc, tableStats_skip _ _ hp, tableStats_modeBlocks]
  have := tableStats_skip (modeList modes) [] hl
  rw [List.append_nil] at this
  rw [this]
  simp [tableStats]

/-- Under non-negative counts every array of a mode is declared with the
number of elements written. -/
theorem emittedStats_consistent (m : CELTMode V) (h : countsNonNeg m) :
    ∀ x ∈ emittedStats m, x.2.1 = (x.2.2 : Int) := by
  obtain ⟨h1, h2, h3, h4, h5, h6, h7⟩ := h
  have e1 : ((m.nbEBands + 2).toNat : Int) = m.nbEBands + 2 := Int.toNat_of_nonneg (by omega)
  have e2 : (m.overlap.toNat : Int) = m.overlap := Int.toNat_of_nonneg h2
  have e3 : (m.nbAllocVectors.toNat : Int) = m.nbAllocVectors := Int.toNat_of_nonneg h3
  have e4 : (m.nbEBands.toNat : Int) = m.nbEBands := Int.toNat_of_nonneg h1
  have e5 : ((m.nbEBands * (m.maxLM + 2)).toNat : Int) = m.nbEBands * (m.maxLM + 2) :=
    Int.toNat_of_nonneg (Int.mul_nonneg h1 (by omega))
  have e6 : (m.cache.size.toNat : Int) = m.cache.size := Int.toNat_of_nonneg h5
  have e7 : (((m.maxLM + 1) * 2 * m.nbEBands).toNat : Int) = (m.maxLM + 1) * 2 * m.nbEBands :=
    Int.toNat_of_nonneg (Int.mul_nonneg (Int.mul_nonneg (by omega) (by decide)) h1)
  have e8 : ∀ k : Nat, ((m.mdct.kfft k).nfft.toNat : Int) = (m.mdct.kfft k).nfft :=
    fun k => Int.toNat_of_nonneg (h6 k)
  have e9 : ((Int.tdiv m.mdct.n 4 + 1).toNat : Int) = Int.tdiv m.mdct.n 4 + 1 :=
    Int.toNat_of_nonneg (by have := Int.tdiv_nonneg h7 (by decide : (0 : Int) ≤ 4); omega)
  intro x hx
  unfold emittedStats at hx
  simp only [List.mem_append, List.mem_cons, List.mem_singleton, List.mem_map,
    List.not_mem_nil, or_false] at hx
  rcases hx with ((((hx | hx) | hx) | hx) | hx) | hx
  · cases hs : standard m <;> simp [hs] at hx
    rw [hx]; exact e1.symm
  · rw [hx]; exact e2.symm
  · cases hs : standard m <;> simp [hs] at hx
    rw [hx]
    show m.nbEBands * m.nbAllocVectors = ((m.nbAllocVectors.toNat * m.nbEBands.toNat : Nat) : Int)
    rw [Nat.cast_mul, e3, e4, Int.mul_comm]
  · rcases hx with hx | hx | hx | hx | hx <;> rw [hx]
    · exact e4.symm
    · show (m.maxLM + 2) * m.nbEBands = ((m.nbEBands * (m.maxLM + 2)).toNat : Int)
      rw [e5, Int.mul_comm]
    · exact e6.symm
    · exact e7.symm
    · exact (e8 0).symm
  · obtain ⟨k, _, rfl⟩ := hx
    exact (e8 k).symm
  · rw [hx]; exact e9.symm

theorem emittedStats_spec (m : CELTMode V) :
    (emittedStats m).map (fun x => (x.1, x.2.1)) = specLengths m := by
  unfold emittedStats specLengths
  cases standard m <;> simp [Int.mul_comm]

/-- C7: for descriptors whose count fields are non-negative, every array of
the output is declared with exactly the number of elements written after its
head, and the lengths declared for the arrays of a mode are the ones computed
from its scalar fields: `nbEBands+2`, `overlap`, `nbEBands*nbAllocVectors`,
`nbEBands`, `nbEBands*(maxLM+2)`, `cache.size`, `(maxLM+1)*2*nbEBands`,
`kfft[0].nfft`, `kfft[k].nfft`, `mdct.n/4+1`. -/
theorem table_lengths_recomputed (e : Env V) (modes : List (CELTMode V))
    (h : ∀ m ∈ modes, countsNonNeg m) :
    tableStats (dump_modes e modes) = modes.flatMap (fun m => tableStats (modeBlock e m))
    ∧ (∀ x ∈ tableStats (dump_modes e modes), x.2.1 = (x.2.2 : Int))
    ∧ ∀ m ∈ modes,
        (tableStats (modeBlock e m)).map (fun x => (x.1, x.2.1)) = specLengths m := by
  have hb : ∀ m : CELTMode V, tableStats (modeBlock e m) = emittedStats m := by
    intro m
    have := tableStats_modeBlock e m []
    rw [List.append_nil] at this
    rw [this]
    simp [tableStats]
  refine ⟨?_, ?_, ?_⟩
  · rw [tableStats_dump_modes]
    congr 1
    funext m
    exact (hb m).symm
  · intro x hx
    rw [tableStats_dump_modes] at hx
    obtain ⟨m, hm, hxm⟩ := List.mem_flatMap.mp hx
    exact emittedStats_consistent m (h m hm) x hxm
  · intro m _
    rw [hb m]
    exact emittedStats_spec m

theorem table_lengths_recomputed_witness :
    tableStats (dump_modes (fixedPoint 8) [sampleMode 48000 120 2 4, sampleMode 8000 40 3 4])
        = [sampleMode 48000 120 2 4, sampleMode 8000 40 3 4].flatMap
            (fun m => tableStats (modeBlock (fixedPoint 8) m))
    ∧ (∀ x ∈ tableStats
          (dump_modes (fixedPoint 8) [sampleMode 48000 120 2 4, sampleMode 8000 40 3 4]),
        x.2.1 = (x.2.2 : Int))
    ∧ ∀ m ∈ [sampleMode 48000 120 2 4, sampleMode 8000 40 3 4],
        (tableStats (modeBlock (fixedPoint 8) m)).map (fun x => (x.1, x.2.1)) = specLengths m :=
  table_lengths_recomputed (fixedPoint 8) [sampleMode 48000 120 2 4, sampleMode 8000 40 3 4]
    (by
      intro m hm
      simp only [List.mem_cons, List.mem_singleton, List.not_mem_nil, or_false] at hm
      rcases hm with rfl | rfl <;>
        exact ⟨by decide, by decide, by decide, by decide, by decide, fun _ => show (0 : Int) ≤ 2 from by decide,
          by decide⟩)

/-! ## The header -/

theorem headerStep_fst (modes : List (CELTMode V)) : ∀ st : Int × Int,
    (modes.foldl headerStep st).1 = (modes.map mdctSize).foldl runningStep st.1 := by
  induction modes with
  | nil => intro st; rfl
  | cons m modes ih => intro st; simp only [List.foldl_cons, List.map_cons]; rw [ih]; rfl

theorem headerStep_snd (modes : List (CELTMode V)) : ∀ st : Int × Int,
    (modes.foldl headerStep st).2 = (modes.map (fun m => m.overlap)).foldl runningStep st.2 := by
  induction modes with
  | nil => intro st; rfl
  | cons m modes ih => intro st; simp only [List.foldl_cons, List.map_cons]; rw [ih]; rfl

theorem running_disagree : ∀ vs : List Int, (∀ v ∈ vs, 0 < v) →
    vs.foldl runningStep (-1) = -1 := by
  intro vs
  induction vs with
  | nil => intro _; rfl
  | cons v vs ih =>
    intro h
    have hv : 0 < v := h v (by simp)
    have : runningStep (-1) v = -1 := by
      have h1 : (-1 : Int) ≠ v := by omega
      simp [runningStep, h1]
    rw [List.foldl_cons, this]
    exact ih (fun w hw => h w (by simp [hw]))

theorem running_agree : ∀ (vs : List Int) (a : Int), 0 < a → (∀ v ∈ vs, 0 < v) →
    vs.foldl runningStep a = if ∀ v ∈ vs, v = a then a else -1 := by
  intro vs
  induction vs with
  | nil => intro a _ _; simp
  | cons v vs ih =>
    intro a ha h
    have hrest : ∀ w ∈ vs, 0 < w := fun w hw => h w (by simp [hw])
    have ha0 : a ≠ 0 := by omega
    rw [List.foldl_cons]
    by_cases hva : a = v
    · have : runningStep a v = a := by simp [runningStep, ha0, hva]
      rw [this, ih a ha hrest]
      simp [hva]
    · have : runningStep a v = -1 := by simp [runningStep, ha0, hva]
      rw [this, running_disagree vs hrest]
      have : ¬ ∀ w ∈ v :: vs, w = a := by
        intro hall
        exact hva (hall v (by simp)).symm
      rw [if_neg this]

/-- The running value after a non-empty list of positive values: positive
and equal to `v` exactly when every value is `v`. -/
theorem running_result (vs : List Int) (hne : vs ≠ []) (hpos : ∀ v ∈ vs, 0 < v) (v : Int) :
    (0 < vs.foldl runningStep 0 ∧ vs.foldl runningStep 0 = v) ↔ ∀ w ∈ vs, w = v := by
  cases vs with
  | nil => exact absurd rfl hne
  | cons a vs =>
    have ha : 0 < a := hpos a (by simp)
    have hrest : ∀ w ∈ vs, 0 < w := fun w hw => hpos w (by simp [hw])
    have h0 : runningStep 0 a = a := by simp [runningStep]
    rw [List.foldl_cons, h0, running_agree vs a ha hrest]
    by_cases hall : ∀ w ∈ vs, w = a
    · rw [if_pos hall]
      constructor
      · rintro ⟨_, rfl⟩ w hw
        rcases List.mem_cons.mp hw with rfl | hw
        · rfl
        · exact hall w hw
      · intro h
        exact ⟨ha, h a (by simp)⟩
    · rw [if_neg hall]
      constructor
      · rintro ⟨hlt, _⟩
        omega
      · intro h
        exfalso
        apply hall
        intro w hw
        rw [h w (by simp [hw]), h a (by simp)]

theorem frameSize_mem_header (modes : List (CELTMode V)) (v : Int) :
    HeaderLine.frameSize v ∈ dump_header modes
      ↔ 0 < (modes.map mdctSize).foldl runningStep 0
        ∧ (modes.map mdctSize).foldl runningStep 0 = v := by
  have := headerStep_fst modes (0, 0)
  simp only at this
  simp only [dump_header, this]
  by_cases h : 0 < (modes.map mdctSize).foldl runningStep 0 <;>
  by_cases h2 : 0 < (modes.foldl headerStep (0, 0)).2 <;> simp [h, h2] <;> exact eq_comm

theorem overlap_mem_header (modes : List (CELTMode V)) (v : Int) :
    HeaderLine.overlap v ∈ dump_header modes
      ↔ 0 < (modes.map (fun m => m.overlap)).foldl runningStep 0
        ∧ (modes.map (fun m => m.overlap)).foldl runningStep 0 = v := by
  have := headerStep_snd modes (0, 0)
  simp only at this
  simp only [dump_header, this]
  by_cases h : 0 < (modes.map (fun m => m.overlap)).foldl runningStep 0 <;>
  by_cases h2 : 0 < (modes.foldl headerStep (0, 0)).1 <;> simp [h, h2] <;> exact eq_comm

/-- C9: for a non-empty batch of descriptors with positive frame size and
positive overlap, `dump_header` writes `#define FRAMESIZE(mode) v` exactly
when every mode has frame size `v`, and no `FRAMESIZE` line when two modes
disagree; and it writes `#define OVERLAP(mode) w` exactly when every mode has
overlap `w`, and no `OVERLAP` line when two modes disagree. -/
theorem header_uniform_constants (modes : List (CELTMode V)) (hne : modes ≠ [])
    (hpos : ∀ m ∈ modes, 0 < mdctSize m ∧ 0 < m.overlap) :
    (∀ v : Int, HeaderLine.frameSize v ∈ dump_header modes ↔ ∀ m ∈ modes, mdctSize m = v)
    ∧ ((∃ a ∈ modes, ∃ b ∈ modes, mdctSize a ≠ mdctSize b) →
        ∀ v : Int, HeaderLine.frameSize v ∉ dump_header modes)
    ∧ (∀ w : Int, HeaderLine.overlap w ∈ dump_header modes ↔ ∀ m ∈ modes, m.overlap = w)
    ∧ ((∃ a ∈ modes, ∃ b ∈ modes, a.overlap ≠ b.overlap) →
        ∀ w : Int, HeaderLine.overlap w ∉ dump_header modes) := by
  have hf : ∀ v : Int, HeaderLine.frameSize v ∈ dump_header modes
      ↔ ∀ m ∈ modes, mdctSize m = v := by
    intro v
    rw [frameSize_mem_header, running_result _ (by simpa using hne)
      (by simpa using fun m hm => (hpos m hm).1)]
    simp
  have ho : ∀ w : Int, HeaderLine.overlap w ∈ dump_header modes
      ↔ ∀ m ∈ modes, m.overlap = w := by
    intro w
    rw [overlap_mem_header, running_result _ (by simpa using hne)
      (by simpa using fun m hm => (hpos m hm).2)]
    simp
  refine ⟨hf, ?_, ho, ?_⟩
  · rintro ⟨a, ha, b, hb, hab⟩ v hv
    have := (hf v).mp hv
    exact hab ((this a ha).trans (this b hb).symm)
  · rintro ⟨a, ha, b, hb, hab⟩ w hw
    have := (ho w).mp hw
    exact hab ((this a ha).trans (this b hb).symm)

theorem header_uniform_constants_witness :
    (∀ v : Int, HeaderLine.frameSize v
          ∈ dump_header [sampleMode 48000 120 2 4, sampleMode 48000 240 1 4]
        ↔ ∀ m ∈ [sampleMode 48000 120 2 4, sampleMode 48000 240 1 4], mdctSize m = v)
    ∧ ((∃ a ∈ [sampleMode 48000 120 2 4, sampleMode 48000 240 1 4],
          ∃ b ∈ [sampleMode 48000 120 2 4, sampleMode 48000 240 1 4],
            mdctSize a ≠ mdctSize b) →
        ∀ v : Int, HeaderLine.frameSize v
          ∉ dump_header [sampleMode 48000 120 2 4, sampleMode 48000 240 1 4])
    ∧ (∀ w : Int, HeaderLine.overlap w
          ∈ dump_header [sampleMode 48000 120 2 4, sampleMode 48000 240 1 4]
        ↔ ∀ m ∈ [sampleMode 48000 120 2 4, sampleMode 48000 240 1 4], m.overlap = w)
    ∧ ((∃ a ∈ [sampleMode 48000 120 2 4, sampleMode 48000 240 1 4],
          ∃ b ∈ [sampleMode 48000 120 2 4, sampleMode 48000 240 1 4],
            a.overlap ≠ b.overlap) →
        ∀ w : Int, HeaderLine.overlap w
          ∉ dump_header [sampleMode 48000 120 2 4, sampleMode 48000 240 1 4]) :=
  header_uniform_constants [sampleMode 48000 120 2 4, sampleMode 48000 240 1 4] (by simp)
    (by
      intro m hm
      simp only [List.mem_cons, List.mem_singleton, List.not_mem_nil, or_false] at hm
      rcases hm with rfl | rfl <;> exact ⟨by decide, by decide⟩)

/-! ## The command line -/

section Create
variable (atoi : String → Int) (create : Int → Int → Option (CELTMode V)) (argv : Nat → String)

theorem createLoop_cons_none (i : Nat) (is : List Nat)
    (h : create (argPair atoi argv i).1 (argPair atoi argv i).2 = none) :
    createLoop atoi create argv (i :: is) = ([argPair atoi argv i], .error i) := by
  simp only [argPair] at h
  simp [createLoop, h, argPair]

theorem createLoop_cons_some (i : Nat) (is : List Nat) (m : CELTMode V)
    (h : create (argPair atoi argv i).1 (argPair atoi argv i).2 = some m) :
    (createLoop atoi create argv (i :: is)).1
        = argPair atoi argv i :: (createLoop atoi create argv is).1
    ∧ (createLoop atoi create argv (i :: is)).2
        = (match (createLoop atoi create argv is).2 with
           | .error j => .error j
           | .ok ms => .ok (m :: ms)) := by
  simp only [argPair] at h
  simp [createLoop, h, argPair]

theorem createLoop_requests_prefix : ∀ is : List Nat,
    (createLoop atoi create argv is).1 <+: is.map (argPair atoi argv) := by
  intro is
  induction is with
  | nil => simp [createLoop]
  | cons i is ih =>
    cases h : create (argPair atoi argv i).1 (argPair atoi argv i).2 with
    | none =>
      rw [createLoop_cons_none atoi create argv i is h]
      exact ⟨is.map (argPair atoi argv), by simp⟩
    | some m =>
      rw [(createLoop_cons_some atoi create argv i is m h).1, List.map_cons]
      obtain ⟨t, ht⟩ := ih
      exact ⟨t, by simp [← ht]⟩

theorem createLoop_requests_ne_nil (i : Nat) (is : List Nat) :
    (createLoop atoi create argv (i :: is)).1 ≠ [] := by
  cases h : create (argPair atoi argv i).1 (argPair atoi argv i).2 with
  | none => rw [createLoop_cons_none atoi create argv i is h]; simp
  | some m => rw [(createLoop_cons_some atoi create argv i is m h).1]; simp

theorem createLoop_before_last : ∀ is : List Nat,
    ∀ p ∈ (createLoop atoi create argv is).1.dropLast, create p.1 p.2 ≠ none := by
  intro is
  induction is with
  | nil => simp [createLoop]
  | cons i is ih =>
    cases h : create (argPair atoi argv i).1 (argPair atoi argv i).2 with
    | none => rw [createLoop_cons_none atoi create argv i is h]; simp
    | some m =>
      rw [(createLoop_cons_some atoi create argv i is m h).1]
      intro p hp
      cases hr : (createLoop atoi create argv is).1 with
      | nil => rw [hr] at hp; simp at hp
      | cons q qs =>
        rw [hr, List.dropLast_cons₂] at hp
        rcases List.mem_cons.mp hp with rfl | hp
        · rw [h]; simp
        · rw [hr] at ih
          exact ih p hp

theorem createLoop_all_built : ∀ is : List Nat,
    (∀ i ∈ is, create (argPair atoi argv i).1 (argPair atoi argv i).2 ≠ none) →
    (createLoop atoi create argv is).1 = is.map (argPair atoi argv)
    ∧ ∃ ms, (createLoop atoi create argv is).2 = .ok ms := by
  intro is
  induction is with
  | nil => intro _; exact ⟨rfl, [], rfl⟩
  | cons i is ih =>
    intro hall
    cases h : create (argPair atoi argv i).1 (argPair atoi argv i).2 with
    | none => exact absurd h (hall i (by simp))
    | some m =>
      obtain ⟨h1, ms, h2⟩ := ih (fun j hj => hall j (by simp [hj]))
      have hc := createLoop_cons_some atoi create argv i is m h
      refine ⟨by rw [hc.1, h1, List.map_cons], m :: ms, ?_⟩
      rw [hc.2, h2]

theorem createLoop_first_failure : ∀ is : List Nat,
    (∃ i ∈ is, create (argPair atoi argv i).1 (argPair atoi argv i).2 = none) →
    ∃ j, (createLoop atoi create argv is).2 = .error j
      ∧ (createLoop atoi create argv is).1.getLast? = some (argPair atoi argv j)
      ∧ create (argPair atoi argv j).1 (argPair atoi argv j).2 = none := by
  intro is
  induction is with
  | nil => rintro ⟨i, hi, _⟩; simp at hi
  | cons i is ih =>
    rintro ⟨k, hk, hfail⟩
    cases h : create (argPair atoi argv i).1 (argPair atoi argv i).2 with
    | none =>
      rw [createLoop_cons_none atoi create argv i is h]
      exact ⟨i, rfl, rfl, h⟩
    | some m =>
      have hk' : k ∈ is := by
        rcases List.mem_cons.mp hk with rfl | hk'
        · rw [h] at hfail; exact absurd hfail (by simp)
        · exact hk'
      obtain ⟨j, h1, h2, h3⟩ := ih ⟨k, hk', hfail⟩
      have hc := createLoop_cons_some atoi create argv i is m h
      refine ⟨j, by rw [hc.2, h1], ?_, h3⟩
      rw [hc.1]
      cases hr : (createLoop atoi create argv is).1 with
      | nil => rw [hr] at h2; simp at h2
      | cons q qs => rw [hr] at h2; rw [List.getLast?_cons_cons]; exact h2

end Create

theorem usage_condition (argc : Int) :
    (Int.tmod argc 2 ≠ 1 ∨ argc < 3) ↔ (argc % 2 = 0 ∨ argc < 3) := by
  by_cases h : argc < 3
  · simp [h]
  · have h0 : 0 ≤ argc := by omega
    rw [Int.tmod_eq_emod h0 (by decide)]
    simp only [h, or_false]
    omega

theorem main_requests (e : Env V) (atoi : String → Int)
    (create : Int → Int → Option (CELTMode V)) (EXIT_FAILURE : Int)
    (argc : Int) (argv : Nat → String) (h : ¬ (Int.tmod argc 2 ≠ 1 ∨ argc < 3)) :
    (main e atoi create EXIT_FAILURE argc argv).requests
      = (createLoop atoi create argv (upTo (Int.tdiv (argc - 1) 2))).1 := by
  unfold main
  rw [if_neg h]
  split <;> rename_i heq <;> rw [heq]

theorem prefix_requests_getElem (atoi : String → Int) (argv : Nat → String) (argc : Int)
    (reqs : List (Int × Int)) (hp : reqs <+: requestedPairs atoi argv argc)
    (i : Nat) (hi : i < reqs.length) : reqs[i] = argPair atoi argv i := by
  rw [List.IsPrefix.getElem hp hi]
  simp [requestedPairs, upTo]

/-- C10 (amended): `main` rejects the invocation (prints the usage message,
returns status 1, requests no mode and opens no file) if and only if `argc` is
even or `argc < 3`; otherwise it requests modes in the order of the command
line, the `i`-th from the pair `(argv[2i+1], argv[2i+2])`, up to and including
the first pair for which `opus_custom_mode_create` returns `NULL`: at least
one mode, all of the `(argc-1)/2` pairs when every construction succeeds, and
all pairs before the last request were built. -/
theorem main_argument_check (e : Env V) (atoi : String → Int)
    (create : Int → Int → Option (CELTMode V)) (EXIT_FAILURE : Int)
    (argc : Int) (argv : Nat → String) :
    (((main e atoi create EXIT_FAILURE argc argv).stderr = [usageMessage (argv 0)]
        ∧ (main e atoi create EXIT_FAILURE argc argv).status = 1
        ∧ (main e atoi create EXIT_FAILURE argc argv).requests = []
        ∧ (main e atoi create EXIT_FAILURE argc argv).file = none)
      ↔ (argc % 2 = 0 ∨ argc < 3))
    ∧ (¬ (argc % 2 = 0 ∨ argc < 3) →
        (main e atoi create EXIT_FAILURE argc argv).requests
            <+: requestedPairs atoi argv argc
        ∧ (main e atoi create EXIT_FAILURE argc argv).requests ≠ []
        ∧ (∀ (i : Nat) (hi : i < (main e atoi create EXIT_FAILURE argc argv).requests.length),
            (main e atoi create EXIT_FAILURE argc argv).requests[i] = argPair atoi argv i)
        ∧ (∀ p ∈ (main e atoi create EXIT_FAILURE argc argv).requests.dropLast,
            create p.1 p.2 ≠ none)
        ∧ ((∀ p ∈ requestedPairs atoi argv argc, create p.1 p.2 ≠ none) →
            (main e atoi create EXIT_FAILURE argc argv).requests
                = requestedPairs atoi argv argc
            ∧ ((main e atoi create EXIT_FAILURE argc argv).requests.length : Int)
                = Int.tdiv (argc - 1) 2)
        ∧ ((∃ p ∈ requestedPairs atoi argv argc, create p.1 p.2 = none) →
            ∃ p, (main e atoi create EXIT_FAILURE argc argv).requests.getLast? = some p
              ∧ create p.1 p.2 = none)) := by
  have hrun : ¬ (argc % 2 = 0 ∨ argc < 3) →
      (main e atoi create EXIT_FAILURE argc argv).requests
          = (createLoop atoi create argv (upTo (Int.tdiv (argc - 1) 2))).1
      ∧ ∃ i is, upTo (Int.tdiv (argc - 1) 2) = i :: is := by
    intro h
    refine ⟨main_requests e atoi create EXIT_FAILURE argc argv
      (fun hc => h ((usage_condition argc).mp hc)), ?_⟩
    have h3 : 3 ≤ argc := by omega
    have hnb : 1 ≤ Int.tdiv (argc - 1) 2 := by
      rw [Int.tdiv_eq_ediv (by omega) (by decide)]
      omega
    have hlen : (upTo (Int.tdiv (argc - 1) 2)).length ≠ 0 := by
      rw [upTo_length]
      omega
    cases hu : upTo (Int.tdiv (argc - 1) 2) with
    | nil => rw [hu] at hlen; exact absurd rfl hlen
    | cons i is => exact ⟨i, is, rfl⟩
  refine ⟨⟨?_, ?_⟩, ?_⟩
  · rintro ⟨_, _, hreq, _⟩
    by_contra hc
    obtain ⟨h1, i, is, h2⟩ := hrun hc
    rw [h1, h2] at hreq
    exact createLoop_requests_ne_nil atoi create argv i is hreq
  · intro hc
    have := (usage_condition argc).mpr hc
    simp [main, this]
  · intro hc
    obtain ⟨h1, i, is, h2⟩ := hrun hc
    have hpre : (main e atoi create EXIT_FAILURE argc argv).requests
        <+: requestedPairs atoi argv argc := by
      rw [h1]; exact createLoop_requests_prefix atoi create argv _
    refine ⟨hpre, ?_, ?_, ?_, ?_, ?_⟩
    · rw [h1, h2]; exact createLoop_requests_ne_nil atoi create argv i is
    · intro k hk
      exact prefix_requests_getElem atoi argv argc _ hpre k hk
    · rw [h1]; exact createLoop_before_last atoi create argv _
    · intro hall
      have hall' : ∀ k ∈ upTo (Int.tdiv (argc - 1) 2),
          create (argPair atoi argv k).1 (argPair atoi argv k).2 ≠ none :=
        fun k hk => hall _ (List.mem_map_of_mem _ hk)
      have h4 := (createLoop_all_built atoi create argv _ hall').1
      have h5 : (main e atoi create EXIT_FAILURE argc argv).requests
          = requestedPairs atoi argv argc := by rw [h1, h4]; rfl
      refine ⟨h5, ?_⟩
      rw [h5]
      have h3 : 3 ≤ argc := by omega
      have hnb : 0 ≤ Int.tdiv (argc - 1) 2 := Int.tdiv_nonneg (by omega) (by decide)
      simp [requestedPairs, upTo_length, Int.toNat_of_nonneg hnb]
    · rintro ⟨p, hp, hfail⟩
      obtain ⟨k, hk, rfl⟩ := List.mem_map.mp hp
      obtain ⟨j, _, h6, h7⟩ := createLoop_first_failure atoi create argv _ ⟨k, hk, hfail⟩
      exact ⟨argPair atoi argv j, by rw [h1]; exact h6, h7⟩

/-- The claim of C10 fails when construction fails: with five arguments and
a collaborator that builds no mode, `main` requests one mode, not two. -/
theorem main_argument_check_counterexample :
    ¬ ((5 : Int) % 2 = 0 ∨ (5 : Int) < 3)
    ∧ Int.tdiv (5 - 1) 2 = 2
    ∧ (main (fixedPoint 8) (fun s => (s.length : Int)) (fun _ _ => none) 1 5
          (fun i => String.replicate i 'x')).requests = [(1, 2)] := by
  decide

/-! ## The channel count of the header -/

theorem header_line_kinds (modes : List (CELTMode V)) :
    ∀ l ∈ dump_header modes,
      l = HeaderLine.banner ∨ (∃ v : Int, l = HeaderLine.frameSize v)
        ∨ (∃ w : Int, l = HeaderLine.overlap w) := by
  intro l hl
  unfold dump_header at hl
  simp only [List.mem_append, List.mem_singleton] at hl
  rcases hl with ((hl | hl) | hl) | hl
  · exact Or.inl hl
  · simp at hl
  · split at hl
    · exact Or.inr (Or.inl ⟨_, List.mem_singleton.mp hl⟩)
    · simp at hl
  · split at hl
    · exact Or.inr (Or.inr ⟨_, List.mem_singleton.mp hl⟩)
    · simp at hl

theorem render_not_channels (l : HeaderLine)
    (h : l = HeaderLine.banner ∨ (∃ v : Int, l = HeaderLine.frameSize v)
        ∨ (∃ w : Int, l = HeaderLine.overlap w)) :
    ¬ ("#define CHANNELS".data <+: l.render.data)
    ∧ ¬ ("#define DISABLE_STEREO".data <+: l.render.data) := by
  have hf : ∀ s : String, ("#define FRAMESIZE(mode) " ++ s).data
      = '#' :: 'd' :: 'e' :: 'f' :: 'i' :: 'n' :: 'e' :: ' ' :: 'F'
          :: ("RAMESIZE(mode) " ++ s).data := fun _ => rfl
  have ho : ∀ s : String, ("#define OVERLAP(mode) " ++ s).data
      = '#' :: 'd' :: 'e' :: 'f' :: 'i' :: 'n' :: 'e' :: ' ' :: 'O'
          :: ("VERLAP(mode) " ++ s).data := fun _ => rfl
  rcases h with rfl | ⟨v, rfl⟩ | ⟨w, rfl⟩
  · exact ⟨by decide, by decide⟩
  · simp only [HeaderLine.render, String.append_assoc]
    rw [hf]
    simp [List.cons_prefix_cons]
  · simp only [HeaderLine.render, String.append_assoc]
    rw [ho]
    simp [List.cons_prefix_cons]

/-- C17: whatever the batch, `dump_header` writes neither a `CHANNELS(mode)`
definition nor `DISABLE_STEREO`: the channel count is the constant 0 of line
259, which no descriptor field changes, so the branch of lines 275-280 is
never taken; no line of the header starts with `#define CHANNELS` or with
`#define DISABLE_STEREO`. -/
theorem header_never_channels (modes : List (CELTMode V)) :
    (∀ c : Int, HeaderLine.channels c ∉ dump_header modes)
    ∧ HeaderLine.disableStereo ∉ dump_header modes
    ∧ ∀ l ∈ dump_header modes,
        ¬ ("#define CHANNELS".data <+: l.render.data)
        ∧ ¬ ("#define DISABLE_STEREO".data <+: l.render.data) := by
  refine ⟨?_, ?_, ?_⟩
  · intro c hc
    rcases header_line_kinds modes _ hc with h | ⟨v, h⟩ | ⟨w, h⟩ <;> cases h
  · intro hc
    rcases header_line_kinds modes _ hc with h | ⟨v, h⟩ | ⟨w, h⟩ <;> cases h
  · intro l hl
    exact render_not_channels l (header_line_kinds modes l hl)

/-! ## The header on a running value of zero -/

/-- The running value after a first value 0, a second value `v > 0` and
further values all equal to `v`. -/
theorem running_after_zero (v : Int) (hv : 0 < v) (rest : List Int) (h : ∀ w ∈ rest, w = v) :
    (0 :: v :: rest).foldl runningStep 0 = v := by
  have h0 : runningStep 0 0 = 0 := by simp [runningStep]
  have h1 : runningStep 0 v = v := by simp [runningStep]
  rw [List.foldl_cons, h0, List.foldl_cons, h1,
    running_agree rest v hv (fun w hw => by rw [h w hw]; exact hv), if_pos h]

/-- C19: `dump_header` takes a running value of 0 for "no mode seen yet": for
an empty batch it writes the banner alone, so no `FRAMESIZE` and no `OVERLAP`
line; for a batch that starts with a descriptor of overlap 0 followed by one
of overlap `v > 0` (and goes on, if at all, with descriptors of overlap `v`)
it writes `#define OVERLAP(mode) v` though the first two overlaps differ; and
likewise `#define FRAMESIZE(mode) v` for frame sizes 0 and `v > 0`. -/
theorem header_zero_is_unseen (a b : CELTMode V) :
    dump_header ([] : List (CELTMode V)) = [HeaderLine.banner]
    ∧ (∀ v : Int, HeaderLine.frameSize v ∉ dump_header ([] : List (CELTMode V)))
    ∧ (∀ w : Int, HeaderLine.overlap w ∉ dump_header ([] : List (CELTMode V)))
    ∧ (a.overlap = 0 → 0 < b.overlap →
        a.overlap ≠ b.overlap
        ∧ HeaderLine.overlap b.overlap ∈ dump_header [a, b]
        ∧ ∀ rest : List (CELTMode V), (∀ m ∈ rest, m.overlap = b.overlap) →
            HeaderLine.overlap b.overlap ∈ dump_header (a :: b :: rest))
    ∧ (mdctSize a = 0 → 0 < mdctSize b →
        mdctSize a ≠ mdctSize b
        ∧ HeaderLine.frameSize (mdctSize b) ∈ dump_header [a, b]
        ∧ ∀ rest : List (CELTMode V), (∀ m ∈ rest, mdctSize m = mdctSize b) →
            HeaderLine.frameSize (mdctSize b) ∈ dump_header (a :: b :: rest)) := by
  have h0 : dump_header ([] : List (CELTMode V)) = [HeaderLine.banner] := by
    simp [dump_header]
  refine ⟨h0, ?_, ?_, ?_, ?_⟩
  · intro v; rw [h0]; simp
  · intro w; rw [h0]; simp
  · intro ha hb
    have hgen : ∀ rest : List (CELTMode V), (∀ m ∈ rest, m.overlap = b.overlap) →
        HeaderLine.overlap b.overlap ∈ dump_header (a :: b :: rest) := by
      intro rest hrest
      rw [overlap_mem_header]
      have := running_after_zero b.overlap hb (rest.map (fun m => m.overlap))
        (by simpa using hrest)
      simp only [List.map_cons, ha]
      rw [this]
      exact ⟨hb, rfl⟩
    exact ⟨by omega, hgen [] (by simp), hgen⟩
  · intro ha hb
    have hgen : ∀ rest : List (CELTMode V), (∀ m ∈ rest, mdctSize m = mdctSize b) →
        HeaderLine.frameSize (mdctSize b) ∈ dump_header (a :: b :: rest) := by
      intro rest hrest
      rw [frameSize_mem_header]
      have := running_after_zero (mdctSize b) hb (rest.map mdctSize) (by simpa using hrest)
      simp only [List.map_cons, ha]
      rw [this]
      exact ⟨hb, rfl⟩
    exact ⟨by omega, hgen [] (by simp), hgen⟩

/-! ## Construction failure in `main` -/

/-- What `main` returns when the loop over the pairs stops at pair `j`. -/
theorem main_on_failure (e : Env V) (atoi : String → Int)
    (create : Int → Int → Option (CELTMode V)) (EXIT_FAILURE : Int)
    (argc : Int) (argv : Nat → String) (h : ¬ (Int.tmod argc 2 ≠ 1 ∨ argc < 3)) (j : Nat)
    (hj : (createLoop atoi create argv (upTo (Int.tdiv (argc - 1) 2))).2 = .error j) :
    (main e atoi create EXIT_FAILURE argc argv).status = EXIT_FAILURE
    ∧ (main e atoi create EXIT_FAILURE argc argv).stderr
        = ["Error creating mode with Fs=" ++ argv (2 * j + 1)
            ++ ", frame_size=" ++ argv (2 * j + 2) ++ "\n"]
    ∧ (main e atoi create EXIT_FAILURE argc argv).file = none := by
  unfold main
  rw [if_neg h]
  split
  · rename_i reqs i heq
    rw [heq] at hj
    cases hj
    exact ⟨rfl, rfl, rfl⟩
  · rename_i reqs ms heq
    rw [heq] at hj
    cases hj

/-- C11 (amended): when `opus_custom_mode_create` returns `NULL` for some
requested pair, `main` writes the error line naming a pair that could not be
built, the last one it requested, opens no output file and returns
`EXIT_FAILURE`: a status that differs from the usage-error status 1, and from
0, exactly where the platform defines `EXIT_FAILURE` so. -/
theorem main_construction_failure (e : Env V) (atoi : String → Int)
    (create : Int → Int → Option (CELTMode V)) (EXIT_FAILURE : Int)
    (argc : Int) (argv : Nat → String) (hargs : ¬ (argc % 2 = 0 ∨ argc < 3))
    (hfail : ∃ p ∈ requestedPairs atoi argv argc, create p.1 p.2 = none) :
    (main e atoi create EXIT_FAILURE argc argv).status = EXIT_FAILURE
    ∧ (main e atoi create EXIT_FAILURE argc argv).file = none
    ∧ (∃ j : Nat,
        (main e atoi create EXIT_FAILURE argc argv).stderr
            = ["Error creating mode with Fs=" ++ argv (2 * j + 1)
                ++ ", frame_size=" ++ argv (2 * j + 2) ++ "\n"]
        ∧ create (argPair atoi argv j).1 (argPair atoi argv j).2 = none
        ∧ (main e atoi create EXIT_FAILURE argc argv).requests.getLast?
            = some (argPair atoi argv j))
    ∧ ((main e atoi create EXIT_FAILURE argc argv).status ≠ 1 ↔ EXIT_FAILURE ≠ 1)
    ∧ ((main e atoi create EXIT_FAILURE argc argv).status ≠ 0 ↔ EXIT_FAILURE ≠ 0) := by
  have hc : ¬ (Int.tmod argc 2 ≠ 1 ∨ argc < 3) := fun h => hargs ((usage_condition argc).mp h)
  obtain ⟨p, hp, hnone⟩ := hfail
  obtain ⟨k, hk, rfl⟩ := List.mem_map.mp hp
  obtain ⟨j, h1, h2, h3⟩ := createLoop_first_failure atoi create argv _ ⟨k, hk, hnone⟩
  obtain ⟨m1, m2, m3⟩ := main_on_failure e atoi create EXIT_FAILURE argc argv hc j h1
  refine ⟨m1, m3, ⟨j, m2, h3, ?_⟩, by rw [m1], by rw [m1]⟩
  rw [main_requests e atoi create EXIT_FAILURE argc argv hc]
  exact h2

/-- The claim of C11 fails where `EXIT_FAILURE` is 1, as on the usual
platforms: with one pair that cannot be built `main` returns 1, the status it
also returns for the usage error of an even argument count. -/
theorem main_construction_failure_counterexample :
    (main (fixedPoint 8) (fun s => (s.length : Int)) (fun _ _ => none) 1 3
        (fun i => String.replicate i 'x')).status = 1
    ∧ (main (fixedPoint 8) (fun s => (s.length : Int)) (fun _ _ => none) 1 3
        (fun i => String.replicate i 'x')).stderr
        = ["Error creating mode with Fs=x, frame_size=xx\n"]
    ∧ (main (fixedPoint 8) (fun s => (s.length : Int)) (fun _ _ => none) 1 2
        (fun i => String.replicate i 'x')).status = 1
    ∧ (main (fixedPoint 8) (fun s => (s.length : Int)) (fun _ _ => none) 1 2
        (fun i => String.replicate i 'x')).stderr = [usageMessage ""] := by
  decide

theorem main_construction_failure_witness :
    (main (fixedPoint 8) (fun s => (s.length : Int)) (fun _ _ => none) 1 3
        (fun i => String.replicate i 'x')).status = 1
    ∧ (main (fixedPoint 8) (fun s => (s.length : Int)) (fun _ _ => none) 1 3
        (fun i => String.replicate i 'x')).file = none
    ∧ (∃ j : Nat,
        (main (fixedPoint 8) (fun s => (s.length : Int)) (fun _ _ => none) 1 3
            (fun i => String.replicate i 'x')).stderr
            = ["Error creating mode with Fs=" ++ (fun i => String.replicate i 'x') (2 * j + 1)
                ++ ", frame_size=" ++ (fun i => String.replicate i 'x') (2 * j + 2) ++ "\n"]
        ∧ (fun (_ _ : Int) => (none : Option (CELTMode Int)))
            (argPair (fun s => (s.length : Int)) (fun i => String.replicate i 'x') j).1
            (argPair (fun s => (s.length : Int)) (fun i => String.replicate i 'x') j).2 = none
        ∧ (main (fixedPoint 8) (fun s => (s.length : Int)) (fun _ _ => none) 1 3
            (fun i => String.replicate i 'x')).requests.getLast?
            = some (argPair (fun s => (s.length : Int)) (fun i => String.replicate i 'x') j))
    ∧ ((main (fixedPoint 8) (fun s => (s.length : Int)) (fun _ _ => none) 1 3
        (fun i => String.replicate i 'x')).status ≠ 1 ↔ (1 : Int) ≠ 1)
    ∧ ((main (fixedPoint 8) (fun s => (s.length : Int)) (fun _ _ => none) 1 3
        (fun i => String.replicate i 'x')).status ≠ 0 ↔ (1 : Int) ≠ 0) :=
  main_construction_failure (fixedPoint 8) (fun s => (s.length : Int)) (fun _ _ => none) 1 3
    (fun i => String.replicate i 'x') (by decide) ⟨(1, 2), by decide, rfl⟩

/-! ## One test for band edges and allocation vectors -/

theorem definitions_modeBlock (e : Env V) (m : CELTMode V) :
    definitions (modeBlock e m)
      = definitions (modeTables e m) ++ [Sym.mode m.Fs (mdctSize m) m.overlap] := by
  have : definitions (modeBlock e m)
      = definitions (modeTables e m) ++ definitions (modeRecord e m) := by
    simp [modeBlock, definitions]
  rw [this, definitions_modeRecord]

/-- The references of a mode record that carry the comment of the band
edges, and those that carry the comment of the allocation vectors. -/
theorem modeRecord_table_refs (e : Env V) (m : CELTMode V) (sym : String) :
    (Item.ref "" sym ",\t/* eBands */\n" ∈ modeRecord e m
      ↔ sym = if standard m then "eband5ms" else (Sym.eBands m.Fs (mdctSize m)).name)
    ∧ (Item.ref "" sym ",\t/* allocVectors */\n" ∈ modeRecord e m
      ↔ sym = if standard m
          then "band_allocation" else (Sym.allocVectors m.Fs (mdctSize m)).name) := by
  unfold modeRecord
  cases standard m <;> simp

/-- C12: the band edges and the allocation vectors of a mode follow the one
test `Fs == 400*shortMdctSize`. When it holds, the block of the mode defines
neither an `eBands` nor an `allocVectors` table and its record names
`eband5ms` and `band_allocation`; when it does not, the block defines both
`eBands<Fs>_<frameSize>` and `allocVectors<Fs>_<frameSize>` and the record
names exactly these two. In both cases the record has one band-edge reference
and one allocation-vector reference and no other. -/
theorem standard_decides_both_tables (e : Env V) (m : CELTMode V) :
    (m.Fs = 400 * m.shortMdctSize →
      (∀ a b : Int, Sym.eBands a b ∉ definitions (modeBlock e m))
      ∧ (∀ a b : Int, Sym.allocVectors a b ∉ definitions (modeBlock e m))
      ∧ (∀ sym : String, Item.ref "" sym ",\t/* eBands */\n" ∈ modeRecord e m
          ↔ sym = "eband5ms")
      ∧ (∀ sym : String, Item.ref "" sym ",\t/* allocVectors */\n" ∈ modeRecord e m
          ↔ sym = "band_allocation"))
    ∧ (m.Fs ≠ 400 * m.shortMdctSize →
      (∀ a b : Int, Sym.eBands a b ∈ definitions (modeBlock e m)
          ↔ (a = m.Fs ∧ b = mdctSize m))
      ∧ (∀ a b : Int, Sym.allocVectors a b ∈ definitions (modeBlock e m)
          ↔ (a = m.Fs ∧ b = mdctSize m))
      ∧ (∀ sym : String, Item.ref "" sym ",\t/* eBands */\n" ∈ modeRecord e m
          ↔ sym = (Sym.eBands m.Fs (mdctSize m)).name)
      ∧ (∀ sym : String, Item.ref "" sym ",\t/* allocVectors */\n" ∈ modeRecord e m
          ↔ sym = (Sym.allocVectors m.Fs (mdctSize m)).name)) := by
  constructor
  · intro h
    have hs : standard m = true := (standard_iff m).mpr h
    refine ⟨?_, ?_, ?_, ?_⟩
    · intro a b
      rw [definitions_modeBlock, definitions_modeTables]
      simp [hs]
    · intro a b
      rw [definitions_modeBlock, definitions_modeTables]
      simp [hs]
    · intro sym
      have := (modeRecord_table_refs e m sym).1
      rw [hs] at this
      simpa using this
    · intro sym
      have := (modeRecord_table_refs e m sym).2
      rw [hs] at this
      simpa using this
  · intro h
    have hs : standard m = false := by
      cases hstd : standard m with
      | false => rfl
      | true => exact absurd ((standard_iff m).mp hstd) h
    refine ⟨?_, ?_, ?_, ?_⟩
    · intro a b
      rw [definitions_modeBlock, definitions_modeTables]
      simp [hs]
    · intro a b
      rw [definitions_modeBlock, definitions_modeTables]
      simp [hs]
    · intro sym
      have := (modeRecord_table_refs e m sym).1
      rw [hs] at this
      simpa using this
    · intro sym
      have := (modeRecord_table_refs e m sym).2
      rw [hs] at this
      simpa using this

/-! ## References of a mode record -/

theorem mem_upTo (k : Nat) (n : Int) : k ∈ upTo n ↔ (k : Int) < n := by
  simp [upTo, List.mem_range, Int.lt_toNat]

theorem filterMap_some_fun {α β : Type} (g : α → β) (l : List α) :
    l.filterMap (fun x => some (g x)) = l.map g := by
  induction l with
  | nil => rfl
  | cons a l ih => simp [List.filterMap_cons, ih]

theorem filterMap_none_fun {α β : Type} (l : List α) :
    l.filterMap (fun _ => (none : Option β)) = [] := by
  induction l with
  | nil => rfl
  | cons a l ih => simp [List.filterMap_cons, ih]

theorem cacheLead_ne_address (s : String) : ("\x7b" ++ s ++ ", " = "&") = False := by
  apply eq_false
  intro h
  have := congrArg String.data h
  simp [String.data_append] at this

theorem references_modeRecord (e : Env V) (m : CELTMode V) :
    references (modeRecord e m)
      = [if standard m then "eband5ms" else (Sym.eBands m.Fs (mdctSize m)).name,
         if standard m then "band_allocation"
           else (Sym.allocVectors m.Fs (mdctSize m)).name,
         (Sym.logN (framerate m)).name, (Sym.window m.overlap).name]
        ++ (upTo (m.mdct.maxshift + 1)).map
             (fun (k : Nat) => (Sym.fftState m.Fs (mdctSize m) (k : Int)).name)
        ++ [(Sym.mdctTwiddles (mdctSize m)).name, (Sym.cacheIndex (cacheRate m)).name,
            (Sym.cacheBits (cacheRate m)).name, (Sym.cacheCaps (cacheRate m)).name] := by
  unfold modeRecord
  cases standard m <;>
    simp [references, List.filterMap_append, filterMap_cons_toList, Item.refName,
      List.filterMap_map, Function.comp_def, filterMap_some_fun, filterMap_none_fun]

theorem addressRefs_modeRecord (e : Env V) (m : CELTMode V) :
    (modeRecord e m).filterMap Item.addressRef
      = (upTo (m.mdct.maxshift + 1)).map
          (fun (k : Nat) => (Sym.fftState m.Fs (mdctSize m) (k : Int)).name) := by
  unfold modeRecord
  cases standard m <;>
    simp [List.filterMap_append, filterMap_cons_toList, Item.addressRef,
      List.filterMap_map, Function.comp_def, filterMap_some_fun, filterMap_none_fun,
      cacheLead_ne_address]

theorem stateRecords_modeTables (e : Env V) (m : CELTMode V) :
    stateRecords (modeTables e m)
      = (upTo (m.mdct.maxshift + 1)).map
          (fun (k : Nat) => Sym.fftState m.Fs (mdctSize m) (k : Int)) := by
  have hb : ∀ k, (bitrevBlock m k).filterMap Item.stateHead = [] := by
    intro k
    simp [-List.filterMap_map, bitrevBlock, List.filterMap_append, filterMap_cons_toList,
      filterMap_map_none, Item.stateHead]
  have hs : ∀ k : Nat, (stateBlock e m k).filterMap Item.stateHead
      = [Sym.fftState m.Fs (mdctSize m) (k : Int)] := by
    intro k
    unfold stateBlock
    cases e.scale <;>
      simp [-List.filterMap_map, List.filterMap_append, filterMap_cons_toList,
        filterMap_map_none, Item.stateHead]
  unfold modeTables eBandsBlock allocBlock
  cases standard m <;>
    simp [-List.filterMap_map, stateRecords, windowBlock, windowElems, logNBlock, cacheBlock,
      fftBlock, fftTwiddlesOpen, mdctBlock, List.filterMap_append, filterMap_cons_toList,
      filterMap_map_none, filterMap_flatMap_blocks, flatMap_nil_fun, flatMap_singleton_fun,
      hb, hs, Item.stateHead]

theorem stateRecords_modeRecord (e : Env V) (m : CELTMode V) :
    stateRecords (modeRecord e m) = [] := by
  unfold modeRecord
  cases standard m <;>
    simp [-List.filterMap_map, stateRecords, List.filterMap_append, filterMap_cons_toList,
      filterMap_map_none, Item.stateHead]

theorem stateRecords_modeBlock (e : Env V) (m : CELTMode V) :
    stateRecords (modeBlock e m)
      = (upTo (m.mdct.maxshift + 1)).map
          (fun (k : Nat) => Sym.fftState m.Fs (mdctSize m) (k : Int)) := by
  have h1 := stateRecords_modeTables e m
  have h2 := stateRecords_modeRecord e m
  simp only [stateRecords] at h1 h2
  simp [stateRecords, modeBlock, List.filterMap_append, h1, h2]

theorem generated_refs_defined (e : Env V) (m : CELTMode V) (s : String)
    (hs : s ∈ references (modeRecord e m)) :
    (standard m = true ∧ (s = "eband5ms" ∨ s = "band_allocation"))
      ∨ s ∈ (definitions (modeTables e m)).map Sym.name := by
  rw [references_modeRecord] at hs
  rw [definitions_modeTables]
  simp only [List.mem_append, List.mem_cons, List.mem_singleton, List.mem_map,
    List.not_mem_nil, or_false] at hs
  cases hstd : standard m with
  | true =>
    simp only [hstd, if_true] at hs
    rcases hs with ((h | h | h | h) | ⟨k, hk, h⟩) | h | h | h | h
    · exact Or.inl ⟨rfl, Or.inl h⟩
    · exact Or.inl ⟨rfl, Or.inr h⟩
    all_goals
      right
      subst h
      apply List.mem_map_of_mem Sym.name
      first
        | (simp; done)
        | simp [*]
  | false =>
    simp only [hstd, Bool.false_eq_true, if_false] at hs
    right
    rcases hs with ((h | h | h | h) | ⟨k, hk, h⟩) | h | h | h | h
    all_goals
      subst h
      apply List.mem_map_of_mem Sym.name
      first
        | (simp; done)
        | simp [*]

/-- C16: in the block of a mode the tables come first and the record last;
the record refers, in this order, to the band edges, the allocation vectors,
`logN`, the window, one FFT state for each `k` in `0..mdct.maxshift`, the MDCT
twiddles and the three pulse-cache tables; every name it refers to is either
one of the two fixed names `eband5ms` and `band_allocation` of a standard mode
or, character for character, the name of a definition written before it in
the same block; and the FFT states referred to are the FFT-state records of
the block. -/
theorem mode_record_references_defined (e : Env V) (m : CELTMode V) :
    modeBlock e m = modeTables e m ++ modeRecord e m
    ∧ references (modeRecord e m)
        = [if standard m then "eband5ms" else (Sym.eBands m.Fs (mdctSize m)).name,
           if standard m then "band_allocation"
             else (Sym.allocVectors m.Fs (mdctSize m)).name,
           (Sym.logN (framerate m)).name, (Sym.window m.overlap).name]
          ++ (upTo (m.mdct.maxshift + 1)).map
               (fun (k : Nat) => (Sym.fftState m.Fs (mdctSize m) (k : Int)).name)
          ++ [(Sym.mdctTwiddles (mdctSize m)).name, (Sym.cacheIndex (cacheRate m)).name,
              (Sym.cacheBits (cacheRate m)).name, (Sym.cacheCaps (cacheRate m)).name]
    ∧ (∀ s ∈ references (modeRecord e m),
        (m.Fs = 400 * m.shortMdctSize ∧ (s = "eband5ms" ∨ s = "band_allocation"))
        ∨ s ∈ (definitions (modeTables e m)).map Sym.name)
    ∧ (m.Fs ≠ 400 * m.shortMdctSize →
        ∀ s ∈ references (modeRecord e m), s ∈ (definitions (modeTables e m)).map Sym.name)
    ∧ (modeRecord e m).filterMap Item.addressRef
        = (stateRecords (modeBlock e m)).map Sym.name := by
  refine ⟨rfl, references_modeRecord e m, ?_, ?_, ?_⟩
  · intro s hs
    rcases generated_refs_defined e m s hs with ⟨h1, h2⟩ | h
    · exact Or.inl ⟨(standard_iff m).mp h1, h2⟩
    · exact Or.inr h
  · intro hne s hs
    rcases generated_refs_defined e m s hs with ⟨h1, _⟩ | h
    · exact absurd ((standard_iff m).mp h1) hne
    · exact h
  · rw [addressRefs_modeRecord, stateRecords_modeBlock, List.map_map]
    rfl

/-! ## FFT tables per shift level -/

theorem fftBlock_within (e : Env V) (m : CELTMode V) : fftBlock e m <:+: modeBlock e m :=
  ⟨eBandsBlock m ++ windowBlock e m ++ allocBlock m ++ logNBlock m ++ cacheBlock m,
    mdctBlock e m ++ modeRecord e m, by simp [modeBlock, modeTables]⟩

theorem bitrevBlock_within (e : Env V) (m : CELTMode V) (k : Nat)
    (hk : k ∈ upTo (m.mdct.maxshift + 1)) : bitrevBlock m k <:+: modeBlock e m := by
  have h1 : bitrevBlock m k <:+: (upTo (m.mdct.maxshift + 1)).flatMap (bitrevBlock m) :=
    List.infix_of_mem_flatten (List.mem_map_of_mem (bitrevBlock m) hk)
  obtain ⟨a, b, hab⟩ := h1
  exact List.IsInfix.trans
    ⟨fftTwiddlesOpen e m ++ a,
      b ++ (upTo (m.mdct.maxshift + 1)).flatMap (stateBlock e m) ++ [.endif, .text "\n"],
      by simp [fftBlock, ← hab]⟩
    (fftBlock_within e m)

theorem stateBlock_within (e : Env V) (m : CELTMode V) (k : Nat)
    (hk : k ∈ upTo (m.mdct.maxshift + 1)) : stateBlock e m k <:+: modeBlock e m := by
  have h1 : stateBlock e m k <:+: (upTo (m.mdct.maxshift + 1)).flatMap (stateBlock e m) :=
    List.infix_of_mem_flatten (List.mem_map_of_mem (stateBlock e m) hk)
  obtain ⟨a, b, hab⟩ := h1
  exact List.IsInfix.trans
    ⟨fftTwiddlesOpen e m ++ (upTo (m.mdct.maxshift + 1)).flatMap (bitrevBlock m) ++ a,
      b ++ [.endif, .text "\n"], by simp [fftBlock, ← hab]⟩
    (fftBlock_within e m)

theorem stateBlock_refs (e : Env V) (m : CELTMode V) (k : Nat) :
    Item.recordOpen "kiss_fft_state" (Sym.fftState m.Fs (mdctSize m) k) ∈ stateBlock e m k
    ∧ Item.ref "" (Sym.fftBitrev (m.mdct.kfft k).nfft).name ",\t/* bitrev */\n"
        ∈ stateBlock e m k
    ∧ Item.ref "" (Sym.fftTwiddles m.Fs (mdctSize m)).name ",\t/* bitrev */\n"
        ∈ stateBlock e m k := by
  unfold stateBlock
  cases e.scale <;> simp

theorem bitrevBlock_table (m : CELTMode V) (k : Nat) :
    Item.tableOpen "opus_int16" (Sym.fftBitrev (m.mdct.kfft k).nfft) (m.mdct.kfft k).nfft
      ∈ bitrevBlock m k := by
  simp [bitrevBlock]

/-- C14 (amended): for every shift level `k` from 0 to `mdct.maxshift`
inclusive (the bound of the loops of lines 152 and 167, which is not `maxLM`),
the block of a mode holds one conditional under `FFT_BITREV<nfft_k>` with the
table `fft_bitrev<nfft_k>` and one conditional under
`FFT_STATE<Fs>_<frameSize>_<k>` with the record `fft_state<Fs>_<frameSize>_<k>`,
which refers to `fft_bitrev<nfft_k>` and `fft_twiddles<Fs>_<frameSize>` by
name; the FFT-state records of the block are these, in order, so there are
`mdct.maxshift+1` of them when `mdct.maxshift ≥ -1`, which is `maxLM+1` for a
descriptor with `mdct.maxshift == maxLM`. -/
theorem fft_tables_per_shift (e : Env V) (m : CELTMode V) :
    (∀ k : Nat, (k : Int) ≤ m.mdct.maxshift →
      Simple (.fftBitrev (m.mdct.kfft k).nfft) (bitrevBlock m k)
      ∧ bitrevBlock m k <:+: modeBlock e m
      ∧ Item.tableOpen "opus_int16" (Sym.fftBitrev (m.mdct.kfft k).nfft) (m.mdct.kfft k).nfft
          ∈ bitrevBlock m k
      ∧ Simple (.fftState m.Fs (mdctSize m) k) (stateBlock e m k)
      ∧ stateBlock e m k <:+: modeBlock e m
      ∧ Item.recordOpen "kiss_fft_state" (Sym.fftState m.Fs (mdctSize m) k) ∈ stateBlock e m k
      ∧ Item.ref "" (Sym.fftBitrev (m.mdct.kfft k).nfft).name ",\t/* bitrev */\n"
          ∈ stateBlock e m k
      ∧ Item.ref "" (Sym.fftTwiddles m.Fs (mdctSize m)).name ",\t/* bitrev */\n"
          ∈ stateBlock e m k)
    ∧ stateRecords (modeBlock e m)
        = (upTo (m.mdct.maxshift + 1)).map
            (fun (k : Nat) => Sym.fftState m.Fs (mdctSize m) (k : Int))
    ∧ (-1 ≤ m.mdct.maxshift →
        ((stateRecords (modeBlock e m)).length : Int) = m.mdct.maxshift + 1)
    ∧ (m.mdct.maxshift = m.maxLM → 0 ≤ m.maxLM →
        ((stateRecords (modeBlock e m)).length : Int) = m.maxLM + 1) := by
  have hlen : -1 ≤ m.mdct.maxshift →
      ((stateRecords (modeBlock e m)).length : Int) = m.mdct.maxshift + 1 := by
    intro h
    rw [stateRecords_modeBlock, List.length_map, upTo_length]
    exact Int.toNat_of_nonneg (by omega)
  refine ⟨?_, stateRecords_modeBlock e m, hlen, ?_⟩
  · intro k hk
    have hmem : k ∈ upTo (m.mdct.maxshift + 1) := (mem_upTo k _).mpr (by omega)
    obtain ⟨r1, r2, r3⟩ := stateBlock_refs e m k
    exact ⟨bitrevBlock_simple m k, bitrevBlock_within e m k hmem, bitrevBlock_table m k,
      stateBlock_simple e m k, stateBlock_within e m k hmem, r1, r2, r3⟩
  · intro heq hpos
    rw [← heq]
    exact hlen (by omega)

set_option maxRecDepth 100000 in
/-- The claim of C14 fails on a descriptor whose `maxLM` is 2 while its
`mdct.maxshift` is 0: its block holds one FFT-state record, not three, and
neither a state record nor a bit-reversal table for the shift levels 1 and
2. -/
theorem fft_tables_per_shift_counterexample :
    sampleModeLM2.maxLM = 2
    ∧ stateRecords (modeBlock (fixedPoint 8) sampleModeLM2) = [Sym.fftState 48000 240 0]
    ∧ (definitions (modeBlock (fixedPoint 8) sampleModeLM2)).filter
        (fun t => t.pfx == "fft_bitrev") = [Sym.fftBitrev 2] := by
  decide

/-! ## The pulse-cache tables under one guard -/

/-- The loop over the modes leaves the pulse-cache guard of every mode
defined. -/
theorem Cpp.modeBlocks_cache_defined (e : Env V) : ∀ (modes : List (CELTMode V)) (s : Cpp),
    Cpp.Inv s → ∀ m ∈ modes, (Guard.pulseCache (cacheRate m)).name
      ∈ (Cpp.run s (modes.flatMap (modeBlock e))).defined := by
  intro modes
  induction modes with
  | nil => intro s _ m hm; simp at hm
  | cons a modes ih =>
    intro s hs m hm
    rw [List.flatMap_cons, Cpp.run_append]
    have h1 := Cpp.Inv_modeBlock e a s hs
    rcases List.mem_cons.mp hm with rfl | h
    · exact (Cpp.Inv_modeBlocks e modes _ h1.1).2.1.1 _ h1.2.2.2.2.1
    · exact ih _ h1.1 m h

/-- The state of the preprocessor at the end of the loop over the modes
keeps the tables that the whole output keeps. -/
theorem preprocess_after_loop (e : Env V) (modes : List (CELTMode V)) :
    Cpp.Inv (Cpp.run (Cpp.run ⟨[], 0, []⟩ (preamble modes)) (modes.flatMap (modeBlock e)))
    ∧ tableDefs (preprocess (dump_modes e modes))
        = tableDefs (Cpp.run (Cpp.run ⟨[], 0, []⟩ (preamble modes))
            (modes.flatMap (modeBlock e))).kept := by
  have hp : (∀ i ∈ preamble modes, i.plain = true) ∧ tableDefs (preamble modes) = [] := by
    constructor
    · apply plain_of_all
      simp [preamble, List.all_append, List.all_map, Item.plain]
    · simp [-List.filterMap_map, preamble, tableDefs, definitions, List.filterMap_append,
        filterMap_cons_toList, filterMap_map_none, Item.defines]
  have h1 := Cpp.Inv_plain _ (preamble modes) Cpp.Inv_init hp.1 hp.2
  have h2 := Cpp.Inv_modeBlocks e modes _ h1.1
  refine ⟨h2.1, ?_⟩
  rcases hs : Cpp.run (Cpp.run ⟨[], 0, []⟩ (preamble modes))
    (modes.flatMap (modeBlock e)) with ⟨D, k, K⟩
  have hk : k = 0 := by have := h2.1.1; rw [hs] at this; exact this
  subst hk
  have hl : (∀ i ∈ (modes.map (fun mode =>
            Item.ref "&" (Sym.mode mode.Fs (mdctSize mode) mode.overlap).name ",\n")
          ++ [Item.close]), i.plain = true) := by
    apply plain_of_all
    simp [List.all_append, List.all_map, Item.plain]
  have hm : modeList modes = [.text "\n", .text "/* List of all the available modes */\n",
      .totalModes (modes.length : Int), .listOpen]
      ++ (modes.map (fun mode =>
            Item.ref "&" (Sym.mode mode.Fs (mdctSize mode) mode.overlap).name ",\n")
          ++ [.close]) := by
    simp [modeList]
  unfold preprocess dump_modes
  rw [Cpp.run_append, Cpp.run_append, hs, hm]
  simp only [List.cons_append, List.nil_append, Cpp.run_cons, Cpp.step, if_true,
    Cpp.run_plain _ _ hl, tableDefs_append]
  simp [-List.filterMap_map, tableDefs, definitions, List.filterMap_append,
      filterMap_cons_toList, filterMap_map_none, Item.defines]

theorem cacheBlock_within (e : Env V) (modes : List (CELTMode V)) (m : CELTMode V)
    (hm : m ∈ modes) : cacheBlock m <:+: dump_modes e modes := by
  have h1 : modeBlock e m <:+: modes.flatMap (modeBlock e) :=
    List.infix_of_mem_flatten (List.mem_map_of_mem (modeBlock e) hm)
  have h2 : cacheBlock m <:+: modeBlock e m :=
    ⟨eBandsBlock m ++ windowBlock e m ++ allocBlock m ++ logNBlock m,
      fftBlock e m ++ mdctBlock e m ++ modeRecord e m, by simp [modeBlock, modeTables]⟩
  obtain ⟨a, b, hab⟩ := h1
  exact List.IsInfix.trans h2 ⟨preamble modes ++ a, b ++ modeList modes, by
    simp [dump_modes, ← hab]⟩

/-- C13: for a descriptor `m` of the batch with non-zero frame size, with
`K = Fs/frameSize`, the quotient rounded toward zero, the output holds the conditional `#ifndef DEF_PULSE_CACHE<K>`,
`#define DEF_PULSE_CACHE<K>`, body, `#endif`, whose body holds no directive
and defines exactly `cache_index<K>`, `cache_bits<K>` and `cache_caps<K>`, in
this order. The preprocessor, text being kept and whatever macros are defined,
keeps the whole body when the guard is not yet defined and nothing of it when
it is. Once the conditionals of the whole output are evaluated, no macro being
defined at the start, the three tables of `m` are kept, and for every key the
three tables are kept together or not at all. -/
theorem pulse_cache_tables_together (e : Env V) (modes : List (CELTMode V)) (m : CELTMode V)
    (hm : m ∈ modes) (h0 : mdctSize m ≠ 0) :
    ((cacheRate m).natAbs * (mdctSize m).natAbs ≤ m.Fs.natAbs
      ∧ m.Fs.natAbs < ((cacheRate m).natAbs + 1) * (mdctSize m).natAbs)
    ∧ cacheBlock m <:+: dump_modes e modes
    ∧ (∃ body : List Item,
        cacheBlock m = [.ifndef (.pulseCache (cacheRate m)), .define (.pulseCache (cacheRate m))]
          ++ body ++ [.endif, .text "\n"]
        ∧ (∀ i ∈ body, i.plain = true)
        ∧ definitions body = [.cacheIndex (cacheRate m), .cacheBits (cacheRate m),
            .cacheCaps (cacheRate m)]
        ∧ ∀ (D : List String) (K : List Item),
            ((Guard.pulseCache (cacheRate m)).name ∉ D →
              (Cpp.run ⟨D, 0, K⟩ (cacheBlock m)).kept = K ++ body ++ [.text "\n"])
            ∧ ((Guard.pulseCache (cacheRate m)).name ∈ D →
              (Cpp.run ⟨D, 0, K⟩ (cacheBlock m)).kept = K ++ [.text "\n"]))
    ∧ Sym.cacheIndex (cacheRate m) ∈ tableDefs (preprocess (dump_modes e modes))
    ∧ Sym.cacheBits (cacheRate m) ∈ tableDefs (preprocess (dump_modes e modes))
    ∧ Sym.cacheCaps (cacheRate m) ∈ tableDefs (preprocess (dump_modes e modes))
    ∧ ∀ k : Int,
        (Sym.cacheIndex k ∈ tableDefs (preprocess (dump_modes e modes))
          ↔ Sym.cacheBits k ∈ tableDefs (preprocess (dump_modes e modes)))
        ∧ (Sym.cacheBits k ∈ tableDefs (preprocess (dump_modes e modes))
          ↔ Sym.cacheCaps k ∈ tableDefs (preprocess (dump_modes e modes))) := by
  obtain ⟨hinv, hkept⟩ := preprocess_after_loop e modes
  have hdef := Cpp.modeBlocks_cache_defined e modes _
    (Cpp.Inv_plain _ (preamble modes) Cpp.Inv_init
      (by apply plain_of_all; simp [preamble, List.all_append, List.all_map, Item.plain])
      (by simp [-List.filterMap_map, preamble, tableDefs, definitions, List.filterMap_append,
        filterMap_cons_toList, filterMap_map_none, Item.defines])).1 m hm
  have hall : ∀ (k : Int) (t : Sym), t.guard = some (Guard.pulseCache k) →
      t ∈ tableDefs (preprocess (dump_modes e modes)) →
      ∀ t2 ∈ (Guard.pulseCache k).tables, t2 ∈ tableDefs (preprocess (dump_modes e modes)) := by
    intro k t hg ht t2 ht2
    rw [hkept] at ht ⊢
    obtain ⟨g, hg1, hg2⟩ := hinv.2.2.1 t ht
    rw [hg] at hg1
    cases hg1
    exact hinv.2.2.2 _ hg2 t2 ht2
  have hthree : ∀ t2 ∈ (Guard.pulseCache (cacheRate m)).tables,
      t2 ∈ tableDefs (preprocess (dump_modes e modes)) := by
    intro t2 ht2
    rw [hkept]
    exact hinv.2.2.2 _ hdef t2 ht2
  obtain ⟨body, hb, hp, ht⟩ := cacheBlock_simple m
  have hq : (cacheRate m).natAbs * (mdctSize m).natAbs ≤ m.Fs.natAbs
      ∧ m.Fs.natAbs < ((cacheRate m).natAbs + 1) * (mdctSize m).natAbs := by
    have hpos : 0 < (mdctSize m).natAbs := Int.natAbs_pos.mpr h0
    have hdiv : (cacheRate m).natAbs = m.Fs.natAbs / (mdctSize m).natAbs :=
      Int.natAbs_tdiv m.Fs (mdctSize m)
    rw [hdiv]
    refine ⟨Nat.div_mul_le_self _ _, ?_⟩
    have h1 := Nat.div_add_mod m.Fs.natAbs (mdctSize m).natAbs
    have h2 := Nat.mod_lt m.Fs.natAbs hpos
    calc m.Fs.natAbs
        = (mdctSize m).natAbs * (m.Fs.natAbs / (mdctSize m).natAbs)
            + m.Fs.natAbs % (mdctSize m).natAbs := h1.symm
      _ < (mdctSize m).natAbs * (m.Fs.natAbs / (mdctSize m).natAbs) + (mdctSize m).natAbs := by
          omega
      _ = (m.Fs.natAbs / (mdctSize m).natAbs + 1) * (mdctSize m).natAbs := by ring
  refine ⟨hq, cacheBlock_within e modes m hm, ⟨body, hb, hp, ?_, ?_⟩,
    hthree _ (by simp [Guard.tables]), hthree _ (by simp [Guard.tables]),
    hthree _ (by simp [Guard.tables]), ?_⟩
  · have hd : definitions (cacheBlock m) = [.cacheIndex (cacheRate m), .cacheBits (cacheRate m),
        .cacheCaps (cacheRate m)] := by
      simp [-List.filterMap_map, cacheBlock, definitions, List.filterMap_append,
        filterMap_cons_toList, filterMap_map_none, Item.defines]
    rw [hb] at hd
    simpa [guardedBlock, definitions, List.filterMap_append, Item.defines] using hd
  · intro D K
    rw [hb]
    exact ⟨fun h => by rw [Cpp.run_block_new D K _ body hp h],
      fun h => by rw [Cpp.run_block_known D K _ body hp h]⟩
  · intro k
    refine ⟨⟨fun h => ?_, fun h => ?_⟩, ⟨fun h => ?_, fun h => ?_⟩⟩
    · exact hall k (.cacheIndex k) rfl h _ (by simp [Guard.tables])
    · exact hall k (.cacheBits k) rfl h _ (by simp [Guard.tables])
    · exact hall k (.cacheBits k) rfl h _ (by simp [Guard.tables])
    · exact hall k (.cacheCaps k) rfl h _ (by simp [Guard.tables])

set_option maxRecDepth 100000 in
/-- The statement of C13 on a batch of one mode of 48000 Hz and frame size
240, whose key is 200. -/
theorem pulse_cache_tables_together_witness :
    sampleMode 48000 120 2 4 ∈ [sampleMode 48000 120 2 4]
    ∧ mdctSize (sampleMode 48000 120 2 4) ≠ 0
    ∧ cacheRate (sampleMode 48000 120 2 4) = 200
    ∧ Sym.cacheIndex 200 ∈ tableDefs (preprocess (dump_modes (fixedPoint 8)
        [sampleMode 48000 120 2 4])) :=
  ⟨by simp, by decide, by decide,
    (pulse_cache_tables_together (fixedPoint 8) [sampleMode 48000 120 2 4]
      (sampleMode 48000 120 2 4) (by simp) (by decide)).2.2.2.1⟩

/-! ## Balance and depth of the conditionals -/

theorem nest_none (bound : Nat) : ∀ xs : List Item, xs.foldl (Nest.step bound) none = none := by
  intro xs
  induction xs with
  | nil => rfl
  | cons i xs ih => rw [List.foldl_cons]; exact ih

theorem nest_append (bound : Nat) (s : Option Nat) (xs ys : List Item) :
    (xs ++ ys).foldl (Nest.step bound) s
      = ys.foldl (Nest.step bound) (xs.foldl (Nest.step bound) s) :=
  List.foldl_append _ _ _ _

/-- The count of open conditionals agrees with the numbers of `#ifndef` and
`#endif` lines read and stays within its bound. -/
theorem nest_counts (bound : Nat) : ∀ (xs : List Item) (d r : Nat), d ≤ bound →
    xs.foldl (Nest.step bound) (some d) = some r →
    r ≤ bound ∧ r + countEndif xs = d + countIfndef xs := by
  intro xs
  induction xs with
  | nil =>
    intro d r hd h
    simp only [List.foldl_nil, Option.some.injEq] at h
    subst h
    exact ⟨hd, rfl⟩
  | cons i xs ih =>
    intro d r hd h
    rw [List.foldl_cons] at h
    cases i with
    | ifndef g =>
      by_cases hb : d + 1 ≤ bound
      · simp only [Nest.step, hb, if_true] at h
        obtain ⟨h1, h2⟩ := ih (d + 1) r hb h
        refine ⟨h1, ?_⟩
        simp only [countEndif, countIfndef, List.countP_cons, Item.isIfndef, Item.isEndif] at h2 ⊢
        simp
        omega
      · simp only [Nest.step, hb, if_false] at h
        rw [nest_none] at h
        cases h
    | endif =>
      by_cases hb : 0 < d
      · simp only [Nest.step, hb, if_true] at h
        obtain ⟨h1, h2⟩ := ih (d - 1) r (by omega) h
        refine ⟨h1, ?_⟩
        simp only [countEndif, countIfndef, List.countP_cons, Item.isIfndef, Item.isEndif] at h2 ⊢
        simp
        omega
      · simp only [Nest.step, hb, if_false] at h
        rw [nest_none] at h
        cases h
    | _ =>
      simp only [Nest.step] at h
      obtain ⟨h1, h2⟩ := ih d r hd h
      refine ⟨h1, ?_⟩
      simp only [countEndif, countIfndef, List.countP_cons, Item.isIfndef, Item.isEndif] at h2 ⊢
      simpa using h2

/-- A text whose conditionals nest within a bound has them so in all its
prefixes. -/
theorem nest_take (bound : Nat) (xs : List Item) (d r : Nat) (n : Nat)
    (h : xs.foldl (Nest.step bound) (some d) = some r) :
    ∃ q : Nat, (xs.take n).foldl (Nest.step bound) (some d) = some q := by
  rw [← List.take_append_drop n xs, nest_append] at h
  cases hq : (xs.take n).foldl (Nest.step bound) (some d) with
  | none => rw [hq, nest_none] at h; cases h
  | some q => exact ⟨q, rfl⟩

theorem prefix_counts (bound : Nat) (xs : List Item) (r : Nat) (n : Nat)
    (h : nesting bound 0 xs = some r) :
    countEndif (xs.take n) ≤ countIfndef (xs.take n)
    ∧ countIfndef (xs.take n) ≤ countEndif (xs.take n) + bound := by
  obtain ⟨q, hq⟩ := nest_take bound xs 0 r n h
  obtain ⟨h1, h2⟩ := nest_counts bound _ 0 q (Nat.zero_le _) hq
  omega

theorem nestStep_plain (bound d : Nat) (i : Item) (hi : i.plain = true) :
    Nest.step bound (some d) i = some d := by
  cases i <;> simp_all [Item.plain, Nest.step]

theorem nestStep_free (bound d : Nat) (i : Item) (hi : i.free = true) :
    Nest.step bound (some d) i = some d := by
  cases i <;> simp_all [Item.free, Nest.step]

theorem nest_plain (bound : Nat) : ∀ (xs : List Item) (d : Nat), (∀ i ∈ xs, i.plain = true) →
    xs.foldl (Nest.step bound) (some d) = some d := by
  intro xs
  induction xs with
  | nil => intro d _; rfl
  | cons i xs ih =>
    intro d h
    rw [List.foldl_cons, nestStep_plain bound d i (h i (by simp))]
    exact ih d (fun j hj => h j (by simp [hj]))

theorem nest_free (bound : Nat) : ∀ (xs : List Item) (d : Nat), (∀ i ∈ xs, i.free = true) →
    xs.foldl (Nest.step bound) (some d) = some d := by
  intro xs
  induction xs with
  | nil => intro d _; rfl
  | cons i xs ih =>
    intro d h
    rw [List.foldl_cons, nestStep_free bound d i (h i (by simp))]
    exact ih d (fun j hj => h j (by simp [hj]))

theorem nest_block (bound d : Nat) (hd : d + 1 ≤ bound) (g : Guard) (body : List Item)
    (hb : ∀ i ∈ body, i.plain = true) :
    (guardedBlock g body).foldl (Nest.step bound) (some d) = some d := by
  simp [guardedBlock, List.foldl_append, Nest.step, nest_plain bound body (d + 1) hb, hd]

theorem nest_simple (bound d : Nat) (hd : d + 1 ≤ bound) (g : Guard) (xs : List Item)
    (hx : Simple g xs) : xs.foldl (Nest.step bound) (some d) = some d := by
  obtain ⟨body, rfl, hp, _⟩ := hx
  exact nest_block bound d hd g body hp

theorem nest_simples {α : Type} (g : α → Guard) (f : α → List Item)
    (hf : ∀ a, Simple (g a) (f a)) (bound d : Nat) (hd : d + 1 ≤ bound) :
    ∀ l : List α, (l.flatMap f).foldl (Nest.step bound) (some d) = some d := by
  intro l
  induction l with
  | nil => rfl
  | cons a l ih =>
    rw [List.flatMap_cons, nest_append, nest_simple bound d hd (g a) (f a) (hf a), ih]

theorem nest_fftBlock (e : Env V) (m : CELTMode V) (bound d : Nat) (hd : d + 2 ≤ bound) :
    (fftBlock e m).foldl (Nest.step bound) (some d) = some d := by
  obtain ⟨body, hshape, hp, _⟩ := fftTwiddlesOpen_shape e m
  unfold fftBlock
  rw [hshape, nest_append, nest_append, nest_append]
  have h1 : d + 1 ≤ bound := by omega
  have e1 : ([Item.ifndef (.fftTwiddles m.Fs (mdctSize m)),
      Item.define (.fftTwiddles m.Fs (mdctSize m))] ++ body).foldl (Nest.step bound) (some d)
      = some (d + 1) := by
    simp [List.foldl_append, Nest.step, nest_plain bound body (d + 1) hp, h1]
  rw [e1, nest_simples _ _ (bitrevBlock_simple m) bound (d + 1) hd,
    nest_simples _ _ (stateBlock_simple e m) bound (d + 1) hd]
  simp [Nest.step]

theorem nest_optional (m : CELTMode V) :
    nesting 1 0 (eBandsBlock m) = some 0 ∧ nesting 1 0 (allocBlock m) = some 0 := by
  cases h : standard m with
  | false => exact ⟨nest_simple 1 0 (by omega) _ _ (eBandsBlock_simple m h),
      nest_simple 1 0 (by omega) _ _ (allocBlock_simple m h)⟩
  | true => simp [eBandsBlock, allocBlock, h, nesting]

theorem nest_mono (b1 b2 : Nat) (hb : b1 ≤ b2) : ∀ (xs : List Item) (d r : Nat),
    xs.foldl (Nest.step b1) (some d) = some r → xs.foldl (Nest.step b2) (some d) = some r := by
  intro xs
  induction xs with
  | nil => intro d r h; exact h
  | cons i xs ih =>
    intro d r h
    rw [List.foldl_cons] at h ⊢
    cases i with
    | ifndef g =>
      by_cases h1 : d + 1 ≤ b1
      · have h2 : d + 1 ≤ b2 := by omega
        simp only [Nest.step, h1, h2, if_true] at h ⊢
        exact ih _ _ h
      · simp only [Nest.step, h1, if_false] at h
        rw [nest_none] at h
        cases h
    | endif =>
      by_cases h1 : 0 < d
      · simp only [Nest.step, h1, if_true] at h ⊢
        exact ih _ _ h
      · simp only [Nest.step, h1, if_false] at h
        rw [nest_none] at h
        cases h
    | _ =>
      simp only [Nest.step] at h ⊢
      exact ih _ _ h

theorem nest_modeBlock (e : Env V) (m : CELTMode V) :
    nesting 2 0 (modeBlock e m) = some 0 := by
  unfold nesting modeBlock modeTables
  simp only [nest_append]
  rw [nest_mono 1 2 (by omega) _ 0 0 (nest_optional m).1,
    nest_simple 2 0 (by omega) _ _ (windowBlock_simple e m),
    nest_mono 1 2 (by omega) _ 0 0 (nest_optional m).2,
    nest_simple 2 0 (by omega) _ _ (logNBlock_simple m),
    nest_simple 2 0 (by omega) _ _ (cacheBlock_simple m), nest_fftBlock e m 2 0 (by omega),
    nest_simple 2 0 (by omega) _ _ (mdctBlock_simple e m), nest_free 2 _ 0 (modeRecord_free e m)]

theorem nest_modeBlocks (e : Env V) : ∀ modes : List (CELTMode V),
    nesting 2 0 (modes.flatMap (modeBlock e)) = some 0 := by
  intro modes
  induction modes with
  | nil => rfl
  | cons m modes ih =>
    unfold nesting at ih ⊢
    rw [List.flatMap_cons, nest_append]
    have := nest_modeBlock e m
    unfold nesting at this
    rw [this, ih]

theorem preamble_free (modes : List (CELTMode V)) : ∀ i ∈ preamble modes, i.free = true := by
  apply List.all_eq_true.mp
  simp [preamble, List.all_append, List.all_map, Item.free]

theorem modeList_free (modes : List (CELTMode V)) : ∀ i ∈ modeList modes, i.free = true := by
  apply List.all_eq_true.mp
  simp [modeList, List.all_append, List.all_map, Item.free]

theorem nest_dump_modes (e : Env V) (modes : List (CELTMode V)) :
    nesting 2 0 (dump_modes e modes) = some 0 := by
  have h := nest_modeBlocks e modes
  unfold nesting dump_modes at *
  rw [nest_append, nest_append, nest_free 2 _ 0 (preamble_free modes), h,
    nest_free 2 _ 0 (modeList_free modes)]

theorem nest_upto_mode (e : Env V) (modes ms1 : List (CELTMode V)) :
    nesting 2 0 (preamble modes ++ ms1.flatMap (modeBlock e)) = some 0 := by
  have h := nest_modeBlocks e ms1
  unfold nesting at *
  rw [nest_append, nest_free 2 _ 0 (preamble_free modes), h]

theorem counts_of_nesting (bound : Nat) (xs : List Item) (h : nesting bound 0 xs = some 0) :
    countIfndef xs = countEndif xs := by
  have := (nest_counts bound xs 0 0 (Nat.zero_le _) h).2
  omega

theorem upTo_nonneg_cons (n : Int) (h : 0 ≤ n) :
    upTo (n + 1) = 0 :: (List.range n.toNat).map Nat.succ := by
  have : (n + 1).toNat = n.toNat + 1 := by omega
  rw [upTo, this, List.range_succ_eq_map]

theorem upTo_neg (n : Int) (h : n < 0) : upTo (n + 1) = [] := by
  have : (n + 1).toNat = 0 := by omega
  rw [upTo, this]; rfl

theorem fftBlock_shape (e : Env V) (m : CELTMode V) :
    ∃ body : List Item,
      fftBlock e m
        = [.ifndef (.fftTwiddles m.Fs (mdctSize m)), .define (.fftTwiddles m.Fs (mdctSize m))]
          ++ body
          ++ (upTo (m.mdct.maxshift + 1)).flatMap (bitrevBlock m)
          ++ (upTo (m.mdct.maxshift + 1)).flatMap (stateBlock e m)
          ++ [.endif, .text "\n"]
      ∧ nesting 0 0 body = some 0 := by
  obtain ⟨body, hshape, hp, _⟩ := fftTwiddlesOpen_shape e m
  exact ⟨body, by rw [fftBlock, hshape], nest_plain 0 body 0 hp⟩

/-- With a shift level to emit, the FFT block opens a conditional inside its
own; with none it does not. -/
theorem fftBlock_depth (e : Env V) (m : CELTMode V) :
    (0 ≤ m.mdct.maxshift → nesting 1 0 (fftBlock e m) = none)
    ∧ (m.mdct.maxshift < 0 → nesting 1 0 (fftBlock e m) = some 0) := by
  obtain ⟨body, hshape, hp, _⟩ := fftTwiddlesOpen_shape e m
  have e1 : ([Item.ifndef (.fftTwiddles m.Fs (mdctSize m)),
      Item.define (.fftTwiddles m.Fs (mdctSize m))] ++ body).foldl (Nest.step 1) (some 0)
      = some 1 := by
    simp [List.foldl_append, Nest.step, nest_plain 1 body 1 hp]
  constructor
  · intro h
    unfold nesting fftBlock
    rw [hshape, nest_append, nest_append, nest_append, e1, upTo_nonneg_cons _ h,
      List.flatMap_cons, nest_append]
    have : (bitrevBlock m 0).foldl (Nest.step 1) (some 1) = none := by
      simp [bitrevBlock, List.foldl_cons, Nest.step, nest_none]
    rw [this, nest_none, nest_none, nest_none]
  · intro h
    unfold nesting fftBlock
    rw [hshape, nest_append, nest_append, nest_append, e1, upTo_neg _ h]
    simp [Nest.step]

/-- C18: in the output of `dump_modes`, for every batch and every descriptor
(so every value of `mdct.maxshift`), every prefix has at least as many
`#ifndef` lines as `#endif` lines and at most two more; the numbers are equal
at the end of each turn of the loop over the modes, at the end of the output
and over the block of each mode. In the block of a mode the conditionals of
the band edges, the window, the allocation vectors, `logN`, the pulse cache
and the MDCT twiddles open no conditional inside them and the record holds
none; the FFT block is `#ifndef FFT_TWIDDLES<Fs>_<frameSize>`, its `#define`,
the twiddles without a directive, the bit-reversal conditionals and the FFT
state conditionals of the shift levels `0 .. mdct.maxshift`, each with no
conditional inside, then the `#endif` of the twiddles guard: two conditionals
are open inside it exactly when `0 ≤ mdct.maxshift`. -/
theorem conditionals_balanced (e : Env V) (modes : List (CELTMode V)) :
    (∀ n : Nat,
      countEndif ((dump_modes e modes).take n) ≤ countIfndef ((dump_modes e modes).take n)
      ∧ countIfndef ((dump_modes e modes).take n)
          ≤ countEndif ((dump_modes e modes).take n) + 2)
    ∧ (∀ ms1 ms2 : List (CELTMode V), modes = ms1 ++ ms2 →
        preamble modes ++ ms1.flatMap (modeBlock e) <+: dump_modes e modes
        ∧ countIfndef (preamble modes ++ ms1.flatMap (modeBlock e))
            = countEndif (preamble modes ++ ms1.flatMap (modeBlock e)))
    ∧ countIfndef (dump_modes e modes) = countEndif (dump_modes e modes)
    ∧ ∀ m : CELTMode V,
        countIfndef (modeBlock e m) = countEndif (modeBlock e m)
        ∧ modeBlock e m = eBandsBlock m ++ windowBlock e m ++ allocBlock m ++ logNBlock m
            ++ cacheBlock m ++ fftBlock e m ++ mdctBlock e m ++ modeRecord e m
        ∧ nesting 1 0 (eBandsBlock m) = some 0
        ∧ nesting 1 0 (windowBlock e m) = some 0
        ∧ nesting 1 0 (allocBlock m) = some 0
        ∧ nesting 1 0 (logNBlock m) = some 0
        ∧ nesting 1 0 (cacheBlock m) = some 0
        ∧ nesting 1 0 (mdctBlock e m) = some 0
        ∧ nesting 0 0 (modeRecord e m) = some 0
        ∧ nesting 2 0 (fftBlock e m) = some 0
        ∧ (0 ≤ m.mdct.maxshift → nesting 1 0 (fftBlock e m) = none)
        ∧ (m.mdct.maxshift < 0 → nesting 1 0 (fftBlock e m) = some 0)
        ∧ (∃ body : List Item,
            fftBlock e m
              = [.ifndef (.fftTwiddles m.Fs (mdctSize m)),
                 .define (.fftTwiddles m.Fs (mdctSize m))]
                ++ body
                ++ (upTo (m.mdct.maxshift + 1)).flatMap (bitrevBlock m)
                ++ (upTo (m.mdct.maxshift + 1)).flatMap (stateBlock e m)
                ++ [.endif, .text "\n"]
            ∧ nesting 0 0 body = some 0)
        ∧ ∀ k : Nat,
            Simple (.fftBitrev (m.mdct.kfft k).nfft) (bitrevBlock m k)
            ∧ nesting 1 0 (bitrevBlock m k) = some 0
            ∧ Simple (.fftState m.Fs (mdctSize m) k) (stateBlock e m k)
            ∧ nesting 1 0 (stateBlock e m k) = some 0 := by
  refine ⟨fun n => prefix_counts 2 _ 0 n (nest_dump_modes e modes), ?_,
    counts_of_nesting 2 _ (nest_dump_modes e modes), ?_⟩
  · intro ms1 ms2 h
    refine ⟨⟨ms2.flatMap (modeBlock e) ++ modeList modes, ?_⟩,
      counts_of_nesting 2 _ (nest_upto_mode e modes ms1)⟩
    simp [dump_modes, h, List.flatMap_append]
  · intro m
    refine ⟨counts_of_nesting 2 _ (nest_modeBlock e m), by simp [modeBlock, modeTables],
      (nest_optional m).1, nest_simple 1 0 (by omega) _ _ (windowBlock_simple e m),
      (nest_optional m).2, nest_simple 1 0 (by omega) _ _ (logNBlock_simple m),
      nest_simple 1 0 (by omega) _ _ (cacheBlock_simple m),
      nest_simple 1 0 (by omega) _ _ (mdctBlock_simple e m),
      nest_free 0 _ 0 (modeRecord_free e m), nest_fftBlock e m 2 0 (by omega),
      (fftBlock_depth e m).1, (fftBlock_depth e m).2, fftBlock_shape e m, ?_⟩
    intro k
    exact ⟨bitrevBlock_simple m k, nest_simple 1 0 (by omega) _ _ (bitrevBlock_simple m k),
      stateBlock_simple e m k, nest_simple 1 0 (by omega) _ _ (stateBlock_simple e m k)⟩

end DumpModes
